import Mathlib

/-!
The autofs trigger request coordinator (sys/miscfs/autofs).

A shallow embedding of the request table, the trigger path, the device of
the daemon and the node tree of the autofs kernel file system (`autofs.c`,
`autofs.h`, `autofs_vfsops.c`, `autofs_vnops.c`), followed by theorems
about it.

Conventions of the embedding.

* A C string is the list of its bytes before the terminating NUL.
* A pointer to a `struct autofs_mount` is a natural number (its address);
  the memory holding the mounts is a function `Nat → autofs_mount`.
* The parent pointer of a node is `Option autofs_node`: the chain of
  ancestors up to the root, the root being the node whose parent is `none`.
* A red-black tree `an_children` (`sys/tree.h`) is the list of its nodes in
  the order of the tree, the least node first; where the trees below the
  nodes matter, each node comes with its own tree (`autofs_node_tree`).
* A pointer to a request that is linked in `sc_requests` is the request's
  `ar_id`; requests linked at the same time have different ids
  (`autofs_run_refcount`).
* `int` values are mathematical integers: overflowing a signed counter is
  undefined in C and no such run is described here.  The `u_int`
  reference count wraps modulo `2 ^ 32`.
* `size_t` has 64 bits.  `AUTOFS_MAXPATHLEN`, defined in `autofs_ioctl.h`,
  is the parameter `maxlen` of the functions that copy strings.
* `KASSERT`s are checks of debugging kernels; they are not executed.
* The sysctl integers do not change during a call.
* The node given to `autofs_trigger` is in memory that other threads
  reach.  Its retry counter `an_retries` may be written by them whenever
  the caller sleeps; what they left is an input of each attempt
  (`autofs_node_found`).  Its other fields are taken as written by the
  call only.
* A sleep (`rwsleep`, `tsleep`) releases the coordinator lock.  What the
  other threads did meanwhile is an input: each sleep consumes one entry
  of a list, giving the value the sleep returned and the coordinator
  state found on waking up.  A function that runs out of entries while it
  still has to sleep returns `none`: the thread is still parked.
-/

namespace Autofs

/-! ## Constants of `<sys/errno.h>` -/

def EINTR : Int := 4
def ENXIO : Int := 6
def ESRCH : Int := 3
def ERESTART : Int := -1
def ETIMEDOUT : Int := 60
def ENOENT : Int := 2
def ENOTDIR : Int := 20
def EBUSY : Int := 16

/-! ## Data model (`autofs.h`) -/

/-- The sysctl integers of `autofs.c:80-86`. -/
structure autofs_tunables where
  autofs_mount_on_stat : Int
  autofs_timeout : Int
  autofs_cache : Int
  autofs_retry_attempts : Int
  autofs_retry_delay : Int
  autofs_interruptible : Int
deriving DecidableEq

/-- The initial values of the sysctl integers (`autofs.c:80-86`). -/
def autofs_defaults : autofs_tunables :=
  { autofs_mount_on_stat := 0, autofs_timeout := 30, autofs_cache := 600,
    autofs_retry_attempts := 3, autofs_retry_delay := 1,
    autofs_interruptible := 1 }

/-- The fields of `struct autofs_mount` (`autofs.h:143-153`) that hold data;
`am_root`, `am_mp` and the lock are left out. -/
structure autofs_mount where
  am_from : List Char
  am_on : List Char
  am_options : List Char
  am_prefix : List Char
  am_last_ino : Nat
deriving DecidableEq

/-- The fields of `struct autofs_node` (`autofs.h:125-141`) read or written
by the trigger path.  `an_timeout` is `some s` once the cache timer has been
armed with `timeout_add_sec(&anp->an_timeout, s)`. -/
structure autofs_node where
  an_name : List Char
  an_ino : Nat
  an_parent : Option autofs_node
  an_mount : Nat
  an_cached : Bool
  an_wildcards : Bool
  an_timeout : Option Int
  an_retries : Int

/-- The `struct autofs_request` of `autofs.h:155-171`.  `ar_timeout` is
`some s` once the timer has been armed with `timeout_add_sec` for `s`
seconds. -/
structure autofs_request where
  ar_mount : Nat
  ar_id : Int
  ar_done : Bool
  ar_error : Int
  ar_wildcards : Bool
  ar_in_progress : Bool
  ar_from : List Char
  ar_path : List Char
  ar_prefix : List Char
  ar_key : List Char
  ar_options : List Char
  ar_timeout : Option Int
  ar_refcount : Nat
deriving DecidableEq

/-- The `struct autofs_softc` of `autofs.h:173-180`, without the wait channel
and the lock. -/
structure autofs_softc where
  sc_requests : List autofs_request
  sc_dev_opened : Bool
  sc_dev_sid : Int
  sc_last_request_id : Int
deriving DecidableEq

/-! ## String helpers (`autofs.c:522-550`, libkern) -/

/-- The function `kstrdup` (`autofs.c:525-536`). -/
def kstrdup (str : List Char) : List Char := str

/-- The function `kstrndup` (`autofs.c:538-550`): the first
`strnlen(str, maxlen)` bytes. -/
def kstrndup (str : List Char) (maxlen : Nat) : List Char := str.take maxlen

/-- The function `strlcpy(dst, src, size)`: at most `size - 1` bytes of `src`. -/
def strlcpy (size : Nat) (src : List Char) : List Char := src.take (size - 1)

/-- Conversion of an `int` argument to `size_t` (64 bits). -/
def size_t_of_int (n : Int) : Nat := (n % 2 ^ 64).toNat

/-! ## `autofs_path` and the request key (`autofs.c:118-141`, `251-259`) -/

/-- The loop of `autofs_path` (`autofs.c:126-132`): each node on the way up
puts `name/` in front of the path built so far. -/
def autofs_path_loop : autofs_node → List Char → List Char
  | ⟨name, _, some parent, _, _, _, _, _⟩, path =>
      autofs_path_loop parent (name ++ '/' :: path)
  | ⟨_, _, none, _, _, _, _, _⟩, path => path

/-- The function `autofs_path` (`autofs.c:118-141`). -/
def autofs_path (mounts : Nat → autofs_mount) (anp : autofs_node) : List Char :=
  let amp := mounts anp.an_mount
  let path := autofs_path_loop anp (kstrdup [])
  amp.am_on ++ '/' :: path

/-- The loop of `autofs.c:255-257`, entered with a node whose parent is
`parent`: go up while the parent has a parent. -/
def autofs_firstanp : autofs_node → autofs_node → autofs_node
  | firstanp, ⟨_, _, none, _, _, _, _, _⟩ => firstanp
  | _, ⟨n, i, some grandparent, m, c, w, t, r⟩ =>
      autofs_firstanp ⟨n, i, some grandparent, m, c, w, t, r⟩ grandparent

/-- The key of a request (`autofs.c:251-259`). -/
def autofs_key (anp : autofs_node) (component : List Char) (componentlen : Int) :
    List Char :=
  match anp.an_parent with
  | none => kstrndup component (size_t_of_int componentlen)
  | some parent => kstrdup (autofs_firstanp anp parent).an_name

/-! ## `autofs_trigger_one`, first half (`autofs.c:261-296`) -/

/-- The scan of `autofs.c:263-276`: the first request whose stored path and
key compare equal to `path` and `key` gets one more reference; the result
is the new list and the id of that request, or `none` when the scan ends
with `ar == NULL`. -/
def autofs_request_join (path key : List Char) :
    List autofs_request → Option (List autofs_request × Int)
  | [] => none
  | ar :: rest =>
      if ar.ar_path = path ∧ ar.ar_key = key then
        some ({ ar with ar_refcount := (ar.ar_refcount + 1) % 2 ^ 32 } :: rest, ar.ar_id)
      else
        match autofs_request_join path key rest with
        | some (rest', id) => some (ar :: rest', id)
        | none => none

/-- The request built at `autofs.c:278-294`. -/
def autofs_request_new (maxlen : Nat) (t : autofs_tunables)
    (mounts : Nat → autofs_mount) (sc : autofs_softc) (anp : autofs_node)
    (path key : List Char) : autofs_request :=
  let amp := mounts anp.an_mount
  { ar_mount := anp.an_mount
    ar_id := sc.sc_last_request_id
    ar_done := false
    ar_error := 0
    ar_wildcards := false
    ar_in_progress := false
    ar_from := strlcpy maxlen amp.am_from
    ar_path := strlcpy maxlen path
    ar_prefix := strlcpy maxlen amp.am_prefix
    ar_key := strlcpy maxlen key
    ar_options := strlcpy maxlen amp.am_options
    ar_timeout := some t.autofs_timeout
    ar_refcount := 1 }

/-- The first half of `autofs_trigger_one` (`autofs.c:251-296`): join the
request with the same path and key, or append a new one.  `maxlen` is
`AUTOFS_MAXPATHLEN`, the size of the string buffers of a request.  The
result is the new coordinator state and the request the caller holds. -/
def autofs_trigger_one_submit (maxlen : Nat) (t : autofs_tunables)
    (mounts : Nat → autofs_mount) (sc : autofs_softc) (anp : autofs_node)
    (component : List Char) (componentlen : Int) : autofs_softc × Int :=
  let key := autofs_key anp component componentlen
  let path := autofs_path mounts anp
  match autofs_request_join path key sc.sc_requests with
  | some (requests, id) => ({ sc with sc_requests := requests }, id)
  | none =>
      let ar := autofs_request_new maxlen t mounts sc anp path key
      ({ sc with
          sc_requests := sc.sc_requests ++ [ar]
          sc_last_request_id := sc.sc_last_request_id + 1 }, ar.ar_id)

/-! ## `autofs_trigger_one`, second half (`autofs.c:298-353`) -/

/-- The request a caller points to: the linked request with that id. -/
def autofs_request_find (id : Int) (requests : List autofs_request) :
    Option autofs_request :=
  requests.find? (fun ar => ar.ar_id = id)

/-- The wait loop of `autofs.c:299-317`.  `error` is the local variable of
that name.  Each sleep takes one entry `(e, sc')`: `rwsleep` returned `e` and
the coordinator state is `sc'` when the lock is held again.  The result is
the state and the value of `error` on leaving the loop. -/
def autofs_trigger_one_wait (t : autofs_tunables) (id : Int) :
    List (Int × autofs_softc) → autofs_softc → Int → Option (autofs_softc × Int)
  | [], sc, error =>
      match autofs_request_find id sc.sc_requests with
      | none => none
      | some ar => if ar.ar_done then some (sc, error) else none
  | (e, sc') :: sleeps, sc, error =>
      match autofs_request_find id sc.sc_requests with
      | none => none
      | some ar =>
          if ar.ar_done then some (sc, error)
          else if t.autofs_interruptible ≠ 0 ∧ e ≠ 0 then some (sc', e)
          else autofs_trigger_one_wait t id sleeps sc' e

/-- The release of `autofs.c:329-335`: the request loses one reference
(`atomic_add_int_nv(&ar->ar_refcount, -1)` on a `u_int`) and is removed
from the list when the new count is zero. -/
def autofs_request_release (id : Int) : List autofs_request → List autofs_request
  | [] => []
  | ar :: rest =>
      if ar.ar_id = id then
        if (ar.ar_refcount + 2 ^ 32 - 1) % 2 ^ 32 = 0 then rest
        else { ar with ar_refcount := (ar.ar_refcount + 2 ^ 32 - 1) % 2 ^ 32 } :: rest
      else ar :: autofs_request_release id rest

/-- The cache update of `autofs.c:342-346`. -/
def autofs_trigger_one_cache (t : autofs_tunables) (anp : autofs_node)
    (error request_error : Int) (wildcards : Bool) : autofs_node :=
  if error = 0 ∧ request_error = 0 ∧ t.autofs_cache > 0 then
    { anp with
        an_cached := true
        an_wildcards := wildcards
        an_timeout := some t.autofs_cache }
  else anp

/-- What `autofs_trigger_one` does once the wait loop is left
(`autofs.c:319-353`), for the caller holding request `id` in state `sc`
with `error` the value of the local variable: snapshot, release, cache
update, return value.  `none` when no request with that id is linked. -/
def autofs_trigger_one_finish (t : autofs_tunables) (sc : autofs_softc)
    (anp : autofs_node) (id : Int) (error : Int) :
    Option (autofs_softc × autofs_node × Int) :=
  match autofs_request_find id sc.sc_requests with
  | none => none
  | some ar =>
      let request_error := ar.ar_error
      let wildcards := ar.ar_wildcards
      let sc' := { sc with sc_requests := autofs_request_release id sc.sc_requests }
      let anp' := autofs_trigger_one_cache t anp error request_error wildcards
      some (sc', anp', if error ≠ 0 then error else request_error)

/-- The function `autofs_trigger_one` (`autofs.c:239-354`).  The result is
the coordinator state, the node and the value returned. -/
def autofs_trigger_one (maxlen : Nat) (t : autofs_tunables)
    (mounts : Nat → autofs_mount) (sc : autofs_softc) (anp : autofs_node)
    (component : List Char) (componentlen : Int)
    (sleeps : List (Int × autofs_softc)) :
    Option (autofs_softc × autofs_node × Int) :=
  match autofs_trigger_one_submit maxlen t mounts sc anp component componentlen with
  | (sc1, id) =>
      match autofs_trigger_one_wait t id sleeps sc1 0 with
      | none => none
      | some (sc2, error) => autofs_trigger_one_finish t sc2 anp id error

/-- The two reads of `autofs.c:319-324` by the caller holding request `id`
in state `sc`: the values of its local variables `request_error` and
`wildcards`.  `none` when no request with that id is linked. -/
def autofs_trigger_one_snapshot (sc : autofs_softc) (id : Int) : Option (Int × Bool) :=
  match autofs_request_find id sc.sc_requests with
  | none => none
  | some ar => some (ar.ar_error, ar.ar_wildcards)

/-! ## `autofs_trigger` (`autofs.c:356-390`) -/

/-- What a call of `autofs_trigger` leaves: the coordinator state, the node,
the value returned, and the number of calls of `autofs_trigger_one` it
made (`calls` is not a variable of the program). -/
structure autofs_trigger_result where
  sc : autofs_softc
  anp : autofs_node
  error : Int
  calls : Nat

/-- The node as `autofs_trigger` finds it when its call of
`autofs_trigger_one` has returned (`autofs.c:364`).  `an_retries` is a field
of the node in memory, and the callers of `autofs_trigger` on the same node
write it under the coordinator lock, which this caller gives up in every
sleep.  `written` is `some v` when another thread has written the field
since this caller last held the lock after reading or writing it (during
the retry delay before the attempt or the sleeps of the attempt), `v`
being the value found; it is `none` when the field is as this caller left
it. -/
def autofs_node_found (written : Option Int) (anp : autofs_node) : autofs_node :=
  match written with
  | some v => { anp with an_retries := v }
  | none => anp

/-- The function `autofs_trigger` (`autofs.c:356-390`).  Each attempt takes
one entry `(sleeps, written, sc')` of the list: `sleeps` are the sleeps of
its call of `autofs_trigger_one`, `written` what other threads have done to
`an_retries` by the time that call returns (`autofs_node_found`), `sc'` the
coordinator state found after the retry delay.  `calls` counts the
attempts made before this one. -/
def autofs_trigger_loop (maxlen : Nat) (t : autofs_tunables)
    (mounts : Nat → autofs_mount) (component : List Char) (componentlen : Int) :
    List (List (Int × autofs_softc) × Option Int × autofs_softc) → autofs_softc →
    autofs_node → Nat → Option autofs_trigger_result
  | [], _, _, _ => none
  | (sleeps, written, sc') :: env, sc, anp, calls =>
      match autofs_trigger_one maxlen t mounts sc anp component componentlen sleeps with
      | none => none
      | some (sc1, anp1, error) =>
          if error = 0 then
            some ⟨sc1, { autofs_node_found written anp1 with an_retries := 0 }, 0, calls + 1⟩
          else if error = EINTR ∨ error = ERESTART then
            some ⟨sc1, { autofs_node_found written anp1 with an_retries := 0 }, error,
              calls + 1⟩
          else if (autofs_node_found written anp1).an_retries + 1 ≥
              t.autofs_retry_attempts then
            some ⟨sc1, { autofs_node_found written anp1 with an_retries := 0 }, error,
              calls + 1⟩
          else
            autofs_trigger_loop maxlen t mounts component componentlen env sc'
              { autofs_node_found written anp1 with
                  an_retries := (autofs_node_found written anp1).an_retries + 1 }
              (calls + 1)

/-- The function `autofs_trigger` (`autofs.c:356-390`). -/
def autofs_trigger (maxlen : Nat) (t : autofs_tunables)
    (mounts : Nat → autofs_mount) (sc : autofs_softc) (anp : autofs_node)
    (component : List Char) (componentlen : Int)
    (env : List (List (Int × autofs_softc) × Option Int × autofs_softc)) :
    Option autofs_trigger_result :=
  autofs_trigger_loop maxlen t mounts component componentlen env sc anp 0

/-! ## The daemon side (`autofs.c:392-458`) -/

/-- Modelled from the spec: `struct autofs_daemon_request` of
`autofs_ioctl.h`, a file that is missing here; the spec (section 6) gives
it as an `int id` followed by the five strings `from`, `path`, `prefix`,
`key`, `options`, each a buffer of the same size as those of a request. -/
structure autofs_daemon_request where
  adr_id : Int
  adr_from : List Char
  adr_path : List Char
  adr_prefix : List Char
  adr_key : List Char
  adr_options : List Char
deriving DecidableEq

/-- Modelled from the spec: `struct autofs_daemon_done` of `autofs_ioctl.h`,
a file that is missing here; the spec (section 6) gives it as
`int id; int error; bool wildcards`. -/
structure autofs_daemon_done where
  add_id : Int
  add_error : Int
  add_wildcards : Bool
deriving DecidableEq

/-- The scan of `autofs.c:400-406` followed by `autofs.c:419`: the first
request that is neither done nor in progress is marked in progress.  The
result is the new list and the request found, or `none` when the scan
ends with `ar == NULL`. -/
def autofs_request_fetch :
    List autofs_request → Option (List autofs_request × autofs_request)
  | [] => none
  | ar :: rest =>
      if ar.ar_done then
        match autofs_request_fetch rest with
        | some (rest', found) => some (ar :: rest', found)
        | none => none
      else if ar.ar_in_progress then
        match autofs_request_fetch rest with
        | some (rest', found) => some (ar :: rest', found)
        | none => none
      else some ({ ar with ar_in_progress := true } :: rest, ar)

/-- The copy of `autofs.c:423-428` into the buffer of the daemon. -/
def autofs_daemon_request_copy (maxlen : Nat) (ar : autofs_request) :
    autofs_daemon_request :=
  { adr_id := ar.ar_id
    adr_from := strlcpy maxlen ar.ar_from
    adr_path := strlcpy maxlen ar.ar_path
    adr_prefix := strlcpy maxlen ar.ar_prefix
    adr_key := strlcpy maxlen ar.ar_key
    adr_options := strlcpy maxlen ar.ar_options }

/-- The function `autofs_ioctl_request` (`autofs.c:392-431`), called by a
process of process group `pg_id` with the buffer `adr`.  The result is the
coordinator state, the buffer and the value returned. -/
def autofs_ioctl_request (maxlen : Nat) (pg_id : Int) (adr : autofs_daemon_request) :
    List (Int × autofs_softc) → autofs_softc →
    Option (autofs_softc × autofs_daemon_request × Int)
  | [], sc =>
      match autofs_request_fetch sc.sc_requests with
      | some (requests, ar) =>
          some ({ sc with sc_requests := requests, sc_dev_sid := pg_id },
            autofs_daemon_request_copy maxlen ar, 0)
      | none => none
  | (e, sc') :: sleeps, sc =>
      match autofs_request_fetch sc.sc_requests with
      | some (requests, ar) =>
          some ({ sc with sc_requests := requests, sc_dev_sid := pg_id },
            autofs_daemon_request_copy maxlen ar, 0)
      | none =>
          if e ≠ 0 then some (sc', adr, e)
          else autofs_ioctl_request maxlen pg_id adr sleeps sc'

/-- The scan of `autofs.c:439-441` followed by `autofs.c:449-452`: the first
request with the id is completed; `none` when the scan ends with
`ar == NULL`. -/
def autofs_request_done (add : autofs_daemon_done) :
    List autofs_request → Option (List autofs_request)
  | [] => none
  | ar :: rest =>
      if ar.ar_id = add.add_id then
        some ({ ar with
                ar_error := add.add_error
                ar_wildcards := add.add_wildcards
                ar_done := true
                ar_in_progress := false } :: rest)
      else
        match autofs_request_done add rest with
        | some rest' => some (ar :: rest')
        | none => none

/-- The function `autofs_ioctl_done` (`autofs.c:433-458`). -/
def autofs_ioctl_done (sc : autofs_softc) (add : autofs_daemon_done) :
    autofs_softc × Int :=
  match autofs_request_done add sc.sc_requests with
  | none => (sc, ESRCH)
  | some requests => ({ sc with sc_requests := requests }, 0)

/-! ## Request timeout and unmount sweep -/

/-- The assignments of `autofs.c:152-155` on the request the task was set
up for. -/
def autofs_request_expire (id : Int) : List autofs_request → List autofs_request
  | [] => []
  | ar :: rest =>
      if ar.ar_id = id then
        { ar with
            ar_error := ETIMEDOUT
            ar_wildcards := true
            ar_done := true
            ar_in_progress := false } :: rest
      else ar :: autofs_request_expire id rest

/-- The function `autofs_request_timeout_task` (`autofs.c:143-158`) for the
linked request `id`. -/
def autofs_request_timeout_task (sc : autofs_softc) (id : Int) : autofs_softc :=
  { sc with sc_requests := autofs_request_expire id sc.sc_requests }

/-- The loop of `autofs_vfsops.c:174-181`; `found` is the local variable. -/
def autofs_unmount_sweep (amp : Nat) :
    List autofs_request → Bool → List autofs_request × Bool
  | [], found => ([], found)
  | ar :: rest, found =>
      if ar.ar_mount ≠ amp then
        ((ar :: (autofs_unmount_sweep amp rest found).1),
          (autofs_unmount_sweep amp rest found).2)
      else
        (({ ar with ar_error := ENXIO, ar_done := true, ar_in_progress := false } ::
            (autofs_unmount_sweep amp rest true).1),
          (autofs_unmount_sweep amp rest true).2)

/-- One pass of the loop of `autofs_unmount` (`autofs_vfsops.c:172-185`) for
the mount at address `amp`: the new state and the value of `found`. -/
def autofs_unmount_pass (sc : autofs_softc) (amp : Nat) : autofs_softc × Bool :=
  ({ sc with sc_requests := (autofs_unmount_sweep amp sc.sc_requests false).1 },
    (autofs_unmount_sweep amp sc.sc_requests false).2)

/-! ## Runs of the coordinator -/

/-- The coordinator state set up by `autofs_init` (`autofs_vfsops.c:55-61`):
zeroed memory and an empty request list. -/
def autofs_init : autofs_softc :=
  { sc_requests := [], sc_dev_opened := false, sc_dev_sid := 0,
    sc_last_request_id := 0 }

/-- The steps made under the coordinator lock.
* `submit`: a thread runs `autofs_trigger_one` up to the wait loop;
* `leave n`: the `n`-th parked caller leaves the wait loop and runs
  `autofs.c:319-335`;
* `fetch`: `autofs_ioctl_request` finds a request;
* `done`: `autofs_ioctl_done`;
* `timeout`: the timeout task of a request runs;
* `unmount`: one pass of the sweep of `autofs_unmount`. -/
inductive autofs_event where
  | submit (anp : autofs_node) (component : List Char) (componentlen : Int)
  | leave (n : Nat)
  | fetch (pg_id : Int)
  | done (add : autofs_daemon_done)
  | timeout (id : Int)
  | unmount (amp : Nat)

/-- The coordinator together with what the threads around it hold:
`callers` are the requests held by the callers parked in the wait loop of
`autofs_trigger_one`, `fetched` the ids handed out by
`autofs_ioctl_request` so far, oldest first. -/
structure autofs_state where
  sc : autofs_softc
  callers : List Int
  fetched : List Int
deriving DecidableEq

/-- One step.  `maxthread` bounds the number of threads of the system, so
that of the parked callers.  A step that the program cannot make in the
state (no thread left, no such caller, a caller that cannot leave the loop
because its request is not done and the wait is not interruptible, nothing
to fetch) leaves the state as it is. -/
def autofs_step (maxlen : Nat) (t : autofs_tunables) (mounts : Nat → autofs_mount)
    (maxthread : Nat) (s : autofs_state) : autofs_event → autofs_state
  | .submit anp component componentlen =>
      if s.callers.length < maxthread then
        match autofs_trigger_one_submit maxlen t mounts s.sc anp component componentlen with
        | (sc', id) => { s with sc := sc', callers := s.callers ++ [id] }
      else s
  | .leave n =>
      match s.callers.get? n with
      | none => s
      | some id =>
          match autofs_request_find id s.sc.sc_requests with
          | none => s
          | some ar =>
              if ar.ar_done = true ∨ t.autofs_interruptible ≠ 0 then
                { s with
                    sc := { s.sc with
                      sc_requests := autofs_request_release id s.sc.sc_requests }
                    callers := s.callers.eraseIdx n }
              else s
  | .fetch pg_id =>
      match autofs_request_fetch s.sc.sc_requests with
      | none => s
      | some (requests, ar) =>
          { s with
              sc := { s.sc with sc_requests := requests, sc_dev_sid := pg_id }
              fetched := s.fetched ++ [ar.ar_id] }
  | .done add => { s with sc := (autofs_ioctl_done s.sc add).1 }
  | .timeout id => { s with sc := autofs_request_timeout_task s.sc id }
  | .unmount amp => { s with sc := (autofs_unmount_pass s.sc amp).1 }

/-- The state reached from `autofs_init` by a sequence of steps. -/
def autofs_run (maxlen : Nat) (t : autofs_tunables) (mounts : Nat → autofs_mount)
    (maxthread : Nat) (evs : List autofs_event) : autofs_state :=
  evs.foldl (autofs_step maxlen t mounts maxthread) ⟨autofs_init, [], []⟩

/-! ## The retry loop as specified -/

/-- The retry loop of the specification (section 4.3), written from its
pseudocode: `results` are the outcomes of the successive `submit_wait`,
`attempts` the counter.  The result is the value returned and the value
of the counter of outcomes used; `none` when the outcomes run out. -/
def trigger_spec (retry_attempts : Int) : List Int → Nat → Option (Int × Nat)
  | [], _ => none
  | err :: results, attempts =>
      if err = 0 then some (0, attempts + 1)
      else if err = EINTR ∨ err = ERESTART then some (err, attempts + 1)
      else if ((attempts + 1 : Nat) : Int) ≥ retry_attempts then some (err, attempts + 1)
      else trigger_spec retry_attempts results (attempts + 1)

/-- The values returned by the calls of `autofs_trigger_one` that
`autofs_trigger` makes when no attempt ends the loop: the outcome of each
attempt in turn, up to the first one that is still parked. -/
def autofs_trigger_errors (maxlen : Nat) (t : autofs_tunables)
    (mounts : Nat → autofs_mount) (component : List Char) (componentlen : Int) :
    List (List (Int × autofs_softc) × Option Int × autofs_softc) → autofs_softc →
    autofs_node → List Int
  | [], _, _ => []
  | (sleeps, written, sc') :: env, sc, anp =>
      match autofs_trigger_one maxlen t mounts sc anp component componentlen sleeps with
      | none => []
      | some (_, anp1, error) =>
          error :: autofs_trigger_errors maxlen t mounts component componentlen env sc'
            { autofs_node_found written anp1 with
                an_retries := (autofs_node_found written anp1).an_retries + 1 }

/-! ## Self-trigger suppression (`autofs.c:97-116`) -/

/-- The function `autofs_ignore_thread` (`autofs.c:97-116`), called by a
process of process group `pg_id`: the coordinator state it leaves and the
value returned. -/
def autofs_ignore_thread (sc : autofs_softc) (pg_id : Int) : autofs_softc × Bool :=
  if sc.sc_dev_opened = false then (sc, false)
  else if sc.sc_dev_sid = pg_id then (sc, true)
  else (sc, false)

/-! ## The children of a node (`autofs.c:88-95`, `autofs_vnops.c:732-794`) -/

/-- The function `strcmp` of libkern: 0 for equal strings, otherwise the
difference of the first bytes that differ, the end of a string counting as
the byte 0. -/
def strcmp : List Char → List Char → Int
  | [], [] => 0
  | [], b :: _ => 0 - (b.toNat : Int)
  | a :: _, [] => (a.toNat : Int)
  | a :: s1, b :: s2 => if a = b then strcmp s1 s2 else (a.toNat : Int) - (b.toNat : Int)

/-- The function `autofs_node_cmp` (`autofs.c:88-93`). -/
def autofs_node_cmp (a b : autofs_node) : Int := strcmp a.an_name b.an_name

/-- The lookup `RB_FIND(autofs_node_tree, head, find)` generated at
`autofs.c:95`: the node of the tree that compares equal to the key.  The
tree `an_children` is the list of its nodes in the order of the tree; the
key node, of which only the name is set, is given by that name. -/
def autofs_node_tree_RB_FIND (children : List autofs_node) (find_name : List Char) :
    Option autofs_node :=
  children.find? (fun c => strcmp find_name c.an_name = 0)

/-- The insertion `RB_INSERT(autofs_node_tree, head, elm)` generated at
`autofs.c:95`: `elm` is put at its place in the order of the tree, unless a
node of the tree compares equal to it. -/
def autofs_node_tree_RB_INSERT (elm : autofs_node) : List autofs_node → List autofs_node
  | [] => [elm]
  | c :: rest =>
      if autofs_node_cmp elm c < 0 then elm :: c :: rest
      else if autofs_node_cmp elm c > 0 then c :: autofs_node_tree_RB_INSERT elm rest
      else c :: rest

/-- The function `autofs_node_find` (`autofs_vnops.c:768-794`) on the
children of `parent`: the value returned and the node stored through
`anpp`. -/
def autofs_node_find (children : List autofs_node) (name : List Char) (namelen : Int) :
    Int × Option autofs_node :=
  match autofs_node_tree_RB_FIND children
      (if namelen ≥ 0 then kstrndup name (size_t_of_int namelen) else kstrdup name) with
  | some anp => (0, some anp)
  | none => (ENOENT, none)

/-- The inode of the root node (`autofs.h:83`). -/
def AUTOFS_ROOTINO : Nat := 1

/-- What a call of `autofs_node_new` leaves: the mount, the new node, the
children of the new node and the children of the parent. -/
structure autofs_node_new_result where
  mount : autofs_mount
  anp : autofs_node
  an_children : List autofs_node
  siblings : List autofs_node

/-- The function `autofs_node_new` (`autofs_vnops.c:732-766`) for the mount
`mnt` at address `amp`; `siblings` are the children of `parent` before the
call.  The function returns 0.  Inode numbers are natural numbers. -/
def autofs_node_new (mnt : autofs_mount) (amp : Nat) (parent : Option autofs_node)
    (siblings : List autofs_node) (name : List Char) (namelen : Int) :
    autofs_node_new_result :=
  { mount := { mnt with am_last_ino := mnt.am_last_ino + 1 }
    anp :=
      { an_name := kstrndup name (size_t_of_int namelen)
        an_ino := mnt.am_last_ino
        an_parent := parent
        an_mount := amp
        an_cached := false
        an_wildcards := false
        an_timeout := none
        an_retries := 0 }
    an_children := []
    siblings :=
      match parent with
      | some _ =>
          autofs_node_tree_RB_INSERT
            { an_name := kstrndup name (size_t_of_int namelen)
              an_ino := mnt.am_last_ino
              an_parent := parent
              an_mount := amp
              an_cached := false
              an_wildcards := false
              an_timeout := none
              an_retries := 0 } siblings
      | none => siblings }

/-- The end of `autofs_mount` (`autofs_vfsops.c:128-135`) for the mount `mnt`
at address `amp`: the inode counter is set and the root node is made. -/
def autofs_mount_setup (mnt : autofs_mount) (amp : Nat) : autofs_node_new_result :=
  autofs_node_new { mnt with am_last_ino := AUTOFS_ROOTINO } amp none [] ['.'] (-1)

/-- The nodes made by a sequence of calls of `autofs_node_new` in the mount
`mnt` at address `amp`, each call given by the parent, its children, the
name and its length. -/
def autofs_node_new_seq (amp : Nat) :
    autofs_mount → List (Option autofs_node × List autofs_node × List Char × Int) →
    List autofs_node
  | _, [] => []
  | mnt, (parent, siblings, name, namelen) :: calls =>
      (autofs_node_new mnt amp parent siblings name namelen).anp ::
        autofs_node_new_seq amp
          (autofs_node_new mnt amp parent siblings name namelen).mount calls

/-! ## The cache test (`autofs.c:169-194`) -/

/-- The function `autofs_cached` (`autofs.c:169-194`); `children` are the
children of `anp`. -/
def autofs_cached (anp : autofs_node) (children : List autofs_node)
    (component : List Char) (componentlen : Int) : Bool :=
  if anp.an_parent.isNone = true ∧ componentlen ≠ 0 ∧ anp.an_wildcards = true then
    if (autofs_node_find children component componentlen).1 ≠ 0 then false
    else anp.an_cached
  else anp.an_cached

/-! ## The trigger in the vnode operations (`autofs_vnops.c`) -/

/-- The function `autofs_trigger_vn` (`autofs_vnops.c:134-193`) up to its call
of `autofs_trigger`: whether it makes that call; `v_mountedhere` tells
that a file system is mounted on the vnode. -/
def autofs_trigger_vn_calls (v_mountedhere : Bool) : Bool := !v_mountedhere

/-- The function `autofs_lookup` (`autofs_vnops.c:194-352`) up to the test of
`autofs_vnops.c:286-287`: whether it calls `autofs_trigger_vn`.
`cache_lookup` is the value returned by `cache_lookup`, `isdotdot` the
flag `ISDOTDOT` of the component. -/
def autofs_lookup_calls (sc : autofs_softc) (pg_id : Int) (anp : autofs_node)
    (children : List autofs_node) (cache_lookup : Int) (isdotdot : Bool)
    (cn_nameptr : List Char) (cn_namelen : Int) : Bool :=
  if cache_lookup = ENOENT then false
  else if cache_lookup ≠ -1 then false
  else if isdotdot = true then false
  else if cn_namelen = 1 ∧ cn_nameptr.head? = some '.' then false
  else if autofs_cached anp children cn_nameptr cn_namelen = false ∧
      (autofs_ignore_thread sc pg_id).2 = false then true
  else false

/-- The function `autofs_readdir` (`autofs_vnops.c:505-625`) up to the test of
`autofs_vnops.c:528-529`: whether it calls `autofs_trigger_vn`; `vdir`
tells that the vnode is a directory. -/
def autofs_readdir_calls (sc : autofs_softc) (pg_id : Int) (anp : autofs_node)
    (children : List autofs_node) (vdir : Bool) : Bool :=
  if vdir = false then false
  else if autofs_cached anp children [] 0 = false ∧
      (autofs_ignore_thread sc pg_id).2 = false then true
  else false

/-- The function `autofs_getattr` (`autofs_vnops.c:66-126`) up to the test of
`autofs_vnops.c:86-88`: whether it calls `autofs_trigger_vn`. -/
def autofs_getattr_calls (t : autofs_tunables) (sc : autofs_softc) (pg_id : Int)
    (anp : autofs_node) (children : List autofs_node) : Bool :=
  if t.autofs_mount_on_stat ≠ 0 ∧ autofs_cached anp children [] 0 = false ∧
      (autofs_ignore_thread sc pg_id).2 = false then true
  else false

/-! ## The device of the daemon (`autofs.c:466-500`) -/

/-- The function `autofsopen` (`autofs.c:466-488`), called by a process of
process group `_pg_id`, which the function does not read: the coordinator
state it leaves and the value returned. -/
def autofsopen (sc : autofs_softc) (_pg_id : Int) : autofs_softc × Int :=
  if sc.sc_dev_opened = true then (sc, EBUSY)
  else ({ sc with sc_dev_opened := true }, 0)

/-- The function `autofsclose` (`autofs.c:490-500`), called by a process of
process group `_pg_id`: the coordinator state it leaves and the value
returned. -/
def autofsclose (sc : autofs_softc) (_pg_id : Int) : autofs_softc × Int :=
  ({ sc with sc_dev_opened := false }, 0)

/-! ## The nodes of a mount at unmount (`autofs_vfsops.c:193-206`) -/

/-- A tree `an_children` with all that hangs below it: its nodes in the
order of the tree, each with its own tree of children.  `nil` is the empty
tree; `node anp children next` is the tree whose least node is `anp`, with
the children `children` of `anp` and the other nodes `next`. -/
inductive autofs_node_tree where
  | nil
  | node (anp : autofs_node) (children : autofs_node_tree) (next : autofs_node_tree)

/-- The descent of `autofs_vfsops.c:200-203` followed by the call of
`autofs_node_delete` (`autofs_vnops.c:796-810`).  The descent is at `anp`,
the least node of a tree, with `children` the children of `anp` and `next`
the other nodes of that tree.  While `anp` has children the descent goes
on at the least of them; the node reached is handed to `autofs_node_delete`,
whose `RB_REMOVE` takes it out of the children of its parent.  The result
is the node deleted, the children it had at the call, and the tree that is
left. -/
def autofs_unmount_descend :
    autofs_node → autofs_node_tree → autofs_node_tree →
    (autofs_node × autofs_node_tree) × autofs_node_tree
  | anp, .nil, next => ((anp, .nil), next)
  | anp, .node child grandchildren others, next =>
      ((autofs_unmount_descend child grandchildren others).1,
        .node anp (autofs_unmount_descend child grandchildren others).2 next)

/-- The loop of `autofs_vfsops.c:193-204` on the children of the root, for
at most `fuel` turns: the calls of `autofs_node_delete` made, each with the
node and the children it had at the call, and the children of the root on
leaving the loop.  `none` when the loop has not ended after `fuel` turns. -/
def autofs_unmount_loop :
    Nat → autofs_node_tree →
    Option (List (autofs_node × autofs_node_tree) × autofs_node_tree)
  | _, .nil => some ([], .nil)
  | 0, .node _ _ _ => none
  | fuel + 1, .node anp children next =>
      match autofs_unmount_loop fuel (autofs_unmount_descend anp children next).2 with
      | some (deleted, left) =>
          some ((autofs_unmount_descend anp children next).1 :: deleted, left)
      | none => none

/-- The end of `autofs_unmount` (`autofs_vfsops.c:192-206`) for the root node
`am_root` with the children `children`: the calls of `autofs_node_delete`
made, in their order, each with the node and the children it had at the
call.  `none` when the loop has not ended after `fuel` turns. -/
def autofs_unmount_nodes (fuel : Nat) (am_root : autofs_node)
    (children : autofs_node_tree) : Option (List (autofs_node × autofs_node_tree)) :=
  match autofs_unmount_loop fuel children with
  | some (deleted, left) => some (deleted ++ [(am_root, left)])
  | none => none

/-! ## Example data -/

/-- One mount of the map `auto_home` on `/mnt`, at every address. -/
def ex_mounts : Nat → autofs_mount := fun _ =>
  { am_from := "auto_home".toList, am_on := "/mnt".toList, am_options := [],
    am_prefix := [], am_last_ino := 2 }

/-- The root node of that mount. -/
def ex_root : autofs_node :=
  { an_name := ['.'], an_ino := 1, an_parent := none, an_mount := 0,
    an_cached := false, an_wildcards := false, an_timeout := none,
    an_retries := 0 }

/-- A directory under the root whose name has `NAME_MAX = 255` bytes. -/
def ex_long : autofs_node :=
  { an_name := List.replicate 255 'a', an_ino := 2, an_parent := some ex_root,
    an_mount := 0, an_cached := false, an_wildcards := false,
    an_timeout := none, an_retries := 0 }

/-- The root node, cached after a success that reported wildcards. -/
def ex_root_cached : autofs_node :=
  { ex_root with an_cached := true, an_wildcards := true, an_timeout := some 600 }

/-- The environment of one attempt of `autofs_trigger` on `anp` that starts
in the empty table with id counter `i`: the caller sleeps once and wakes up
with its request completed by the daemon with `error` and `wildcards`;
no other thread writes the node, and nothing happens during the retry
delay. -/
def ex_answer (i : Int) (anp : autofs_node) (component : List Char) (componentlen : Int)
    (error : Int) (wildcards : Bool) :
    List (Int × autofs_softc) × Option Int × autofs_softc :=
  ([(0, (autofs_ioctl_done
      (autofs_trigger_one_submit 256 autofs_defaults ex_mounts
        { autofs_init with sc_last_request_id := i } anp component componentlen).1
      ⟨i, error, wildcards⟩).1)],
    none, { autofs_init with sc_last_request_id := i + 1 })

/-- The environment of one attempt of `autofs_trigger` on `anp` that starts
in the empty table with id counter `i`: the caller sleeps once and wakes up
after a pass of the unmount sweep for its mount; no other thread writes
the node. -/
def ex_swept (i : Int) (anp : autofs_node) (component : List Char) (componentlen : Int) :
    List (Int × autofs_softc) × Option Int × autofs_softc :=
  ([(0, (autofs_unmount_pass
      (autofs_trigger_one_submit 256 autofs_defaults ex_mounts
        { autofs_init with sc_last_request_id := i } anp component componentlen).1
      anp.an_mount).1)],
    none, { autofs_init with sc_last_request_id := i + 1 })

/-- A table whose only request, for `/mnt/` and `home`, has the largest
reference count a `u_int` holds. -/
def ex_sc_full : autofs_softc :=
  { autofs_init with
      sc_requests :=
        [{ autofs_request_new 256 autofs_defaults ex_mounts autofs_init ex_root
            "/mnt/".toList "home".toList with ar_refcount := 4294967295 }]
      sc_last_request_id := 1 }

/-- Two callers look up `home` in the root, and the daemon completes their
request with error 0 and without wildcards. -/
def ex_two_callers : List autofs_event :=
  [.submit ex_root "home".toList 4, .submit ex_root "home".toList 4, .done ⟨0, 0, false⟩]

/-- A tree of three nodes below the root: a directory with one directory
in it, and a second directory. -/
def ex_tree : autofs_node_tree :=
  .node { ex_long with an_name := "a".toList }
    (.node { ex_long with an_name := "b".toList, an_ino := 3,
                          an_parent := some { ex_long with an_name := "a".toList } }
      .nil .nil)
    (.node { ex_long with an_name := "c".toList, an_ino := 4 } .nil .nil)

/-- The steps of two callers that look up `other` in the root at the same
time, twice over: the first submits a request, the second joins it, the
daemon completes it with error 5, the first caller returns from the wait,
then the second. -/
def ex_race : List autofs_event :=
  [.submit ex_root "other".toList 5, .submit ex_root "other".toList 5,
    .done ⟨0, 5, false⟩, .leave 0, .leave 0,
    .submit ex_root "other".toList 5, .submit ex_root "other".toList 5,
    .done ⟨1, 5, false⟩, .leave 0, .leave 0]

/-- The coordinator state after the first `n` steps of `ex_race`. -/
def ex_race_sc (n : Nat) : autofs_softc :=
  (autofs_run 256 autofs_defaults ex_mounts 8 (ex_race.take n)).sc

/-- What the first caller of `ex_race` meets in `autofs_trigger`.  Its first
attempt wakes up after step 3 and leaves `an_retries = 1`; during its retry
delay the second caller returns and counts up to 2.  Its second attempt
starts after step 5, wakes up after step 8 and finds the 2. -/
def ex_race_first : List (List (Int × autofs_softc) × Option Int × autofs_softc) :=
  [([(0, ex_race_sc 3)], none, ex_race_sc 5),
    ([(0, ex_race_sc 8)], some 2, ex_race_sc 10)]

/-- What the second caller of `ex_race` meets in `autofs_trigger`, which it
enters after step 1.  Its first attempt wakes up after step 4 and finds the
1 of the first caller; its second attempt starts after step 6, wakes up
after step 9 and finds the 0 that the first caller left on returning; its
third and fourth attempts are alone. -/
def ex_race_second : List (List (Int × autofs_softc) × Option Int × autofs_softc) :=
  [([(0, ex_race_sc 4)], some 1, ex_race_sc 6),
    ([(0, ex_race_sc 9)], some 0, ex_race_sc 10),
    ex_answer 2 ex_root "other".toList 5 5 false,
    ex_answer 3 ex_root "other".toList 5 5 false]

/-- What the daemon, the timeout task and the unmount sweep may do to a
request: the identity, the strings and the reference count stay, and a
request that was done or in progress is done or in progress afterwards. -/
def autofs_request_settled (r r' : autofs_request) : Prop :=
  r'.ar_id = r.ar_id ∧ r'.ar_refcount = r.ar_refcount ∧ r'.ar_mount = r.ar_mount ∧
  r'.ar_from = r.ar_from ∧ r'.ar_path = r.ar_path ∧ r'.ar_prefix = r.ar_prefix ∧
  r'.ar_key = r.ar_key ∧ r'.ar_options = r.ar_options ∧
  (r.ar_done = true ∨ r.ar_in_progress = true →
    r'.ar_done = true ∨ r'.ar_in_progress = true)

/-- What any step but the removal may do to a linked request: as
`autofs_request_settled`, the reference count apart. -/
def autofs_request_kept (r r' : autofs_request) : Prop :=
  r'.ar_id = r.ar_id ∧ r'.ar_mount = r.ar_mount ∧
  r'.ar_from = r.ar_from ∧ r'.ar_path = r.ar_path ∧ r'.ar_prefix = r.ar_prefix ∧
  r'.ar_key = r.ar_key ∧ r'.ar_options = r.ar_options ∧
  (r.ar_done = true ∨ r.ar_in_progress = true →
    r'.ar_done = true ∨ r'.ar_in_progress = true)

/-- The invariant of the runs about order: the linked requests are in the
order of their ids, all below the counter; so are the ids handed out by
`autofs_ioctl_request`; a request not younger than one handed out is done
or in progress; the strings of a request fit its buffers. -/
structure autofs_inv_order (maxlen : Nat) (s : autofs_state) : Prop where
  sorted : (s.sc.sc_requests.map (fun r => r.ar_id)).Pairwise (fun a b => a < b)
  below : ∀ r ∈ s.sc.sc_requests, r.ar_id < s.sc.sc_last_request_id
  fetched_sorted : s.fetched.Pairwise (fun a b => a < b)
  fetched_below : ∀ f ∈ s.fetched, f < s.sc.sc_last_request_id
  claimed : ∀ f ∈ s.fetched, ∀ r ∈ s.sc.sc_requests, r.ar_id ≤ f →
    r.ar_done = true ∨ r.ar_in_progress = true
  fits : ∀ r ∈ s.sc.sc_requests, r.ar_from.length ≤ maxlen - 1 ∧
    r.ar_path.length ≤ maxlen - 1 ∧ r.ar_prefix.length ≤ maxlen - 1 ∧
    r.ar_key.length ≤ maxlen - 1 ∧ r.ar_options.length ≤ maxlen - 1

/-- The invariant of the runs about references: the reference count of a
linked request is the number of parked callers that hold it, and is not
zero; the request a parked caller holds is linked; there are at most
`maxthread` parked callers. -/
structure autofs_inv_refs (maxthread : Nat) (s : autofs_state) : Prop where
  refs : ∀ r ∈ s.sc.sc_requests,
    r.ar_refcount = s.callers.count r.ar_id ∧ 1 ≤ r.ar_refcount
  held : ∀ id ∈ s.callers, ∃ r ∈ s.sc.sc_requests, r.ar_id = id
  threads : s.callers.length ≤ maxthread

/-- A step whose computed path and key, if it is a submission, are shorter
than the buffers of a request. -/
def autofs_event_fits (maxlen : Nat) (mounts : Nat → autofs_mount) : autofs_event → Prop
  | .submit anp component componentlen =>
      (autofs_path mounts anp).length < maxlen ∧
        (autofs_key anp component componentlen).length < maxlen
  | _ => True

/-- The node, its parent, the parent of its parent and so on up to the
root, which comes last. -/
def autofs_chain : autofs_node → List autofs_node
  | ⟨n, i, some parent, m, c, w, t, r⟩ =>
      ⟨n, i, some parent, m, c, w, t, r⟩ :: autofs_chain parent
  | ⟨n, i, none, m, c, w, t, r⟩ => [⟨n, i, none, m, c, w, t, r⟩]

/-- How one step may change a linked request: the submission of a caller
and the return of a caller change at most the reference count; a fetch may
mark a request that is neither done nor in progress; a completion, the
timeout of the request and the sweep of its mount set it done. -/
def autofs_request_moved : autofs_event → autofs_request → autofs_request → Prop
  | .submit _ _ _, r, r' => r' = r ∨ ∃ n, r' = { r with ar_refcount := n }
  | .leave _, r, r' => r' = r ∨ ∃ n, r' = { r with ar_refcount := n }
  | .fetch _, r, r' =>
      r' = r ∨ (r.ar_done = false ∧ r.ar_in_progress = false ∧
        r' = { r with ar_in_progress := true })
  | .done add, r, r' =>
      r' = r ∨ (add.add_id = r.ar_id ∧
        r' = { r with
                ar_error := add.add_error
                ar_wildcards := add.add_wildcards
                ar_done := true
                ar_in_progress := false })
  | .timeout id, r, r' =>
      r' = r ∨ (id = r.ar_id ∧
        r' = { r with
                ar_error := ETIMEDOUT
                ar_wildcards := true
                ar_done := true
                ar_in_progress := false })
  | .unmount amp, r, r' =>
      r' = r ∨ (amp = r.ar_mount ∧
        r' = { r with ar_error := ENXIO, ar_done := true, ar_in_progress := false })

/-- A step that is no completion of the request `r`: not `autofs_ioctl_done`
with its id, not its timeout, not a pass of the sweep of its mount. -/
def autofs_event_spares (r : autofs_request) : autofs_event → Prop
  | .done add => add.add_id ≠ r.ar_id
  | .timeout id => id ≠ r.ar_id
  | .unmount amp => amp ≠ r.ar_mount
  | _ => True

/-- The nodes of a tree `an_children` and of the trees below them. -/
def autofs_node_tree_nodes : autofs_node_tree → List autofs_node
  | .nil => []
  | .node anp children next =>
      anp :: (autofs_node_tree_nodes children ++ autofs_node_tree_nodes next)

/-- A string without the byte 0, as every C string is. -/
def autofs_cstring (s : List Char) : Prop := ∀ c ∈ s, c.toNat ≠ 0

/-! ## Lemmas on the list scans -/

theorem autofs_request_join_found (path key : List Char) (pre : List autofs_request)
    (ar : autofs_request) (post : List autofs_request)
    (hpre : ∀ r ∈ pre, ¬(r.ar_path = path ∧ r.ar_key = key))
    (hp : ar.ar_path = path) (hk : ar.ar_key = key) :
    autofs_request_join path key (pre ++ ar :: post) =
      some (pre ++ { ar with ar_refcount := (ar.ar_refcount + 1) % 2 ^ 32 } :: post,
        ar.ar_id) := by
  induction pre with
  | nil => simp [autofs_request_join, hp, hk]
  | cons r pre ih =>
      have hr : ¬(r.ar_path = path ∧ r.ar_key = key) := hpre r (List.mem_cons_self _ _)
      have ih' := ih (fun x hx => hpre x (List.mem_cons_of_mem _ hx))
      rw [List.cons_append, autofs_request_join, if_neg hr, ih']
      rfl

theorem autofs_request_join_none (path key : List Char) (l : List autofs_request)
    (h : ∀ r ∈ l, ¬(r.ar_path = path ∧ r.ar_key = key)) :
    autofs_request_join path key l = none := by
  induction l with
  | nil => rfl
  | cons r l ih =>
      have hr : ¬(r.ar_path = path ∧ r.ar_key = key) := h r (List.mem_cons_self _ _)
      have ih' := ih (fun x hx => h x (List.mem_cons_of_mem _ hx))
      simp only [autofs_request_join, if_neg hr, ih']

theorem strlcpy_of_fits (maxlen : Nat) (s : List Char) (h : s.length < maxlen) :
    strlcpy maxlen s = s := by
  unfold strlcpy
  exact List.take_of_length_le (by omega)

theorem strlcpy_length_le (maxlen : Nat) (s : List Char) :
    (strlcpy maxlen s).length ≤ maxlen - 1 := by
  unfold strlcpy
  simp [List.length_take]

theorem autofs_request_join_some (path key : List Char) :
    ∀ (l l' : List autofs_request) (id : Int),
      autofs_request_join path key l = some (l', id) →
      ∃ pre ar post, l = pre ++ ar :: post ∧
        l' = pre ++ { ar with ar_refcount := (ar.ar_refcount + 1) % 2 ^ 32 } :: post ∧
        id = ar.ar_id ∧ (∀ r ∈ pre, ¬(r.ar_path = path ∧ r.ar_key = key)) ∧
        ar.ar_path = path ∧ ar.ar_key = key
  | [], _, _, h => by simp [autofs_request_join] at h
  | a :: l, l', id, h => by
      by_cases ha : a.ar_path = path ∧ a.ar_key = key
      · rw [autofs_request_join, if_pos ha] at h
        simp only [Option.some.injEq, Prod.mk.injEq] at h
        exact ⟨[], a, l, rfl, h.1.symm, h.2.symm, by simp, ha.1, ha.2⟩
      · rw [autofs_request_join, if_neg ha] at h
        cases hrec : autofs_request_join path key l with
        | none => rw [hrec] at h; simp at h
        | some p =>
            obtain ⟨rest, id2⟩ := p
            rw [hrec] at h
            simp only [Option.some.injEq, Prod.mk.injEq] at h
            obtain ⟨pre, ar, post, h1, h2, h3, h4, h5, h6⟩ :=
              autofs_request_join_some path key l rest id2 hrec
            refine ⟨a :: pre, ar, post, by rw [h1]; rfl, by rw [← h.1, h2]; rfl,
              by rw [← h.2, h3], ?_, h5, h6⟩
            intro r hr
            rcases List.mem_cons.1 hr with rfl | hr
            · exact ha
            · exact h4 r hr

theorem autofs_request_join_eq_none (path key : List Char) :
    ∀ (l : List autofs_request), autofs_request_join path key l = none →
      ∀ r ∈ l, ¬(r.ar_path = path ∧ r.ar_key = key)
  | [], _ => by simp
  | a :: l, h => by
      by_cases ha : a.ar_path = path ∧ a.ar_key = key
      · rw [autofs_request_join, if_pos ha] at h; simp at h
      · rw [autofs_request_join, if_neg ha] at h
        cases hrec : autofs_request_join path key l with
        | some p => rw [hrec] at h; simp at h
        | none =>
            intro r hr
            rcases List.mem_cons.1 hr with rfl | hr
            · exact ha
            · exact autofs_request_join_eq_none path key l hrec r hr


theorem autofs_request_settled_refl (r : autofs_request) : autofs_request_settled r r :=
  ⟨rfl, rfl, rfl, rfl, rfl, rfl, rfl, rfl, id⟩

theorem autofs_request_fetch_some :
    ∀ (l l' : List autofs_request) (found : autofs_request),
      autofs_request_fetch l = some (l', found) →
      ∃ pre post, l = pre ++ found :: post ∧
        l' = pre ++ { found with ar_in_progress := true } :: post ∧
        (∀ r ∈ pre, r.ar_done = true ∨ r.ar_in_progress = true) ∧
        found.ar_done = false ∧ found.ar_in_progress = false
  | [], _, _, h => by simp [autofs_request_fetch] at h
  | a :: l, l', found, h => by
      have step : ∀ (hskip : a.ar_done = true ∨ a.ar_in_progress = true),
          (match autofs_request_fetch l with
            | some (rest', f) => some (a :: rest', f)
            | none => none) = some (l', found) →
          ∃ pre post, a :: l = pre ++ found :: post ∧
            l' = pre ++ { found with ar_in_progress := true } :: post ∧
            (∀ r ∈ pre, r.ar_done = true ∨ r.ar_in_progress = true) ∧
            found.ar_done = false ∧ found.ar_in_progress = false := by
        intro hskip h
        cases hrec : autofs_request_fetch l with
        | none => rw [hrec] at h; simp at h
        | some p =>
            obtain ⟨rest, f⟩ := p
            rw [hrec] at h
            simp only [Option.some.injEq, Prod.mk.injEq] at h
            obtain ⟨pre, post, h1, h2, h3, h4, h5⟩ := autofs_request_fetch_some l rest f hrec
            obtain ⟨hl, hf⟩ := h
            subst hf
            refine ⟨a :: pre, post, by rw [h1]; rfl, by rw [← hl, h2]; rfl, ?_, h4, h5⟩
            intro r hr
            rcases List.mem_cons.1 hr with rfl | hr
            · exact hskip
            · exact h3 r hr
      by_cases hd : a.ar_done = true
      · rw [autofs_request_fetch, if_pos hd] at h
        exact step (Or.inl hd) h
      · by_cases hp : a.ar_in_progress = true
        · rw [autofs_request_fetch, if_neg hd, if_pos hp] at h
          exact step (Or.inr hp) h
        · rw [autofs_request_fetch, if_neg hd, if_neg hp] at h
          simp only [Option.some.injEq, Prod.mk.injEq] at h
          obtain ⟨hl, hf⟩ := h
          subst hf
          exact ⟨[], l, rfl, hl.symm, by simp, by simpa using hd, by simpa using hp⟩

theorem autofs_request_fetch_eq_none :
    ∀ (l : List autofs_request), autofs_request_fetch l = none →
      ∀ r ∈ l, r.ar_done = true ∨ r.ar_in_progress = true
  | [], _ => by simp
  | a :: l, h => by
      have step : ∀ (hskip : a.ar_done = true ∨ a.ar_in_progress = true),
          (match autofs_request_fetch l with
            | some (rest', f) => some (a :: rest', f)
            | none => none) = none →
          ∀ r ∈ a :: l, r.ar_done = true ∨ r.ar_in_progress = true := by
        intro hskip h
        cases hrec : autofs_request_fetch l with
        | some p => rw [hrec] at h; simp at h
        | none =>
            intro r hr
            rcases List.mem_cons.1 hr with rfl | hr
            · exact hskip
            · exact autofs_request_fetch_eq_none l hrec r hr
      by_cases hd : a.ar_done = true
      · rw [autofs_request_fetch, if_pos hd] at h
        exact step (Or.inl hd) h
      · by_cases hp : a.ar_in_progress = true
        · rw [autofs_request_fetch, if_neg hd, if_pos hp] at h
          exact step (Or.inr hp) h
        · rw [autofs_request_fetch, if_neg hd, if_neg hp] at h
          simp at h

theorem autofs_request_done_some (add : autofs_daemon_done) :
    ∀ (l l' : List autofs_request), autofs_request_done add l = some l' →
      ∃ pre ar post, l = pre ++ ar :: post ∧
        l' = pre ++ { ar with
                        ar_error := add.add_error
                        ar_wildcards := add.add_wildcards
                        ar_done := true
                        ar_in_progress := false } :: post ∧
        (∀ r ∈ pre, r.ar_id ≠ add.add_id) ∧ ar.ar_id = add.add_id
  | [], _, h => by simp [autofs_request_done] at h
  | a :: l, l', h => by
      by_cases ha : a.ar_id = add.add_id
      · rw [autofs_request_done, if_pos ha] at h
        simp only [Option.some.injEq] at h
        exact ⟨[], a, l, rfl, h.symm, by simp, ha⟩
      · rw [autofs_request_done, if_neg ha] at h
        cases hrec : autofs_request_done add l with
        | none => rw [hrec] at h; simp at h
        | some rest =>
            rw [hrec] at h
            simp only [Option.some.injEq] at h
            obtain ⟨pre, ar, post, h1, h2, h3, h4⟩ := autofs_request_done_some add l rest hrec
            refine ⟨a :: pre, ar, post, by rw [h1]; rfl, by rw [← h, h2]; rfl, ?_, h4⟩
            intro r hr
            rcases List.mem_cons.1 hr with rfl | hr
            · exact ha
            · exact h3 r hr

theorem autofs_request_done_eq_none (add : autofs_daemon_done) :
    ∀ (l : List autofs_request), autofs_request_done add l = none →
      ∀ r ∈ l, r.ar_id ≠ add.add_id
  | [], _ => by simp
  | a :: l, h => by
      by_cases ha : a.ar_id = add.add_id
      · rw [autofs_request_done, if_pos ha] at h; simp at h
      · rw [autofs_request_done, if_neg ha] at h
        cases hrec : autofs_request_done add l with
        | some p => rw [hrec] at h; simp at h
        | none =>
            intro r hr
            rcases List.mem_cons.1 hr with rfl | hr
            · exact ha
            · exact autofs_request_done_eq_none add l hrec r hr

theorem autofs_request_done_found (add : autofs_daemon_done) (pre : List autofs_request)
    (ar : autofs_request) (post : List autofs_request)
    (hpre : ∀ r ∈ pre, r.ar_id ≠ add.add_id) (hid : ar.ar_id = add.add_id) :
    autofs_request_done add (pre ++ ar :: post) =
      some (pre ++ { ar with
                      ar_error := add.add_error
                      ar_wildcards := add.add_wildcards
                      ar_done := true
                      ar_in_progress := false } :: post) := by
  induction pre with
  | nil => simp [autofs_request_done, hid]
  | cons r pre ih =>
      have hr : r.ar_id ≠ add.add_id := hpre r (List.mem_cons_self _ _)
      have ih' := ih (fun x hx => hpre x (List.mem_cons_of_mem _ hx))
      rw [List.cons_append, autofs_request_done, if_neg hr, ih']
      rfl

theorem autofs_request_done_none (add : autofs_daemon_done) (l : List autofs_request)
    (h : ∀ r ∈ l, r.ar_id ≠ add.add_id) : autofs_request_done add l = none := by
  induction l with
  | nil => rfl
  | cons r l ih =>
      have hr : r.ar_id ≠ add.add_id := h r (List.mem_cons_self _ _)
      have ih' := ih (fun x hx => h x (List.mem_cons_of_mem _ hx))
      rw [autofs_request_done, if_neg hr, ih']

theorem autofs_request_expire_found (id : Int) (pre : List autofs_request)
    (ar : autofs_request) (post : List autofs_request)
    (hpre : ∀ r ∈ pre, r.ar_id ≠ id) (hid : ar.ar_id = id) :
    autofs_request_expire id (pre ++ ar :: post) =
      pre ++ { ar with
                ar_error := ETIMEDOUT
                ar_wildcards := true
                ar_done := true
                ar_in_progress := false } :: post := by
  induction pre with
  | nil => simp [autofs_request_expire, hid]
  | cons r pre ih =>
      have hr : r.ar_id ≠ id := hpre r (List.mem_cons_self _ _)
      have ih' := ih (fun x hx => hpre x (List.mem_cons_of_mem _ hx))
      rw [List.cons_append, autofs_request_expire, if_neg hr, ih']
      rfl

theorem autofs_request_expire_none (id : Int) (l : List autofs_request)
    (h : ∀ r ∈ l, r.ar_id ≠ id) : autofs_request_expire id l = l := by
  induction l with
  | nil => rfl
  | cons r l ih =>
      have hr : r.ar_id ≠ id := h r (List.mem_cons_self _ _)
      have ih' := ih (fun x hx => h x (List.mem_cons_of_mem _ hx))
      rw [autofs_request_expire, if_neg hr, ih']

theorem autofs_request_release_found (id : Int) (pre : List autofs_request)
    (ar : autofs_request) (post : List autofs_request)
    (hpre : ∀ r ∈ pre, r.ar_id ≠ id) (hid : ar.ar_id = id) :
    autofs_request_release id (pre ++ ar :: post) =
      if (ar.ar_refcount + 2 ^ 32 - 1) % 2 ^ 32 = 0 then pre ++ post
      else pre ++ { ar with ar_refcount := (ar.ar_refcount + 2 ^ 32 - 1) % 2 ^ 32 } :: post := by
  induction pre with
  | nil =>
      by_cases h0 : (ar.ar_refcount + 2 ^ 32 - 1) % 2 ^ 32 = 0
      · simp [autofs_request_release, hid, h0]
      · simp [autofs_request_release, hid, h0]
  | cons r pre ih =>
      have hr : r.ar_id ≠ id := hpre r (List.mem_cons_self _ _)
      have ih' := ih (fun x hx => hpre x (List.mem_cons_of_mem _ hx))
      rw [List.cons_append, autofs_request_release, if_neg hr, ih']
      by_cases h0 : (ar.ar_refcount + 2 ^ 32 - 1) % 2 ^ 32 = 0
      · rw [if_pos h0, if_pos h0]; rfl
      · rw [if_neg h0, if_neg h0]; rfl

theorem autofs_request_release_none (id : Int) (l : List autofs_request)
    (h : ∀ r ∈ l, r.ar_id ≠ id) : autofs_request_release id l = l := by
  induction l with
  | nil => rfl
  | cons r l ih =>
      have hr : r.ar_id ≠ id := h r (List.mem_cons_self _ _)
      have ih' := ih (fun x hx => h x (List.mem_cons_of_mem _ hx))
      rw [autofs_request_release, if_neg hr, ih']

/-- A list splits at its first request with a given id. -/
theorem autofs_request_split (id : Int) :
    ∀ (l : List autofs_request), (∀ r ∈ l, r.ar_id ≠ id) ∨
      ∃ pre ar post, l = pre ++ ar :: post ∧ (∀ r ∈ pre, r.ar_id ≠ id) ∧ ar.ar_id = id
  | [] => Or.inl (by simp)
  | a :: l => by
      by_cases ha : a.ar_id = id
      · exact Or.inr ⟨[], a, l, rfl, by simp, ha⟩
      · rcases autofs_request_split id l with h | ⟨pre, ar, post, h1, h2, h3⟩
        · left
          intro r hr
          rcases List.mem_cons.1 hr with rfl | hr
          · exact ha
          · exact h r hr
        · right
          refine ⟨a :: pre, ar, post, by rw [h1]; rfl, ?_, h3⟩
          intro r hr
          rcases List.mem_cons.1 hr with rfl | hr
          · exact ha
          · exact h2 r hr

theorem autofs_request_find_found (id : Int) (pre : List autofs_request)
    (ar : autofs_request) (post : List autofs_request)
    (hpre : ∀ r ∈ pre, r.ar_id ≠ id) (hid : ar.ar_id = id) :
    autofs_request_find id (pre ++ ar :: post) = some ar := by
  induction pre with
  | nil => simp [autofs_request_find, hid]
  | cons r pre ih =>
      have hr : r.ar_id ≠ id := hpre r (List.mem_cons_self _ _)
      have ih' := ih (fun x hx => hpre x (List.mem_cons_of_mem _ hx))
      unfold autofs_request_find at ih' ⊢
      rw [List.cons_append, List.find?_cons_of_neg _ (by simpa using hr), ih']

theorem autofs_request_find_none (id : Int) (l : List autofs_request)
    (h : ∀ r ∈ l, r.ar_id ≠ id) : autofs_request_find id l = none := by
  unfold autofs_request_find
  rw [List.find?_eq_none]
  intro r hr
  simpa using h r hr

theorem autofs_unmount_sweep_eq (amp : Nat) :
    ∀ (l : List autofs_request) (found : Bool),
      autofs_unmount_sweep amp l found =
        (l.map (fun ar => if ar.ar_mount ≠ amp then ar
            else { ar with ar_error := ENXIO, ar_done := true, ar_in_progress := false }),
          found || l.any (fun ar => decide (ar.ar_mount = amp)))
  | [], found => by simp [autofs_unmount_sweep]
  | a :: l, found => by
      by_cases ha : a.ar_mount ≠ amp
      · rw [autofs_unmount_sweep, if_pos ha, autofs_unmount_sweep_eq amp l found]
        have : a.ar_mount = amp ↔ False := by simpa using ha
        simp [ha, this]
      · rw [autofs_unmount_sweep, if_neg ha, autofs_unmount_sweep_eq amp l true]
        have : a.ar_mount = amp := by simpa using ha
        simp [this]


theorem autofs_request_kept_refl (r : autofs_request) : autofs_request_kept r r :=
  ⟨rfl, rfl, rfl, rfl, rfl, rfl, rfl, fun h => h⟩

theorem autofs_request_kept_of_settled (r r' : autofs_request)
    (h : autofs_request_settled r r') : autofs_request_kept r r' :=
  ⟨h.1, h.2.2.1, h.2.2.2.1, h.2.2.2.2.1, h.2.2.2.2.2.1, h.2.2.2.2.2.2.1,
    h.2.2.2.2.2.2.2.1, h.2.2.2.2.2.2.2.2⟩

theorem autofs_forall2_refl {R : autofs_request → autofs_request → Prop}
    (hR : ∀ r, R r r) : ∀ l : List autofs_request, List.Forall₂ R l l
  | [] => List.Forall₂.nil
  | a :: l => List.Forall₂.cons (hR a) (autofs_forall2_refl hR l)

theorem autofs_forall2_update {R : autofs_request → autofs_request → Prop}
    (hR : ∀ r, R r r) (pre : List autofs_request) (a a' : autofs_request)
    (post : List autofs_request) (h : R a a') :
    List.Forall₂ R (pre ++ a :: post) (pre ++ a' :: post) := by
  induction pre with
  | nil => exact List.Forall₂.cons h (autofs_forall2_refl hR post)
  | cons r pre ih => exact List.Forall₂.cons (hR r) ih

theorem autofs_forall2_mem {R : autofs_request → autofs_request → Prop} :
    ∀ (l l' : List autofs_request), List.Forall₂ R l l' → ∀ r' ∈ l', ∃ r ∈ l, R r r'
  | _, _, List.Forall₂.nil => by simp
  | _, _, List.Forall₂.cons h t => by
      intro r' hr'
      rcases List.mem_cons.1 hr' with rfl | hr'
      · exact ⟨_, List.mem_cons_self _ _, h⟩
      · obtain ⟨r, hr, hs⟩ := autofs_forall2_mem _ _ t r' hr'
        exact ⟨r, List.mem_cons_of_mem _ hr, hs⟩

theorem autofs_forall2_mem_left {R : autofs_request → autofs_request → Prop} :
    ∀ (l l' : List autofs_request), List.Forall₂ R l l' → ∀ r ∈ l, ∃ r' ∈ l', R r r'
  | _, _, List.Forall₂.nil => by simp
  | _, _, List.Forall₂.cons h t => by
      intro r hr
      rcases List.mem_cons.1 hr with rfl | hr
      · exact ⟨_, List.mem_cons_self _ _, h⟩
      · obtain ⟨r', hr', hs⟩ := autofs_forall2_mem_left _ _ t r hr
        exact ⟨r', List.mem_cons_of_mem _ hr', hs⟩

theorem autofs_kept_ids : ∀ (l l' : List autofs_request),
    List.Forall₂ autofs_request_kept l l' →
    l'.map (fun r => r.ar_id) = l.map (fun r => r.ar_id)
  | _, _, List.Forall₂.nil => rfl
  | _, _, List.Forall₂.cons h t => by
      simp only [List.map_cons, h.1, autofs_kept_ids _ _ t]

theorem autofs_kept_of_settled (l l' : List autofs_request)
    (h : List.Forall₂ autofs_request_settled l l') :
    List.Forall₂ autofs_request_kept l l' :=
  h.imp autofs_request_kept_of_settled

theorem autofs_request_fetch_settled (l l' : List autofs_request) (found : autofs_request)
    (h : autofs_request_fetch l = some (l', found)) :
    List.Forall₂ autofs_request_settled l l' := by
  obtain ⟨pre, post, h1, h2, _, _, _⟩ := autofs_request_fetch_some l l' found h
  rw [h1, h2]
  exact autofs_forall2_update autofs_request_settled_refl pre _ _ post
    ⟨rfl, rfl, rfl, rfl, rfl, rfl, rfl, rfl, fun _ => Or.inr rfl⟩

theorem autofs_request_done_settled (add : autofs_daemon_done) (l l' : List autofs_request)
    (h : autofs_request_done add l = some l') :
    List.Forall₂ autofs_request_settled l l' := by
  obtain ⟨pre, ar, post, h1, h2, _, _⟩ := autofs_request_done_some add l l' h
  rw [h1, h2]
  exact autofs_forall2_update autofs_request_settled_refl pre _ _ post
    ⟨rfl, rfl, rfl, rfl, rfl, rfl, rfl, rfl, fun _ => Or.inl rfl⟩

theorem autofs_request_expire_settled (id : Int) (l : List autofs_request) :
    List.Forall₂ autofs_request_settled l (autofs_request_expire id l) := by
  rcases autofs_request_split id l with h | ⟨pre, ar, post, h1, h2, h3⟩
  · rw [autofs_request_expire_none id l h]
    exact autofs_forall2_refl autofs_request_settled_refl l
  · rw [h1, autofs_request_expire_found id pre ar post h2 h3]
    exact autofs_forall2_update autofs_request_settled_refl pre _ _ post
      ⟨rfl, rfl, rfl, rfl, rfl, rfl, rfl, rfl, fun _ => Or.inl rfl⟩

theorem autofs_unmount_sweep_settled (amp : Nat) (l : List autofs_request) (found : Bool) :
    List.Forall₂ autofs_request_settled l (autofs_unmount_sweep amp l found).1 := by
  rw [autofs_unmount_sweep_eq]
  induction l with
  | nil => exact List.Forall₂.nil
  | cons a l ih =>
      refine List.Forall₂.cons ?_ ih
      show autofs_request_settled a (if a.ar_mount ≠ amp then a else _)
      by_cases ha : a.ar_mount ≠ amp
      · rw [if_pos ha]; exact autofs_request_settled_refl a
      · rw [if_neg ha]
        exact ⟨rfl, rfl, rfl, rfl, rfl, rfl, rfl, rfl, fun _ => Or.inl rfl⟩

theorem autofs_ioctl_done_settled (sc : autofs_softc) (add : autofs_daemon_done) :
    List.Forall₂ autofs_request_settled sc.sc_requests
      (autofs_ioctl_done sc add).1.sc_requests ∧
    (autofs_ioctl_done sc add).1.sc_last_request_id = sc.sc_last_request_id := by
  unfold autofs_ioctl_done
  cases h : autofs_request_done add sc.sc_requests with
  | none => exact ⟨autofs_forall2_refl autofs_request_settled_refl _, rfl⟩
  | some l' => exact ⟨autofs_request_done_settled add _ l' h, rfl⟩

theorem autofs_request_join_kept (path key : List Char) (l l' : List autofs_request)
    (id : Int) (h : autofs_request_join path key l = some (l', id)) :
    List.Forall₂ autofs_request_kept l l' := by
  obtain ⟨pre, ar, post, h1, h2, _⟩ := autofs_request_join_some path key l l' id h
  rw [h1, h2]
  exact autofs_forall2_update autofs_request_kept_refl pre _ _ post
    ⟨rfl, rfl, rfl, rfl, rfl, rfl, rfl, fun h => h⟩

/-- What the release leaves is part of what was linked. -/
theorem autofs_request_release_sub (id : Int) : ∀ (l : List autofs_request),
    ((autofs_request_release id l).map (fun r => r.ar_id)).Sublist
        (l.map (fun r => r.ar_id)) ∧
      ∀ r' ∈ autofs_request_release id l, ∃ r ∈ l, autofs_request_kept r r'
  | [] => by simp [autofs_request_release]
  | a :: l => by
      by_cases ha : a.ar_id = id
      · by_cases h0 : (a.ar_refcount + 2 ^ 32 - 1) % 2 ^ 32 = 0
        · rw [autofs_request_release, if_pos ha, if_pos h0]
          refine ⟨by simp, fun r' hr' => ⟨r', List.mem_cons_of_mem _ hr',
            autofs_request_kept_refl r'⟩⟩
        · rw [autofs_request_release, if_pos ha, if_neg h0]
          refine ⟨by simp, ?_⟩
          intro r' hr'
          rcases List.mem_cons.1 hr' with rfl | hr'
          · exact ⟨a, List.mem_cons_self _ _, ⟨rfl, rfl, rfl, rfl, rfl, rfl, rfl, fun h => h⟩⟩
          · exact ⟨r', List.mem_cons_of_mem _ hr', autofs_request_kept_refl r'⟩
      · rw [autofs_request_release, if_neg ha]
        obtain ⟨h1, h2⟩ := autofs_request_release_sub id l
        refine ⟨by simpa using h1, ?_⟩
        intro r' hr'
        rcases List.mem_cons.1 hr' with rfl | hr'
        · exact ⟨_, List.mem_cons_self _ _, autofs_request_kept_refl _⟩
        · obtain ⟨r, hr, hk⟩ := h2 r' hr'
          exact ⟨r, List.mem_cons_of_mem _ hr, hk⟩

/-! ## The order invariant of the runs -/


theorem autofs_trigger_one_submit_of_join (maxlen : Nat) (t : autofs_tunables)
    (mounts : Nat → autofs_mount) (sc : autofs_softc) (anp : autofs_node)
    (component : List Char) (componentlen : Int) (l' : List autofs_request) (id : Int)
    (h : autofs_request_join (autofs_path mounts anp)
      (autofs_key anp component componentlen) sc.sc_requests = some (l', id)) :
    autofs_trigger_one_submit maxlen t mounts sc anp component componentlen =
      ({ sc with sc_requests := l' }, id) := by
  simp only [autofs_trigger_one_submit, h]

theorem autofs_trigger_one_submit_of_none (maxlen : Nat) (t : autofs_tunables)
    (mounts : Nat → autofs_mount) (sc : autofs_softc) (anp : autofs_node)
    (component : List Char) (componentlen : Int)
    (h : autofs_request_join (autofs_path mounts anp)
      (autofs_key anp component componentlen) sc.sc_requests = none) :
    autofs_trigger_one_submit maxlen t mounts sc anp component componentlen =
      ({ sc with
          sc_requests := sc.sc_requests ++
            [autofs_request_new maxlen t mounts sc anp (autofs_path mounts anp)
              (autofs_key anp component componentlen)]
          sc_last_request_id := sc.sc_last_request_id + 1 }, sc.sc_last_request_id) := by
  simp only [autofs_trigger_one_submit, h, autofs_request_new]

theorem autofs_step_submit (maxlen : Nat) (t : autofs_tunables)
    (mounts : Nat → autofs_mount) (maxthread : Nat) (s : autofs_state)
    (anp : autofs_node) (component : List Char) (componentlen : Int) :
    autofs_step maxlen t mounts maxthread s (.submit anp component componentlen) =
      if s.callers.length < maxthread then
        { s with
            sc := (autofs_trigger_one_submit maxlen t mounts s.sc anp component
              componentlen).1
            callers := s.callers ++
              [(autofs_trigger_one_submit maxlen t mounts s.sc anp component
                componentlen).2] }
      else s := rfl

theorem autofs_step_leave_none (maxlen : Nat) (t : autofs_tunables)
    (mounts : Nat → autofs_mount) (maxthread : Nat) (s : autofs_state) (n : Nat)
    (h : s.callers.get? n = none) :
    autofs_step maxlen t mounts maxthread s (.leave n) = s := by
  simp only [autofs_step, h]

theorem autofs_step_leave_unfound (maxlen : Nat) (t : autofs_tunables)
    (mounts : Nat → autofs_mount) (maxthread : Nat) (s : autofs_state) (n : Nat)
    (id : Int) (h : s.callers.get? n = some id)
    (hf : autofs_request_find id s.sc.sc_requests = none) :
    autofs_step maxlen t mounts maxthread s (.leave n) = s := by
  simp only [autofs_step, h, hf]

theorem autofs_step_leave_parked (maxlen : Nat) (t : autofs_tunables)
    (mounts : Nat → autofs_mount) (maxthread : Nat) (s : autofs_state) (n : Nat)
    (id : Int) (ar : autofs_request) (h : s.callers.get? n = some id)
    (hf : autofs_request_find id s.sc.sc_requests = some ar)
    (hg : ¬(ar.ar_done = true ∨ t.autofs_interruptible ≠ 0)) :
    autofs_step maxlen t mounts maxthread s (.leave n) = s := by
  simp only [autofs_step, h, hf, if_neg hg]

theorem autofs_step_leave_released (maxlen : Nat) (t : autofs_tunables)
    (mounts : Nat → autofs_mount) (maxthread : Nat) (s : autofs_state) (n : Nat)
    (id : Int) (ar : autofs_request) (h : s.callers.get? n = some id)
    (hf : autofs_request_find id s.sc.sc_requests = some ar)
    (hg : ar.ar_done = true ∨ t.autofs_interruptible ≠ 0) :
    autofs_step maxlen t mounts maxthread s (.leave n) =
      { s with
          sc := { s.sc with sc_requests := autofs_request_release id s.sc.sc_requests }
          callers := s.callers.eraseIdx n } := by
  simp only [autofs_step, h, hf, if_pos hg]

theorem autofs_step_fetch_none (maxlen : Nat) (t : autofs_tunables)
    (mounts : Nat → autofs_mount) (maxthread : Nat) (s : autofs_state) (pg_id : Int)
    (h : autofs_request_fetch s.sc.sc_requests = none) :
    autofs_step maxlen t mounts maxthread s (.fetch pg_id) = s := by
  simp only [autofs_step, h]

theorem autofs_step_fetch_some (maxlen : Nat) (t : autofs_tunables)
    (mounts : Nat → autofs_mount) (maxthread : Nat) (s : autofs_state) (pg_id : Int)
    (l' : List autofs_request) (found : autofs_request)
    (h : autofs_request_fetch s.sc.sc_requests = some (l', found)) :
    autofs_step maxlen t mounts maxthread s (.fetch pg_id) =
      { s with
          sc := { s.sc with sc_requests := l', sc_dev_sid := pg_id }
          fetched := s.fetched ++ [found.ar_id] } := by
  simp only [autofs_step, h]

theorem autofs_inv_order_of_kept (maxlen : Nat) (s s' : autofs_state)
    (h : autofs_inv_order maxlen s)
    (hids : (s'.sc.sc_requests.map (fun r => r.ar_id)).Sublist
      (s.sc.sc_requests.map (fun r => r.ar_id)))
    (hmem : ∀ r' ∈ s'.sc.sc_requests, ∃ r ∈ s.sc.sc_requests, autofs_request_kept r r')
    (hlast : s'.sc.sc_last_request_id = s.sc.sc_last_request_id)
    (hf : s'.fetched = s.fetched) : autofs_inv_order maxlen s' := by
  refine ⟨h.sorted.sublist hids, ?_, hf ▸ h.fetched_sorted, ?_, ?_, ?_⟩
  · intro r' hr'
    obtain ⟨r, hr, hk⟩ := hmem r' hr'
    rw [hlast, hk.1]
    exact h.below r hr
  · intro f hfm
    rw [hlast]
    exact h.fetched_below f (hf ▸ hfm)
  · intro f hfm r' hr' hle
    obtain ⟨r, hr, hk⟩ := hmem r' hr'
    exact hk.2.2.2.2.2.2.2 (h.claimed f (hf ▸ hfm) r hr (hk.1 ▸ hle))
  · intro r' hr'
    obtain ⟨r, hr, hk⟩ := hmem r' hr'
    obtain ⟨_, _, h3, h4, h5, h6, h7, _⟩ := hk
    rw [h3, h4, h5, h6, h7]
    exact h.fits r hr

theorem autofs_inv_order_of_settled (maxlen : Nat) (s s' : autofs_state)
    (h : autofs_inv_order maxlen s)
    (hs : List.Forall₂ autofs_request_settled s.sc.sc_requests s'.sc.sc_requests)
    (hlast : s'.sc.sc_last_request_id = s.sc.sc_last_request_id)
    (hf : s'.fetched = s.fetched) : autofs_inv_order maxlen s' :=
  autofs_inv_order_of_kept maxlen s s' h
    (by rw [autofs_kept_ids _ _ (autofs_kept_of_settled _ _ hs)])
    (autofs_forall2_mem _ _ (autofs_kept_of_settled _ _ hs)) hlast hf

theorem autofs_inv_order_init (maxlen : Nat) :
    autofs_inv_order maxlen ⟨autofs_init, [], []⟩ :=
  ⟨List.Pairwise.nil, by simp [autofs_init], List.Pairwise.nil, by simp, by simp,
    by simp [autofs_init]⟩

theorem autofs_step_inv_order (maxlen : Nat) (t : autofs_tunables)
    (mounts : Nat → autofs_mount) (maxthread : Nat) (s : autofs_state)
    (ev : autofs_event) (h : autofs_inv_order maxlen s) :
    autofs_inv_order maxlen (autofs_step maxlen t mounts maxthread s ev) := by
  cases ev with
  | submit anp component componentlen =>
      rw [autofs_step_submit]
      by_cases hg : s.callers.length < maxthread
      · simp only [if_pos hg]
        cases hj : autofs_request_join (autofs_path mounts anp)
            (autofs_key anp component componentlen) s.sc.sc_requests with
        | some p =>
            obtain ⟨l', id⟩ := p
            have hk := autofs_request_join_kept _ _ _ _ _ hj
            rw [autofs_trigger_one_submit_of_join maxlen t mounts s.sc anp component
              componentlen l' id hj]
            exact autofs_inv_order_of_kept maxlen s _ h
              (by simp only [autofs_kept_ids _ _ hk]; exact List.Sublist.refl _)
              (autofs_forall2_mem _ _ hk) rfl rfl
        | none =>
            rw [autofs_trigger_one_submit_of_none maxlen t mounts s.sc anp component
              componentlen hj]
            refine ⟨?_, ?_, h.fetched_sorted, ?_, ?_, ?_⟩
            · simp only [List.map_append, List.map_cons, List.map_nil]
              rw [List.pairwise_append]
              refine ⟨h.sorted, List.pairwise_singleton _ _, ?_⟩
              intro a ha b hb
              obtain ⟨r, hr, rfl⟩ := List.mem_map.1 ha
              rw [List.mem_singleton.1 hb]
              exact h.below r hr
            · intro r hr
              rcases List.mem_append.1 hr with hr | hr
              · have := h.below r hr
                show r.ar_id < s.sc.sc_last_request_id + 1
                omega
              · rw [List.mem_singleton.1 hr]
                show s.sc.sc_last_request_id < s.sc.sc_last_request_id + 1
                omega
            · intro f hf
              have := h.fetched_below f hf
              show f < s.sc.sc_last_request_id + 1
              omega
            · intro f hf r hr hle
              rcases List.mem_append.1 hr with hr | hr
              · exact h.claimed f hf r hr hle
              · rw [List.mem_singleton.1 hr] at hle
                have := h.fetched_below f hf
                have hle' : s.sc.sc_last_request_id ≤ f := hle
                omega
            · intro r hr
              rcases List.mem_append.1 hr with hr | hr
              · exact h.fits r hr
              · rw [List.mem_singleton.1 hr]
                exact ⟨strlcpy_length_le _ _, strlcpy_length_le _ _, strlcpy_length_le _ _,
                  strlcpy_length_le _ _, strlcpy_length_le _ _⟩
      · simp only [if_neg hg]; exact h
  | leave n =>
      cases hc : s.callers.get? n with
      | none => rw [autofs_step_leave_none _ _ _ _ _ _ hc]; exact h
      | some id =>
          cases hfind : autofs_request_find id s.sc.sc_requests with
          | none => rw [autofs_step_leave_unfound _ _ _ _ _ _ _ hc hfind]; exact h
          | some ar =>
              by_cases hg : ar.ar_done = true ∨ t.autofs_interruptible ≠ 0
              · rw [autofs_step_leave_released _ _ _ _ _ _ _ _ hc hfind hg]
                exact autofs_inv_order_of_kept maxlen s _ h
                  (autofs_request_release_sub id _).1 (autofs_request_release_sub id _).2
                  rfl rfl
              · rw [autofs_step_leave_parked _ _ _ _ _ _ _ _ hc hfind hg]; exact h
  | fetch pg_id =>
      cases hfe : autofs_request_fetch s.sc.sc_requests with
      | none => rw [autofs_step_fetch_none _ _ _ _ _ _ hfe]; exact h
      | some p =>
          obtain ⟨l', found⟩ := p
          rw [autofs_step_fetch_some _ _ _ _ _ _ _ _ hfe]
          have hs := autofs_request_fetch_settled _ _ _ hfe
          have hk := autofs_kept_of_settled _ _ hs
          obtain ⟨pre, post, h1, h2, h3, h4, h5⟩ := autofs_request_fetch_some _ _ _ hfe
          have hfound : found ∈ s.sc.sc_requests := by rw [h1]; simp
          have hbase : autofs_inv_order maxlen
              ⟨{ s.sc with sc_requests := l', sc_dev_sid := pg_id }, s.callers, s.fetched⟩ :=
            autofs_inv_order_of_kept maxlen s _ h
              (by simp only [autofs_kept_ids _ _ hk]; exact List.Sublist.refl _)
              (autofs_forall2_mem _ _ hk) rfl rfl
          have hlt : ∀ f ∈ s.fetched, f < found.ar_id := by
            intro f hf
            by_contra hcon
            have := h.claimed f hf found hfound (by omega)
            rw [h4, h5] at this
            simp at this
          refine ⟨hbase.sorted, hbase.below, ?_, ?_, ?_, hbase.fits⟩
          · show (s.fetched ++ [found.ar_id]).Pairwise _
            rw [List.pairwise_append]
            refine ⟨h.fetched_sorted, List.pairwise_singleton _ _, ?_⟩
            intro a ha b hb
            rw [List.mem_singleton.1 hb]
            exact hlt a ha
          · intro f hf
            rcases List.mem_append.1 hf with hf | hf
            · exact h.fetched_below f hf
            · rw [List.mem_singleton.1 hf]; exact h.below found hfound
          · intro f hf r' hr' hle
            rcases List.mem_append.1 hf with hf | hf
            · exact hbase.claimed f hf r' hr' hle
            · rw [List.mem_singleton.1 hf] at hle
              have hr'' : r' ∈ pre ++ { found with ar_in_progress := true } :: post := h2 ▸ hr'
              rcases List.mem_append.1 hr'' with hp | hp
              · exact h3 r' hp
              · rcases List.mem_cons.1 hp with rfl | hp
                · exact Or.inr rfl
                · exfalso
                  have hsorted := h.sorted
                  rw [h1, List.map_append, List.map_cons, List.pairwise_append] at hsorted
                  have := (List.pairwise_cons.1 hsorted.2.1).1 r'.ar_id
                    (List.mem_map.2 ⟨r', hp, rfl⟩)
                  omega
  | done add =>
      exact autofs_inv_order_of_settled maxlen s _ h (autofs_ioctl_done_settled s.sc add).1
        (autofs_ioctl_done_settled s.sc add).2 rfl
  | timeout id =>
      exact autofs_inv_order_of_settled maxlen s _ h
        (autofs_request_expire_settled id s.sc.sc_requests) rfl rfl
  | unmount amp =>
      exact autofs_inv_order_of_settled maxlen s _ h
        (autofs_unmount_sweep_settled amp s.sc.sc_requests false) rfl rfl

theorem autofs_run_snoc (maxlen : Nat) (t : autofs_tunables) (mounts : Nat → autofs_mount)
    (maxthread : Nat) (evs : List autofs_event) (ev : autofs_event) :
    autofs_run maxlen t mounts maxthread (evs ++ [ev]) =
      autofs_step maxlen t mounts maxthread (autofs_run maxlen t mounts maxthread evs) ev := by
  simp [autofs_run, List.foldl_append]

theorem autofs_run_inv_order (maxlen : Nat) (t : autofs_tunables)
    (mounts : Nat → autofs_mount) (maxthread : Nat) (evs : List autofs_event) :
    autofs_inv_order maxlen (autofs_run maxlen t mounts maxthread evs) := by
  induction evs using List.reverseRecOn with
  | nil => exact autofs_inv_order_init maxlen
  | append_singleton evs ev ih =>
      rw [autofs_run_snoc]
      exact autofs_step_inv_order maxlen t mounts maxthread _ ev ih

/-! ## The reference invariant of the runs -/


theorem autofs_sorted_split (pre : List autofs_request) (ar : autofs_request)
    (post : List autofs_request)
    (h : ((pre ++ ar :: post).map (fun r => r.ar_id)).Pairwise (fun a b => a < b)) :
    (∀ r ∈ pre, r.ar_id < ar.ar_id) ∧ (∀ r ∈ post, ar.ar_id < r.ar_id) := by
  rw [List.map_append, List.map_cons, List.pairwise_append] at h
  refine ⟨fun r hr => h.2.2 r.ar_id (List.mem_map.2 ⟨r, hr, rfl⟩) ar.ar_id
    (List.mem_cons_self _ _), fun r hr => ?_⟩
  exact (List.pairwise_cons.1 h.2.1).1 r.ar_id (List.mem_map.2 ⟨r, hr, rfl⟩)

theorem autofs_count_snoc (l : List Int) (a x : Int) :
    (l ++ [a]).count x = l.count x + (if a = x then 1 else 0) := by
  rw [List.count_append, List.count_singleton]
  by_cases h : a = x
  · simp [h]
  · have : ¬ (a == x) = true := by simpa using h
    simp [h]

theorem autofs_count_eraseIdx : ∀ (l : List Int) (n : Nat) (a x : Int),
    l.get? n = some a →
    (l.eraseIdx n).count x + (if a = x then 1 else 0) = l.count x
  | [], n, a, x, h => by simp at h
  | b :: l, 0, a, x, h => by
      simp only [List.get?_cons_zero, Option.some.injEq] at h
      subst h
      rw [List.eraseIdx_cons_zero, List.count_cons]
      by_cases hx : b = x
      · simp [hx]
      · have : ¬ (b == x) = true := by simpa using hx
        simp [hx]
  | b :: l, n + 1, a, x, h => by
      simp only [List.get?_cons_succ] at h
      have ih := autofs_count_eraseIdx l n a x h
      rw [List.eraseIdx_cons_succ, List.count_cons, List.count_cons]
      omega

theorem autofs_mem_of_mem_eraseIdx : ∀ (l : List Int) (n : Nat) (x : Int),
    x ∈ l.eraseIdx n → x ∈ l
  | [], _, _, h => by simp at h
  | b :: l, 0, x, h => by
      rw [List.eraseIdx_cons_zero] at h
      exact List.mem_cons_of_mem _ h
  | b :: l, n + 1, x, h => by
      rw [List.eraseIdx_cons_succ] at h
      rcases List.mem_cons.1 h with rfl | h
      · exact List.mem_cons_self _ _
      · exact List.mem_cons_of_mem _ (autofs_mem_of_mem_eraseIdx l n x h)

theorem autofs_request_find_some (id : Int) (l : List autofs_request) (ar : autofs_request)
    (h : autofs_request_find id l = some ar) :
    ∃ pre post, l = pre ++ ar :: post ∧ (∀ r ∈ pre, r.ar_id ≠ id) ∧ ar.ar_id = id := by
  rcases autofs_request_split id l with hn | ⟨pre, a, post, h1, h2, h3⟩
  · rw [autofs_request_find_none id l hn] at h; simp at h
  · rw [h1, autofs_request_find_found id pre a post h2 h3] at h
    simp only [Option.some.injEq] at h
    subst h
    exact ⟨pre, post, h1, h2, h3⟩

theorem autofs_inv_refs_of_settled (maxthread : Nat) (s s' : autofs_state)
    (h : autofs_inv_refs maxthread s)
    (hs : List.Forall₂ autofs_request_settled s.sc.sc_requests s'.sc.sc_requests)
    (hc : s'.callers = s.callers) : autofs_inv_refs maxthread s' := by
  refine ⟨?_, ?_, hc ▸ h.threads⟩
  · intro r' hr'
    obtain ⟨r, hr, hk⟩ := autofs_forall2_mem _ _ hs r' hr'
    rw [hc, hk.1, hk.2.1]
    exact h.refs r hr
  · intro id hid
    obtain ⟨r, hr, hrid⟩ := h.held id (hc ▸ hid)
    obtain ⟨r', hr', hk⟩ := autofs_forall2_mem_left _ _ hs r hr
    exact ⟨r', hr', hk.1.trans hrid⟩

theorem autofs_inv_refs_init (maxthread : Nat) :
    autofs_inv_refs maxthread ⟨autofs_init, [], []⟩ :=
  ⟨by simp [autofs_init], by simp, by simp⟩

theorem autofs_step_inv_refs (maxlen : Nat) (t : autofs_tunables)
    (mounts : Nat → autofs_mount) (maxthread : Nat) (hmax : maxthread < 2 ^ 32)
    (s : autofs_state) (ev : autofs_event) (ho : autofs_inv_order maxlen s)
    (h : autofs_inv_refs maxthread s) :
    autofs_inv_refs maxthread (autofs_step maxlen t mounts maxthread s ev) := by
  cases ev with
  | submit anp component componentlen =>
      rw [autofs_step_submit]
      by_cases hg : s.callers.length < maxthread
      · simp only [if_pos hg]
        cases hj : autofs_request_join (autofs_path mounts anp)
            (autofs_key anp component componentlen) s.sc.sc_requests with
        | some p =>
            obtain ⟨l', id⟩ := p
            rw [autofs_trigger_one_submit_of_join maxlen t mounts s.sc anp component
              componentlen l' id hj]
            obtain ⟨pre, ar, post, h1, h2, h3, -, -, -⟩ :=
              autofs_request_join_some _ _ _ _ _ hj
            have hsplit := autofs_sorted_split pre ar post (h1 ▸ ho.sorted)
            have har : ar ∈ s.sc.sc_requests := by rw [h1]; simp
            have hrc := h.refs ar har
            have hcount : s.callers.count ar.ar_id ≤ s.callers.length := List.count_le_length _ _
            refine ⟨?_, ?_, ?_⟩
            · intro r' hr'
              have hr'' : r' ∈ pre ++ { ar with ar_refcount := (ar.ar_refcount + 1) % 2 ^ 32 }
                  :: post := h2 ▸ hr'
              show r'.ar_refcount = (s.callers ++ [id]).count r'.ar_id ∧ 1 ≤ r'.ar_refcount
              rw [autofs_count_snoc, h3]
              rcases List.mem_append.1 hr'' with hp | hp
              · have hne : ar.ar_id ≠ r'.ar_id := ne_of_gt (hsplit.1 r' hp)
                rw [if_neg hne]
                exact h.refs r' (by rw [h1]; exact List.mem_append_left _ hp)
              · rcases List.mem_cons.1 hp with rfl | hp
                · show (ar.ar_refcount + 1) % 2 ^ 32 = _ ∧ 1 ≤ (ar.ar_refcount + 1) % 2 ^ 32
                  have hlt : ar.ar_refcount + 1 < 2 ^ 32 := by omega
                  rw [Nat.mod_eq_of_lt hlt]
                  simp only [if_true]
                  omega
                · have hne : ar.ar_id ≠ r'.ar_id := ne_of_lt (hsplit.2 r' hp)
                  rw [if_neg hne]
                  exact h.refs r' (by
                    rw [h1]; exact List.mem_append_right _ (List.mem_cons_of_mem _ hp))
            · intro x hx
              show ∃ r ∈ l', r.ar_id = x
              rcases List.mem_append.1 hx with hx | hx
              · obtain ⟨r, hr, hrid⟩ := h.held x hx
                obtain ⟨r', hr', hk⟩ := autofs_forall2_mem_left _ _
                  (autofs_request_join_kept _ _ _ _ _ hj) r hr
                exact ⟨r', hr', hk.1.trans hrid⟩
              · rw [List.mem_singleton.1 hx, h2]
                exact ⟨{ ar with ar_refcount := (ar.ar_refcount + 1) % 2 ^ 32 }, by simp, h3.symm⟩
            · show (s.callers ++ [id]).length ≤ maxthread
              rw [List.length_append, List.length_singleton]
              omega
        | none =>
            rw [autofs_trigger_one_submit_of_none maxlen t mounts s.sc anp component
              componentlen hj]
            have hfresh : s.callers.count s.sc.sc_last_request_id = 0 := by
              rw [List.count_eq_zero]
              intro hmem
              obtain ⟨r, hr, hrid⟩ := h.held _ hmem
              have := ho.below r hr
              omega
            refine ⟨?_, ?_, ?_⟩
            · intro r hr
              show r.ar_refcount = (s.callers ++ [s.sc.sc_last_request_id]).count r.ar_id ∧
                1 ≤ r.ar_refcount
              rw [autofs_count_snoc]
              rcases List.mem_append.1 hr with hr | hr
              · have hne : s.sc.sc_last_request_id ≠ r.ar_id := ne_of_gt (ho.below r hr)
                rw [if_neg hne]
                exact h.refs r hr
              · rw [List.mem_singleton.1 hr]
                show 1 = s.callers.count s.sc.sc_last_request_id +
                  (if s.sc.sc_last_request_id = s.sc.sc_last_request_id then 1 else 0) ∧ 1 ≤ 1
                rw [hfresh]
                simp
            · intro x hx
              rcases List.mem_append.1 hx with hx | hx
              · obtain ⟨r, hr, hrid⟩ := h.held x hx
                exact ⟨r, List.mem_append_left _ hr, hrid⟩
              · rw [List.mem_singleton.1 hx]
                exact ⟨_, List.mem_append_right _ (List.mem_singleton.2 rfl), rfl⟩
            · show (s.callers ++ [s.sc.sc_last_request_id]).length ≤ maxthread
              rw [List.length_append, List.length_singleton]
              omega
      · simp only [if_neg hg]; exact h
  | leave n =>
      cases hc : s.callers.get? n with
      | none => rw [autofs_step_leave_none _ _ _ _ _ _ hc]; exact h
      | some id =>
          cases hfind : autofs_request_find id s.sc.sc_requests with
          | none => rw [autofs_step_leave_unfound _ _ _ _ _ _ _ hc hfind]; exact h
          | some ar =>
              by_cases hg : ar.ar_done = true ∨ t.autofs_interruptible ≠ 0
              · rw [autofs_step_leave_released _ _ _ _ _ _ _ _ hc hfind hg]
                obtain ⟨pre, post, h1, h2, h3⟩ := autofs_request_find_some id _ ar hfind
                have hsplit := autofs_sorted_split pre ar post (h1 ▸ ho.sorted)
                have har : ar ∈ s.sc.sc_requests := by rw [h1]; simp
                have hrc := h.refs ar har
                have hcount : s.callers.count ar.ar_id ≤ s.callers.length :=
                  List.count_le_length _ _
                have hthreads := h.threads
                have hdec : (ar.ar_refcount + 2 ^ 32 - 1) % 2 ^ 32 = ar.ar_refcount - 1 := by
                  have h1 : ar.ar_refcount + 2 ^ 32 - 1 = (ar.ar_refcount - 1) + 2 ^ 32 := by
                    omega
                  rw [h1, Nat.add_mod_right]
                  exact Nat.mod_eq_of_lt (by omega)
                have hrel := autofs_request_release_found id pre ar post h2 h3
                rw [hdec] at hrel
                have herase := fun x => autofs_count_eraseIdx s.callers n id x hc
                have hother : ∀ r ∈ s.sc.sc_requests, r.ar_id ≠ id →
                    r.ar_refcount = (s.callers.eraseIdx n).count r.ar_id ∧
                      1 ≤ r.ar_refcount := by
                  intro r hr hne
                  have := herase r.ar_id
                  rw [if_neg (Ne.symm hne)] at this
                  have h5 := h.refs r hr
                  omega
                have hself := herase id
                rw [if_pos rfl] at hself
                refine ⟨?_, ?_, ?_⟩
                · intro r' hr'
                  have hr'' : r' ∈ autofs_request_release id s.sc.sc_requests := hr'
                  show r'.ar_refcount = (s.callers.eraseIdx n).count r'.ar_id ∧ _
                  rw [h1, hrel] at hr''
                  by_cases h0 : ar.ar_refcount - 1 = 0
                  · rw [if_pos h0] at hr''
                    rcases List.mem_append.1 hr'' with hp | hp
                    · exact hother r' (by rw [h1]; exact List.mem_append_left _ hp)
                        (h3 ▸ ne_of_lt (hsplit.1 r' hp))
                    · exact hother r' (by
                        rw [h1]; exact List.mem_append_right _ (List.mem_cons_of_mem _ hp))
                        (h3 ▸ ne_of_gt (hsplit.2 r' hp))
                  · rw [if_neg h0] at hr''
                    rcases List.mem_append.1 hr'' with hp | hp
                    · exact hother r' (by rw [h1]; exact List.mem_append_left _ hp)
                        (h3 ▸ ne_of_lt (hsplit.1 r' hp))
                    · rcases List.mem_cons.1 hp with rfl | hp
                      · show ar.ar_refcount - 1 = (s.callers.eraseIdx n).count ar.ar_id ∧
                          1 ≤ ar.ar_refcount - 1
                        rw [h3]
                        rw [h3] at hrc
                        omega
                      · exact hother r' (by
                          rw [h1]; exact List.mem_append_right _ (List.mem_cons_of_mem _ hp))
                          (h3 ▸ ne_of_gt (hsplit.2 r' hp))
                · intro x hx
                  show ∃ r ∈ autofs_request_release id s.sc.sc_requests, r.ar_id = x
                  have hx0 : x ∈ s.callers := autofs_mem_of_mem_eraseIdx _ _ _ hx
                  obtain ⟨r, hr, hrid⟩ := h.held x hx0
                  rw [h1, hrel]
                  rw [h1] at hr
                  have hxc : 0 < (s.callers.eraseIdx n).count x := List.count_pos_iff.2 hx
                  by_cases hxid : x = id
                  · have h0 : ¬ (ar.ar_refcount - 1 = 0) := by
                      rw [h3] at hrc
                      rw [hxid] at hxc
                      omega
                    rw [if_neg h0]
                    exact ⟨{ ar with ar_refcount := ar.ar_refcount - 1 }, by simp,
                      h3.trans hxid.symm⟩
                  · have hrne : r ≠ ar := by
                      intro he
                      rw [he, h3] at hrid
                      exact hxid hrid.symm
                    have hr2 : r ∈ pre ∨ r ∈ post := by
                      rcases List.mem_append.1 hr with hp | hp
                      · exact Or.inl hp
                      · rcases List.mem_cons.1 hp with he | hp
                        · exact absurd he hrne
                        · exact Or.inr hp
                    by_cases h0 : ar.ar_refcount - 1 = 0
                    · rw [if_pos h0]
                      exact ⟨r, List.mem_append.2 hr2, hrid⟩
                    · rw [if_neg h0]
                      refine ⟨r, ?_, hrid⟩
                      rcases hr2 with hp | hp
                      · exact List.mem_append_left _ hp
                      · exact List.mem_append_right _ (List.mem_cons_of_mem _ hp)
                · show (s.callers.eraseIdx n).length ≤ maxthread
                  have := List.length_eraseIdx_le s.callers n
                  omega
              · rw [autofs_step_leave_parked _ _ _ _ _ _ _ _ hc hfind hg]; exact h
  | fetch pg_id =>
      cases hfe : autofs_request_fetch s.sc.sc_requests with
      | none => rw [autofs_step_fetch_none _ _ _ _ _ _ hfe]; exact h
      | some p =>
          obtain ⟨l', found⟩ := p
          rw [autofs_step_fetch_some _ _ _ _ _ _ _ _ hfe]
          exact autofs_inv_refs_of_settled maxthread s _ h
            (autofs_request_fetch_settled _ _ _ hfe) rfl
  | done add =>
      exact autofs_inv_refs_of_settled maxthread s _ h (autofs_ioctl_done_settled s.sc add).1 rfl
  | timeout id =>
      exact autofs_inv_refs_of_settled maxthread s _ h
        (autofs_request_expire_settled id s.sc.sc_requests) rfl
  | unmount amp =>
      exact autofs_inv_refs_of_settled maxthread s _ h
        (autofs_unmount_sweep_settled amp s.sc.sc_requests false) rfl

theorem autofs_run_inv_refs (maxlen : Nat) (t : autofs_tunables)
    (mounts : Nat → autofs_mount) (maxthread : Nat) (hmax : maxthread < 2 ^ 32)
    (evs : List autofs_event) :
    autofs_inv_refs maxthread (autofs_run maxlen t mounts maxthread evs) := by
  induction evs using List.reverseRecOn with
  | nil => exact autofs_inv_refs_init maxthread
  | append_singleton evs ev ih =>
      rw [autofs_run_snoc]
      exact autofs_step_inv_refs maxlen t mounts maxthread hmax _ ev
        (autofs_run_inv_order maxlen t mounts maxthread evs) ih

/-! ## C1: join or append -/

/-- C1 (as amended): the first half of `autofs_trigger_one`.  If a linked
request has stored path and key equal to the computed ones, the first such
request gets one more reference (`u_int` addition: `refcount + 1` as long
as that is below `2 ^ 32`) and nothing else changes.  Otherwise one request
is appended at the tail, with the old `sc_last_request_id` as id, one
reference, the flags cleared, error 0, the timer armed for
`autofs_timeout`, and the strings of the mount and the computed path and
key, each cut to at most `AUTOFS_MAXPATHLEN - 1` bytes; the id counter goes
up by one.  The strings are stored whole when they are shorter than
`AUTOFS_MAXPATHLEN`. -/
theorem autofs_trigger_one_submit_join_or_append (maxlen : Nat) (t : autofs_tunables)
    (mounts : Nat → autofs_mount) (sc : autofs_softc) (anp : autofs_node)
    (component : List Char) (componentlen : Int) :
    (∀ pre ar post, sc.sc_requests = pre ++ ar :: post →
      (∀ r ∈ pre, ¬(r.ar_path = autofs_path mounts anp ∧
        r.ar_key = autofs_key anp component componentlen)) →
      ar.ar_path = autofs_path mounts anp →
      ar.ar_key = autofs_key anp component componentlen →
      autofs_trigger_one_submit maxlen t mounts sc anp component componentlen =
          ({ sc with sc_requests :=
              pre ++ { ar with ar_refcount := (ar.ar_refcount + 1) % 2 ^ 32 } :: post },
            ar.ar_id) ∧
        (ar.ar_refcount + 1 < 2 ^ 32 →
          (ar.ar_refcount + 1) % 2 ^ 32 = ar.ar_refcount + 1)) ∧
    ((∀ r ∈ sc.sc_requests, ¬(r.ar_path = autofs_path mounts anp ∧
        r.ar_key = autofs_key anp component componentlen)) →
      autofs_trigger_one_submit maxlen t mounts sc anp component componentlen =
          ({ sc with
              sc_requests := sc.sc_requests ++
                [{ ar_mount := anp.an_mount
                   ar_id := sc.sc_last_request_id
                   ar_done := false
                   ar_error := 0
                   ar_wildcards := false
                   ar_in_progress := false
                   ar_from := (mounts anp.an_mount).am_from.take (maxlen - 1)
                   ar_path := (autofs_path mounts anp).take (maxlen - 1)
                   ar_prefix := ( autofs_mount.am_prefix (mounts anp.an_mount)).take (maxlen - 1)
                   ar_key := (autofs_key anp component componentlen).take (maxlen - 1)
                   ar_options := (mounts anp.an_mount).am_options.take (maxlen - 1)
                   ar_timeout := some t.autofs_timeout
                   ar_refcount := 1 }]
              sc_last_request_id := sc.sc_last_request_id + 1 },
            sc.sc_last_request_id) ∧
        ((mounts anp.an_mount).am_from.length < maxlen →
          ( autofs_mount.am_prefix (mounts anp.an_mount)).length < maxlen →
          (mounts anp.an_mount).am_options.length < maxlen →
          (autofs_path mounts anp).length < maxlen →
          (autofs_key anp component componentlen).length < maxlen →
          ∃ ar, (autofs_trigger_one_submit maxlen t mounts sc anp component
              componentlen).1.sc_requests = sc.sc_requests ++ [ar] ∧
            ar.ar_from = (mounts anp.an_mount).am_from ∧
            ar.ar_path = autofs_path mounts anp ∧
            ar.ar_prefix = autofs_mount.am_prefix (mounts anp.an_mount) ∧
            ar.ar_key = autofs_key anp component componentlen ∧
            ar.ar_options = (mounts anp.an_mount).am_options)) := by
  refine ⟨?_, ?_⟩
  · intro pre ar post hl hpre hp hk
    refine ⟨?_, fun h => Nat.mod_eq_of_lt h⟩
    have hj := autofs_request_join_found _ _ pre ar post hpre hp hk
    simp only [autofs_trigger_one_submit, hl, hj]
  · intro hno
    have hj := autofs_request_join_none _ _ sc.sc_requests hno
    have hsub : autofs_trigger_one_submit maxlen t mounts sc anp component componentlen =
        ({ sc with
            sc_requests := sc.sc_requests ++
              [autofs_request_new maxlen t mounts sc anp (autofs_path mounts anp)
                (autofs_key anp component componentlen)]
            sc_last_request_id := sc.sc_last_request_id + 1 },
          sc.sc_last_request_id) := by
      simp only [autofs_trigger_one_submit, hj, autofs_request_new]
    refine ⟨?_, ?_⟩
    · rw [hsub]; simp only [autofs_request_new, strlcpy]
    · intro h1 h2 h3 h4 h5
      refine ⟨_, by rw [hsub], ?_, ?_, ?_, ?_, ?_⟩ <;>
        simp only [autofs_request_new] <;>
        exact strlcpy_of_fits _ _ (by assumption)

/-- C1, witness: on the empty table a lookup of `home` in the root appends
request 0 for `/mnt/` and `home`; a second one joins it. -/
theorem autofs_trigger_one_submit_join_or_append_witness :
    (autofs_trigger_one_submit 256 autofs_defaults ex_mounts autofs_init ex_root
        "home".toList 4).1.sc_requests.map
        (fun ar => (ar.ar_id, ar.ar_path, ar.ar_key, ar.ar_refcount)) =
      [(0, "/mnt/".toList, "home".toList, 1)] ∧
    (autofs_trigger_one_submit 256 autofs_defaults ex_mounts
        (autofs_trigger_one_submit 256 autofs_defaults ex_mounts autofs_init ex_root
          "home".toList 4).1 ex_root "home".toList 4).1.sc_requests.map
        (fun ar => (ar.ar_id, ar.ar_path, ar.ar_key, ar.ar_refcount)) =
      [(0, "/mnt/".toList, "home".toList, 2)] := by
  have h := (autofs_trigger_one_submit_join_or_append 256 autofs_defaults ex_mounts
    autofs_init ex_root "home".toList 4).2 (by decide)
  have h2 := (autofs_trigger_one_submit_join_or_append 256 autofs_defaults ex_mounts
    (autofs_trigger_one_submit 256 autofs_defaults ex_mounts autofs_init ex_root
      "home".toList 4).1 ex_root "home".toList 4).1 [] _ [] (by rw [h.1]; rfl)
      (by decide) (by decide) (by decide)
  rw [h2.1, h.1]
  decide

set_option maxRecDepth 100000 in
/-- C1, counterexample to the claim as written: with 256-byte buffers, the
request appended for a directory `/mnt/aaa...a/` whose name has 255 bytes
stores a path of 255 bytes, which is not the computed path of 261 bytes.
And a request that holds `2 ^ 32 - 1` references and is joined once more
is left with 0 references, not with `2 ^ 32`. -/
theorem autofs_trigger_one_submit_stores_cut_path :
    (∀ r ∈ autofs_init.sc_requests, ¬(r.ar_path = autofs_path ex_mounts ex_long ∧
        r.ar_key = autofs_key ex_long [] 0)) ∧
    (autofs_path ex_mounts ex_long).length = 261 ∧
    (autofs_trigger_one_submit 256 autofs_defaults ex_mounts autofs_init ex_long
        [] 0).1.sc_requests.map (fun ar => ar.ar_path.length) = [255] ∧
    (autofs_trigger_one_submit 256 autofs_defaults ex_mounts autofs_init ex_long
        [] 0).1.sc_requests.map (fun ar => ar.ar_path) ≠
      [autofs_path ex_mounts ex_long] ∧
    ex_sc_full.sc_requests.map
        (fun ar => (decide (ar.ar_path = autofs_path ex_mounts ex_root),
          decide (ar.ar_key = autofs_key ex_root "home".toList 4), ar.ar_refcount)) =
      [(true, true, 4294967295)] ∧
    (autofs_trigger_one_submit 256 autofs_defaults ex_mounts ex_sc_full ex_root
        "home".toList 4).1.sc_requests.map (fun ar => ar.ar_refcount) = [0] := by
  refine ⟨by decide, by decide, by decide, by decide, by decide, by decide⟩

/-! ## C2: one request for a path and key -/


theorem autofs_kept_keys : ∀ (l l' : List autofs_request),
    List.Forall₂ autofs_request_kept l l' →
    l'.map (fun r => (r.ar_path, r.ar_key)) = l.map (fun r => (r.ar_path, r.ar_key))
  | _, _, List.Forall₂.nil => rfl
  | _, _, List.Forall₂.cons h t => by
      simp only [List.map_cons, h.2.2.2.1, h.2.2.2.2.2.1, autofs_kept_keys _ _ t]

theorem autofs_request_release_keys (id : Int) : ∀ (l : List autofs_request),
    ((autofs_request_release id l).map (fun r => (r.ar_path, r.ar_key))).Sublist
      (l.map (fun r => (r.ar_path, r.ar_key)))
  | [] => by simp [autofs_request_release]
  | a :: l => by
      by_cases ha : a.ar_id = id
      · by_cases h0 : (a.ar_refcount + 2 ^ 32 - 1) % 2 ^ 32 = 0
        · rw [autofs_request_release, if_pos ha, if_pos h0]; simp
        · rw [autofs_request_release, if_pos ha, if_neg h0]; simp
      · rw [autofs_request_release, if_neg ha]
        simpa using autofs_request_release_keys id l

/-- As long as the computed paths and keys fit the buffers, no two linked
requests have the same stored path and key. -/
theorem autofs_run_one_request_of_fits (maxlen : Nat) (t : autofs_tunables)
    (mounts : Nat → autofs_mount) (maxthread : Nat) (evs : List autofs_event)
    (hfit : ∀ ev ∈ evs, autofs_event_fits maxlen mounts ev) :
    ((autofs_run maxlen t mounts maxthread evs).sc.sc_requests.map
      (fun r => (r.ar_path, r.ar_key))).Nodup := by
  induction evs using List.reverseRecOn with
  | nil => simp [autofs_run, autofs_init]
  | append_singleton evs ev ih =>
      have ih' := ih (fun e he => hfit e (List.mem_append_left _ he))
      have hev := hfit ev (List.mem_append_right _ (List.mem_singleton.2 rfl))
      rw [autofs_run_snoc]
      generalize autofs_run maxlen t mounts maxthread evs = s at ih'
      have hsettled : ∀ s' : autofs_state,
          List.Forall₂ autofs_request_settled s.sc.sc_requests s'.sc.sc_requests →
          (s'.sc.sc_requests.map (fun r => (r.ar_path, r.ar_key))).Nodup := by
        intro s' hs
        rw [autofs_kept_keys _ _ (autofs_kept_of_settled _ _ hs)]
        exact ih'
      cases ev with
      | submit anp component componentlen =>
          rw [autofs_step_submit]
          by_cases hg : s.callers.length < maxthread
          · simp only [if_pos hg]
            cases hj : autofs_request_join (autofs_path mounts anp)
                (autofs_key anp component componentlen) s.sc.sc_requests with
            | some p =>
                obtain ⟨l', id⟩ := p
                rw [autofs_trigger_one_submit_of_join maxlen t mounts s.sc anp component
                  componentlen l' id hj]
                show (l'.map _).Nodup
                rw [autofs_kept_keys _ _ (autofs_request_join_kept _ _ _ _ _ hj)]
                exact ih'
            | none =>
                rw [autofs_trigger_one_submit_of_none maxlen t mounts s.sc anp component
                  componentlen hj]
                have hno := autofs_request_join_eq_none _ _ _ hj
                show ((s.sc.sc_requests ++ [_]).map _).Nodup
                rw [List.map_append, List.nodup_append]
                refine ⟨ih', by simp, ?_⟩
                intro p hp hq
                obtain ⟨r, hr, rfl⟩ := List.mem_map.1 hp
                simp only [List.map_cons, List.map_nil, List.mem_singleton,
                  autofs_request_new, Prod.mk.injEq] at hq
                rw [strlcpy_of_fits _ _ hev.1, strlcpy_of_fits _ _ hev.2] at hq
                exact hno r hr hq
          · simp only [if_neg hg]; exact ih'
      | leave n =>
          cases hc : s.callers.get? n with
          | none => rw [autofs_step_leave_none _ _ _ _ _ _ hc]; exact ih'
          | some id =>
              cases hfind : autofs_request_find id s.sc.sc_requests with
              | none => rw [autofs_step_leave_unfound _ _ _ _ _ _ _ hc hfind]; exact ih'
              | some ar =>
                  by_cases hg : ar.ar_done = true ∨ t.autofs_interruptible ≠ 0
                  · rw [autofs_step_leave_released _ _ _ _ _ _ _ _ hc hfind hg]
                    exact ih'.sublist (autofs_request_release_keys id _)
                  · rw [autofs_step_leave_parked _ _ _ _ _ _ _ _ hc hfind hg]; exact ih'
      | fetch pg_id =>
          cases hfe : autofs_request_fetch s.sc.sc_requests with
          | none => rw [autofs_step_fetch_none _ _ _ _ _ _ hfe]; exact ih'
          | some p =>
              obtain ⟨l', found⟩ := p
              rw [autofs_step_fetch_some _ _ _ _ _ _ _ _ hfe]
              exact hsettled _ (autofs_request_fetch_settled _ _ _ hfe)
      | done add => exact hsettled _ (autofs_ioctl_done_settled s.sc add).1
      | timeout id => exact hsettled _ (autofs_request_expire_settled id s.sc.sc_requests)
      | unmount amp =>
          exact hsettled _ (autofs_unmount_sweep_settled amp s.sc.sc_requests false)

set_option maxRecDepth 100000 in
/-- C2: two callers that trigger the same directory, whose path does not fit
the 256-byte buffer, leave two linked requests with different ids and the
same stored path, key and mount. -/
theorem autofs_run_same_path_key_mount_twice :
    (autofs_run 256 autofs_defaults ex_mounts 8
        [.submit ex_long [] 0, .submit ex_long [] 0]).sc.sc_requests.map
        (fun r => (r.ar_id, r.ar_refcount)) = [(0, 1), (1, 1)] ∧
    ¬((autofs_run 256 autofs_defaults ex_mounts 8
        [.submit ex_long [] 0, .submit ex_long [] 0]).sc.sc_requests.map
        (fun r => (r.ar_path, r.ar_key, r.ar_mount))).Nodup := by
  refine ⟨by decide, by decide⟩

/-! ## C3: the daemon fetches in the order of submission -/

theorem autofs_ioctl_request_of_fetch (maxlen : Nat) (pg_id : Int)
    (adr : autofs_daemon_request) (sleeps : List (Int × autofs_softc)) (sc : autofs_softc)
    (l' : List autofs_request) (ar : autofs_request)
    (h : autofs_request_fetch sc.sc_requests = some (l', ar)) :
    autofs_ioctl_request maxlen pg_id adr sleeps sc =
      some ({ sc with sc_requests := l', sc_dev_sid := pg_id },
        autofs_daemon_request_copy maxlen ar, 0) := by
  cases sleeps with
  | nil => simp only [autofs_ioctl_request, h]
  | cons p sleeps => obtain ⟨e, sc'⟩ := p; simp only [autofs_ioctl_request, h]

/-- C4: `autofs_ioctl_done` returns `ESRCH` exactly when no linked request
has the id, and then the coordinator state is unchanged; otherwise it
returns 0 and the first request with the id gets the error and wildcards
given, `ar_done = true` and `ar_in_progress = false`, everything else
being as before. -/
theorem autofs_ioctl_done_first_with_id (sc : autofs_softc) (add : autofs_daemon_done) :
    ((autofs_ioctl_done sc add).2 = ESRCH ↔ ∀ r ∈ sc.sc_requests, r.ar_id ≠ add.add_id) ∧
    ((∀ r ∈ sc.sc_requests, r.ar_id ≠ add.add_id) →
      autofs_ioctl_done sc add = (sc, ESRCH)) ∧
    ((∃ r ∈ sc.sc_requests, r.ar_id = add.add_id) → (autofs_ioctl_done sc add).2 = 0) ∧
    (∀ pre ar post, sc.sc_requests = pre ++ ar :: post →
      (∀ r ∈ pre, r.ar_id ≠ add.add_id) → ar.ar_id = add.add_id →
      autofs_ioctl_done sc add =
        ({ sc with sc_requests :=
            pre ++ { ar with
                      ar_error := add.add_error
                      ar_wildcards := add.add_wildcards
                      ar_done := true
                      ar_in_progress := false } :: post }, 0)) := by
  have hnone : (∀ r ∈ sc.sc_requests, r.ar_id ≠ add.add_id) →
      autofs_ioctl_done sc add = (sc, ESRCH) := by
    intro h
    simp only [autofs_ioctl_done, autofs_request_done_none add _ h]
  have hsome : ∀ pre ar post, sc.sc_requests = pre ++ ar :: post →
      (∀ r ∈ pre, r.ar_id ≠ add.add_id) → ar.ar_id = add.add_id →
      autofs_ioctl_done sc add =
        ({ sc with sc_requests :=
            pre ++ { ar with
                      ar_error := add.add_error
                      ar_wildcards := add.add_wildcards
                      ar_done := true
                      ar_in_progress := false } :: post }, 0) := by
    intro pre ar post hl hpre hid
    simp only [autofs_ioctl_done, hl, autofs_request_done_found add pre ar post hpre hid]
  have hex : (∃ r ∈ sc.sc_requests, r.ar_id = add.add_id) →
      (autofs_ioctl_done sc add).2 = 0 := by
    rintro ⟨r, hr, hid⟩
    rcases autofs_request_split add.add_id sc.sc_requests with h | ⟨pre, ar, post, h1, h2, h3⟩
    · exact absurd hid (h r hr)
    · rw [hsome pre ar post h1 h2 h3]
  refine ⟨⟨?_, fun h => by rw [hnone h]⟩, hnone, hex, hsome⟩
  intro h r hr hid
  have h0 := hex ⟨r, hr, hid⟩
  rw [h0] at h
  exact absurd h (by decide)

/-- C4, witness: completing request 0 of a table holding request 0 returns
0 and marks it done; completing request 7 returns `ESRCH`. -/
theorem autofs_ioctl_done_first_with_id_witness :
    (autofs_ioctl_done (autofs_trigger_one_submit 256 autofs_defaults ex_mounts
        autofs_init ex_root "home".toList 4).1 ⟨0, 5, true⟩).2 = 0 ∧
    (autofs_ioctl_done (autofs_trigger_one_submit 256 autofs_defaults ex_mounts
        autofs_init ex_root "home".toList 4).1 ⟨7, 0, false⟩).2 = ESRCH := by
  exact ⟨(autofs_ioctl_done_first_with_id _ ⟨0, 5, true⟩).2.2.1
      ⟨autofs_request_new 256 autofs_defaults ex_mounts autofs_init ex_root
        "/mnt/".toList "home".toList, by decide, by decide⟩,
    (autofs_ioctl_done_first_with_id _ ⟨7, 0, false⟩).1.2 (by decide)⟩

/-! ## C5: the cache is set on success -/

theorem autofs_trigger_one_some (maxlen : Nat) (t : autofs_tunables)
    (mounts : Nat → autofs_mount) (sc : autofs_softc) (anp : autofs_node)
    (component : List Char) (componentlen : Int) (sleeps : List (Int × autofs_softc))
    (sc' : autofs_softc) (anp' : autofs_node) (ret : Int)
    (h : autofs_trigger_one maxlen t mounts sc anp component componentlen sleeps =
      some (sc', anp', ret)) :
    ∃ sc2 error ar,
      autofs_trigger_one_wait t
          (autofs_trigger_one_submit maxlen t mounts sc anp component componentlen).2
          sleeps
          (autofs_trigger_one_submit maxlen t mounts sc anp component componentlen).1 0 =
        some (sc2, error) ∧
      autofs_request_find
          (autofs_trigger_one_submit maxlen t mounts sc anp component componentlen).2
          sc2.sc_requests = some ar ∧
      sc'.sc_requests = autofs_request_release
          (autofs_trigger_one_submit maxlen t mounts sc anp component componentlen).2
          sc2.sc_requests ∧
      anp' = autofs_trigger_one_cache t anp error ar.ar_error ar.ar_wildcards ∧
      ret = if error ≠ 0 then error else ar.ar_error := by
  unfold autofs_trigger_one at h
  cases hw : autofs_trigger_one_wait t
      (autofs_trigger_one_submit maxlen t mounts sc anp component componentlen).2 sleeps
      (autofs_trigger_one_submit maxlen t mounts sc anp component componentlen).1 0 with
  | none => simp only [hw] at h; simp at h
  | some p =>
      obtain ⟨sc2, error⟩ := p
      simp only [hw] at h
      unfold autofs_trigger_one_finish at h
      cases hf : autofs_request_find
          (autofs_trigger_one_submit maxlen t mounts sc anp component componentlen).2
          sc2.sc_requests with
      | none => simp only [hf] at h; simp at h
      | some ar =>
          simp only [hf, Option.some.injEq, Prod.mk.injEq] at h
          exact ⟨sc2, error, ar, rfl, hf, by rw [← h.1], h.2.1.symm, h.2.2.symm⟩

/-- C5: a call of `autofs_trigger_one` that returns has left the wait loop
with some value `error` of the sleep and has snapshotted the error and the
wildcards of its request `ar`.  If `error = 0`, `ar.ar_error = 0` and
`autofs_cache > 0`, the node comes back with `an_cached = true`,
`an_wildcards` the snapshot and the cache timer armed for `autofs_cache`
seconds (and the call returns 0); in every other case the node comes back
as it was. -/
theorem autofs_trigger_one_caches_on_success (maxlen : Nat) (t : autofs_tunables)
    (mounts : Nat → autofs_mount) (sc : autofs_softc) (anp : autofs_node)
    (component : List Char) (componentlen : Int) (sleeps : List (Int × autofs_softc))
    (sc' : autofs_softc) (anp' : autofs_node) (ret : Int)
    (h : autofs_trigger_one maxlen t mounts sc anp component componentlen sleeps =
      some (sc', anp', ret)) :
    ∃ sc2 error ar,
      autofs_trigger_one_wait t
          (autofs_trigger_one_submit maxlen t mounts sc anp component componentlen).2
          sleeps
          (autofs_trigger_one_submit maxlen t mounts sc anp component componentlen).1 0 =
        some (sc2, error) ∧
      autofs_request_find
          (autofs_trigger_one_submit maxlen t mounts sc anp component componentlen).2
          sc2.sc_requests = some ar ∧
      (error = 0 ∧ ar.ar_error = 0 ∧ t.autofs_cache > 0 →
        anp' = { anp with
                  an_cached := true
                  an_wildcards := ar.ar_wildcards
                  an_timeout := some t.autofs_cache } ∧ ret = 0) ∧
      (¬(error = 0 ∧ ar.ar_error = 0 ∧ t.autofs_cache > 0) → anp' = anp) := by
  obtain ⟨sc2, error, ar, h1, h2, -, h4, h5⟩ :=
    autofs_trigger_one_some maxlen t mounts sc anp component componentlen sleeps sc' anp'
      ret h
  refine ⟨sc2, error, ar, h1, h2, ?_, ?_⟩
  · intro hc
    rw [h4, h5]
    unfold autofs_trigger_one_cache
    rw [if_pos hc]
    refine ⟨rfl, ?_⟩
    rw [if_neg (by simp [hc.1])]
    exact hc.2.1
  · intro hc
    rw [h4]
    unfold autofs_trigger_one_cache
    rw [if_neg hc]

/-- C5, witness: a lookup of `home` in the root that the daemon completes
with error 0 and wildcards leaves the root cached with wildcards and the
timer armed for 600 seconds. -/
theorem autofs_trigger_one_caches_on_success_witness :
    autofs_trigger_one 256 autofs_defaults ex_mounts autofs_init ex_root "home".toList 4
        (ex_answer 0 ex_root "home".toList 4 0 true).1 =
      some ({ autofs_init with sc_last_request_id := 1 },
        { ex_root with an_cached := true, an_wildcards := true, an_timeout := some 600 },
        0) ∧
    ∃ sc2 error ar,
      autofs_trigger_one_wait autofs_defaults
          (autofs_trigger_one_submit 256 autofs_defaults ex_mounts autofs_init ex_root
            "home".toList 4).2
          (ex_answer 0 ex_root "home".toList 4 0 true).1
          (autofs_trigger_one_submit 256 autofs_defaults ex_mounts autofs_init ex_root
            "home".toList 4).1 0 =
        some (sc2, error) ∧
      autofs_request_find
          (autofs_trigger_one_submit 256 autofs_defaults ex_mounts autofs_init ex_root
            "home".toList 4).2
          sc2.sc_requests = some ar ∧
      (error = 0 ∧ ar.ar_error = 0 ∧ autofs_defaults.autofs_cache > 0 →
        ({ ex_root with an_cached := true, an_wildcards := true, an_timeout := some 600 } :
            autofs_node) =
          { ex_root with
              an_cached := true
              an_wildcards := ar.ar_wildcards
              an_timeout := some autofs_defaults.autofs_cache } ∧ (0 : Int) = 0) ∧
      (¬(error = 0 ∧ ar.ar_error = 0 ∧ autofs_defaults.autofs_cache > 0) →
        ({ ex_root with an_cached := true, an_wildcards := true, an_timeout := some 600 } :
            autofs_node) = ex_root) :=
  ⟨rfl, autofs_trigger_one_caches_on_success 256 autofs_defaults ex_mounts autofs_init
    ex_root "home".toList 4 (ex_answer 0 ex_root "home".toList 4 0 true).1 _ _ _ rfl⟩

theorem autofs_trigger_one_failure (maxlen : Nat) (t : autofs_tunables)
    (mounts : Nat → autofs_mount) (sc : autofs_softc) (anp : autofs_node)
    (component : List Char) (componentlen : Int) (sleeps : List (Int × autofs_softc))
    (sc' : autofs_softc) (anp' : autofs_node) (ret : Int)
    (h : autofs_trigger_one maxlen t mounts sc anp component componentlen sleeps =
      some (sc', anp', ret)) (hret : ret ≠ 0) : anp' = anp := by
  obtain ⟨sc2, error, ar, -, -, h3, h4⟩ :=
    autofs_trigger_one_caches_on_success maxlen t mounts sc anp component componentlen
      sleeps sc' anp' ret h
  by_cases hc : error = 0 ∧ ar.ar_error = 0 ∧ t.autofs_cache > 0
  · exact absurd (h3 hc).2 hret
  · exact h4 hc

/-! ## C6: no negative cache -/

theorem autofs_trigger_one_retries  (maxlen : Nat) (t : autofs_tunables)
    (mounts : Nat → autofs_mount) (sc : autofs_softc) (anp : autofs_node)
    (component : List Char) (componentlen : Int) (sleeps : List (Int × autofs_softc))
    (sc' : autofs_softc) (anp' : autofs_node) (ret : Int)
    (h : autofs_trigger_one maxlen t mounts sc anp component componentlen sleeps =
      some (sc', anp', ret)) : anp'.an_retries = anp.an_retries := by
  obtain ⟨sc2, error, ar, -, -, -, h4, -⟩ :=
    autofs_trigger_one_some maxlen t mounts sc anp component componentlen sleeps sc' anp'
      ret h
  rw [h4]
  unfold autofs_trigger_one_cache
  split <;> rfl

theorem autofs_trigger_loop_refines (maxlen : Nat) (t : autofs_tunables)
    (mounts : Nat → autofs_mount) (component : List Char) (componentlen : Int) :
    ∀ (env : List (List (Int × autofs_softc) × Option Int × autofs_softc))
      (sc : autofs_softc) (anp : autofs_node) (k : Nat),
      (∀ e ∈ env, e.2.1 = none) → anp.an_retries = (k : Int) →
      (autofs_trigger_loop maxlen t mounts component componentlen env sc anp k).map
          (fun r => (r.error, r.calls, r.anp.an_retries)) =
        (trigger_spec t.autofs_retry_attempts
          (autofs_trigger_errors maxlen t mounts component componentlen env sc anp) k).map
          (fun p => (p.1, p.2, (0 : Int)))
  | [], _, _, _, _, _ => by simp [autofs_trigger_loop, autofs_trigger_errors, trigger_spec]
  | (sleeps, written, sc') :: env, sc, anp, k, hq, hk => by
      have hw : written = none := hq (sleeps, written, sc') (List.mem_cons_self _ _)
      subst hw
      have hq' : ∀ e ∈ env, e.2.1 = none := fun e he => hq e (List.mem_cons_of_mem _ he)
      rw [autofs_trigger_loop, autofs_trigger_errors]
      cases h1 : autofs_trigger_one maxlen t mounts sc anp component componentlen sleeps with
      | none => simp [trigger_spec]
      | some p =>
          obtain ⟨sc1, anp1, error⟩ := p
          have hret : anp1.an_retries = (k : Int) :=
            (autofs_trigger_one_retries maxlen t mounts sc anp component componentlen
              sleeps sc1 anp1 error h1).trans hk
          simp only [autofs_node_found]
          rw [trigger_spec]
          by_cases he : error = 0
          · rw [if_pos he, if_pos he]; rfl
          · rw [if_neg he, if_neg he]
            by_cases hi : error = EINTR ∨ error = ERESTART
            · rw [if_pos hi, if_pos hi]; rfl
            · rw [if_neg hi, if_neg hi]
              have hcast : ((k + 1 : Nat) : Int) = anp1.an_retries + 1 := by
                rw [hret]; push_cast; rfl
              by_cases hx : anp1.an_retries + 1 ≥ t.autofs_retry_attempts
              · rw [if_pos hx, if_pos (hcast ▸ hx)]; rfl
              · rw [if_neg hx, if_neg (hcast ▸ hx)]
                exact autofs_trigger_loop_refines maxlen t mounts component componentlen env
                  sc' _ (k + 1) hq' hcast.symm

theorem trigger_spec_returns (retry_attempts : Int) :
    ∀ (n : Nat) (errs : List Int) (k : Nat) (e : Int), errs.get? n = some e →
      (∀ i e', i < n → errs.get? i = some e' → e' ≠ 0 ∧ e' ≠ EINTR ∧ e' ≠ ERESTART) →
      (∀ i, i < n → ((k + i + 1 : Nat) : Int) < retry_attempts) →
      (e = 0 ∨ e = EINTR ∨ e = ERESTART ∨ ((k + n + 1 : Nat) : Int) ≥ retry_attempts) →
      trigger_spec retry_attempts errs k = some (e, k + n + 1)
  | _, [], _, _, h, _, _, _ => by simp at h
  | 0, e0 :: errs, k, e, h, _, _, hstop => by
      simp only [List.get?_cons_zero, Option.some.injEq] at h
      subst h
      rw [trigger_spec]
      by_cases he : e0 = 0
      · rw [if_pos he, he]
      · rw [if_neg he]
        by_cases hi : e0 = EINTR ∨ e0 = ERESTART
        · rw [if_pos hi]
        · rw [if_neg hi]
          rcases hstop with h0 | h0 | h0 | h0
          · exact absurd h0 he
          · exact absurd (Or.inl h0) hi
          · exact absurd (Or.inr h0) hi
          · rw [if_pos h0]
  | n + 1, e0 :: errs, k, e, h, hbefore, hlt, hstop => by
      simp only [List.get?_cons_succ] at h
      obtain ⟨h0, h1, h2⟩ := hbefore 0 e0 (Nat.succ_pos n) rfl
      have hk := hlt 0 (Nat.succ_pos n)
      rw [trigger_spec, if_neg h0, if_neg (by simp [h1, h2]), if_neg (by simpa using hk)]
      have ih := trigger_spec_returns retry_attempts n errs (k + 1) e h
        (fun i e' hi hg => hbefore (i + 1) e' (Nat.succ_lt_succ hi) hg)
        (fun i hi => by
          have := hlt (i + 1) (Nat.succ_lt_succ hi)
          have heq : k + 1 + i + 1 = k + (i + 1) + 1 := by omega
          rw [heq]; exact this)
        (by
          have heq : k + 1 + n + 1 = k + (n + 1) + 1 := by omega
          rw [heq]; exact hstop)
      rw [ih]
      have heq : k + 1 + n + 1 = k + (n + 1) + 1 := by omega
      rw [heq]

/-- C7 (as amended): `autofs_trigger` refines the retry loop of the
specification when no other thread writes `an_retries` of the node during
the call.  For a node that enters with `an_retries = 0`, the value
returned, the number of attempts made and the value of `an_retries` left
are then those of the specified loop run on the outcomes of the attempts.
So the call returns at the first attempt `n + 1` whose outcome `e` is 0,
`EINTR` or `ERESTART`, or that is attempt number
`max 1 autofs_retry_attempts`, with the value `e`, after exactly `n + 1`
attempts, and with `an_retries = 0`. -/
theorem autofs_trigger_refines_spec (maxlen : Nat) (t : autofs_tunables)
    (mounts : Nat → autofs_mount) (sc : autofs_softc) (anp : autofs_node)
    (component : List Char) (componentlen : Int)
    (env : List (List (Int × autofs_softc) × Option Int × autofs_softc))
    (h0 : anp.an_retries = 0) (hquiet : ∀ e ∈ env, e.2.1 = none) :
    (autofs_trigger maxlen t mounts sc anp component componentlen env).map
        (fun r => (r.error, r.calls, r.anp.an_retries)) =
      (trigger_spec t.autofs_retry_attempts
        (autofs_trigger_errors maxlen t mounts component componentlen env sc anp) 0).map
        (fun p => (p.1, p.2, (0 : Int))) ∧
    ∀ (n : Nat) (e : Int),
      (autofs_trigger_errors maxlen t mounts component componentlen env sc anp).get? n =
        some e →
      (∀ i e', i < n →
        (autofs_trigger_errors maxlen t mounts component componentlen env sc anp).get? i =
          some e' → e' ≠ 0 ∧ e' ≠ EINTR ∧ e' ≠ ERESTART) →
      ((n : Int) + 1 ≤ max 1 t.autofs_retry_attempts) →
      (e = 0 ∨ e = EINTR ∨ e = ERESTART ∨ (n : Int) + 1 = max 1 t.autofs_retry_attempts) →
      ∃ r, autofs_trigger maxlen t mounts sc anp component componentlen env = some r ∧
        r.error = e ∧ r.calls = n + 1 ∧ r.anp.an_retries = 0 := by
  have href := autofs_trigger_loop_refines maxlen t mounts component componentlen env sc anp 0
    hquiet (by simpa using h0)
  refine ⟨href, ?_⟩
  intro n e hn hbefore hle hstop
  have hspec := trigger_spec_returns t.autofs_retry_attempts n
    (autofs_trigger_errors maxlen t mounts component componentlen env sc anp) 0 e hn hbefore
    (fun i hi => by
      push_cast
      have : (i : Int) + 1 < (n : Int) + 1 := by omega
      rcases le_max_iff.1 (le_of_lt (lt_of_lt_of_le this hle)) with h | h
      · omega
      · omega)
    (by
      rcases hstop with h | h | h | h
      · exact Or.inl h
      · exact Or.inr (Or.inl h)
      · exact Or.inr (Or.inr (Or.inl h))
      · refine Or.inr (Or.inr (Or.inr ?_))
        push_cast
        have := le_max_right 1 t.autofs_retry_attempts
        omega)
  rw [hspec] at href
  unfold autofs_trigger
  cases hl : autofs_trigger_loop maxlen t mounts component componentlen env sc anp 0 with
  | none => rw [hl] at href; simp at href
  | some r =>
      rw [hl] at href
      simp only [Option.map_some', Option.some.injEq, Prod.mk.injEq] at href
      exact ⟨r, rfl, href.1, by omega, href.2.2⟩

/-- C7, witness: with three attempts allowed and no other thread writing
the node, two errors 5 and then an error 0 make `autofs_trigger` return 0
after three attempts. -/
theorem autofs_trigger_refines_spec_witness :
    ex_root.an_retries = 0 ∧
    (∀ e ∈ [ex_answer 0 ex_root "home".toList 4 5 false,
        ex_answer 1 ex_root "home".toList 4 5 false,
        ex_answer 2 ex_root "home".toList 4 0 false], e.2.1 = none) ∧
    (autofs_trigger 256 autofs_defaults ex_mounts autofs_init ex_root "home".toList 4
        [ex_answer 0 ex_root "home".toList 4 5 false,
          ex_answer 1 ex_root "home".toList 4 5 false,
          ex_answer 2 ex_root "home".toList 4 0 false]).map
        (fun r => (r.error, r.calls, r.anp.an_retries)) =
      (trigger_spec autofs_defaults.autofs_retry_attempts
        (autofs_trigger_errors 256 autofs_defaults ex_mounts "home".toList 4
          [ex_answer 0 ex_root "home".toList 4 5 false,
            ex_answer 1 ex_root "home".toList 4 5 false,
            ex_answer 2 ex_root "home".toList 4 0 false] autofs_init ex_root) 0).map
        (fun p => (p.1, p.2, (0 : Int))) ∧
    trigger_spec autofs_defaults.autofs_retry_attempts [5, 5, 0] 0 = some (0, 3) ∧
    (autofs_trigger 256 autofs_defaults ex_mounts autofs_init ex_root "home".toList 4
        [ex_answer 0 ex_root "home".toList 4 5 false,
          ex_answer 1 ex_root "home".toList 4 5 false,
          ex_answer 2 ex_root "home".toList 4 0 false]).map
        (fun r => (r.error, r.calls, r.anp.an_retries)) = some (0, 3, 0) :=
  ⟨rfl,
    (by
      intro e he
      simp only [List.mem_cons, List.mem_singleton, List.not_mem_nil, or_false] at he
      rcases he with h | h | h <;> rw [h] <;> rfl),
    (autofs_trigger_refines_spec 256 autofs_defaults ex_mounts autofs_init ex_root
      "home".toList 4 _ rfl
      (by
        intro e he
        simp only [List.mem_cons, List.mem_singleton, List.not_mem_nil, or_false] at he
        rcases he with h | h | h <;> rw [h] <;> rfl)).1,
    by decide, by decide⟩

/-- C7, counterexample to the claim as written: three attempts are allowed
and the root enters with `an_retries = 0`.  Two callers look up `other` in
the root at the same time (`ex_race`) and the daemon answers every request
with error 5.  Each caller counts its failures in the `an_retries` of the
root: the first caller finds the count of the second after its second
attempt and returns 5 after two attempts, resetting the counter; the second
caller goes on from that 0 and returns 5 after four attempts.  The states
the callers leave are those of the steps of `ex_race`. -/
theorem autofs_trigger_attempts_differ :
    ex_root.an_retries = 0 ∧ autofs_defaults.autofs_retry_attempts = 3 ∧
    autofs_trigger_errors 256 autofs_defaults ex_mounts "other".toList 5 ex_race_first
      autofs_init ex_root = [5, 5] ∧
    (autofs_trigger 256 autofs_defaults ex_mounts autofs_init ex_root "other".toList 5
      ex_race_first).map (fun r => (r.error, r.calls, r.anp.an_retries, r.sc)) =
      some (5, 2, 0, ex_race_sc 9) ∧
    autofs_trigger_errors 256 autofs_defaults ex_mounts "other".toList 5 ex_race_second
      (ex_race_sc 1) ex_root = [5, 5, 5, 5] ∧
    (autofs_trigger 256 autofs_defaults ex_mounts (ex_race_sc 1) ex_root "other".toList 5
      ex_race_second).map (fun r => (r.error, r.calls, r.anp.an_retries, r.sc)) =
      some (5, 4, 0, { autofs_init with sc_last_request_id := 4 }) ∧
    (autofs_trigger_one_submit 256 autofs_defaults ex_mounts autofs_init ex_root
      "other".toList 5).1 = ex_race_sc 1 ∧
    (autofs_trigger_one 256 autofs_defaults ex_mounts (ex_race_sc 1) ex_root
      "other".toList 5 [(0, ex_race_sc 4)]).map (fun p => (p.1, p.2.2)) =
      some (ex_race_sc 5, 5) ∧
    (autofs_trigger_one 256 autofs_defaults ex_mounts (ex_race_sc 6) ex_root
      "other".toList 5 [(0, ex_race_sc 9)]).map (fun p => (p.1, p.2.2)) =
      some (ex_race_sc 10, 5) := by
  refine ⟨rfl, rfl, ?_, ?_, ?_, ?_, ?_, ?_, ?_⟩ <;> decide

/-! ## C8: `ENXIO` is retried -/

theorem autofs_trigger_loop_calls (maxlen : Nat) (t : autofs_tunables)
    (mounts : Nat → autofs_mount) (component : List Char) (componentlen : Int) :
    ∀ (env : List (List (Int × autofs_softc) × Option Int × autofs_softc))
      (sc : autofs_softc) (anp : autofs_node) (calls : Nat) (r : autofs_trigger_result),
      autofs_trigger_loop maxlen t mounts component componentlen env sc anp calls = some r →
      calls + 1 ≤ r.calls
  | [], _, _, _, _, h => by simp [autofs_trigger_loop] at h
  | (sleeps, written, sc') :: env, sc, anp, calls, r, h => by
      rw [autofs_trigger_loop] at h
      cases h1 : autofs_trigger_one maxlen t mounts sc anp component componentlen sleeps with
      | none => rw [h1] at h; simp at h
      | some p =>
          obtain ⟨sc1, anp1, error⟩ := p
          rw [h1] at h
          simp only at h
          by_cases he : error = 0
          · rw [if_pos he] at h
            simp only [Option.some.injEq] at h
            rw [← h]
          · rw [if_neg he] at h
            by_cases hi : error = EINTR ∨ error = ERESTART
            · rw [if_pos hi] at h
              simp only [Option.some.injEq] at h
              rw [← h]
            · rw [if_neg hi] at h
              by_cases hx : (autofs_node_found written anp1).an_retries + 1 ≥
                  t.autofs_retry_attempts
              · rw [if_pos hx] at h
                simp only [Option.some.injEq] at h
                rw [← h]
              · rw [if_neg hx] at h
                have := autofs_trigger_loop_calls maxlen t mounts component componentlen env
                  sc' _ _ r h
                omega

/-- What `autofs_trigger` does with an attempt that returns `ENXIO`, the
node having `an_retries` failures counted when the attempt returns: it
returns `ENXIO` right away if `an_retries + 1 >= autofs_retry_attempts`;
otherwise it goes on with a further attempt in the state found after the
retry delay, so that a call that returns has made at least one more call of
`autofs_trigger_one`. -/
theorem autofs_trigger_retries_enxio (maxlen : Nat) (t : autofs_tunables)
    (mounts : Nat → autofs_mount) (component : List Char) (componentlen : Int)
    (sleeps : List (Int × autofs_softc)) (written : Option Int) (sc' : autofs_softc)
    (env : List (List (Int × autofs_softc) × Option Int × autofs_softc))
    (sc : autofs_softc) (anp : autofs_node) (calls : Nat) (sc1 : autofs_softc)
    (anp1 : autofs_node)
    (h : autofs_trigger_one maxlen t mounts sc anp component componentlen sleeps =
      some (sc1, anp1, ENXIO)) :
    ((autofs_node_found written anp).an_retries + 1 ≥ t.autofs_retry_attempts →
      autofs_trigger_loop maxlen t mounts component componentlen
          ((sleeps, written, sc') :: env) sc anp calls =
        some ⟨sc1, { autofs_node_found written anp with an_retries := 0 }, ENXIO,
          calls + 1⟩) ∧
    ((autofs_node_found written anp).an_retries + 1 < t.autofs_retry_attempts →
      autofs_trigger_loop maxlen t mounts component componentlen
          ((sleeps, written, sc') :: env) sc anp calls =
        autofs_trigger_loop maxlen t mounts component componentlen env sc'
          { autofs_node_found written anp with
              an_retries := (autofs_node_found written anp).an_retries + 1 } (calls + 1) ∧
      ∀ r, autofs_trigger_loop maxlen t mounts component componentlen
          ((sleeps, written, sc') :: env) sc anp calls = some r → calls + 2 ≤ r.calls) := by
  have hanp : anp1 = anp :=
    autofs_trigger_one_failure maxlen t mounts sc anp component componentlen sleeps sc1
      anp1 ENXIO h (by decide)
  subst hanp
  have hstep : autofs_trigger_loop maxlen t mounts component componentlen
      ((sleeps, written, sc') :: env) sc anp1 calls =
      if (autofs_node_found written anp1).an_retries + 1 ≥ t.autofs_retry_attempts then
        some ⟨sc1, { autofs_node_found written anp1 with an_retries := 0 }, ENXIO,
          calls + 1⟩
      else
        autofs_trigger_loop maxlen t mounts component componentlen env sc'
          { autofs_node_found written anp1 with
              an_retries := (autofs_node_found written anp1).an_retries + 1 }
          (calls + 1) := by
    rw [autofs_trigger_loop, h]
    simp only
    rw [if_neg (by decide), if_neg (by decide)]
  refine ⟨fun hx => by rw [hstep, if_pos hx], fun hx => ?_⟩
  have hx' : ¬ ((autofs_node_found written anp1).an_retries + 1 ≥
      t.autofs_retry_attempts) := by omega
  rw [hstep, if_neg hx']
  refine ⟨rfl, fun r hr => ?_⟩
  have := autofs_trigger_loop_calls maxlen t mounts component componentlen env sc' _ _ r hr
  omega

/-- C8, the failing run: three attempts are allowed, the default.  A caller
looks up `home` in the root; a pass of the unmount sweep completes its
request with `ENXIO`.  `autofs_trigger_one` returns `ENXIO` and leaves the
table empty, the caller holding no request.  `autofs_trigger` does not
return: it counts one failure and, after the retry delay, submits request
1 for the same node, and when the sweep takes that one too, request 2.  It
returns `ENXIO` after three calls of `autofs_trigger_one`, the id counter
being at 3. -/
theorem autofs_trigger_retries_after_enxio :
    autofs_defaults.autofs_retry_attempts = 3 ∧
    (autofs_trigger_one 256 autofs_defaults ex_mounts autofs_init ex_root "home".toList 4
      (ex_swept 0 ex_root "home".toList 4).1).map (fun p => (p.1.sc_requests, p.2.2)) =
      some ([], ENXIO) ∧
    autofs_trigger_errors 256 autofs_defaults ex_mounts "home".toList 4
        [ex_swept 0 ex_root "home".toList 4, ex_swept 1 ex_root "home".toList 4,
          ex_swept 2 ex_root "home".toList 4]
        autofs_init ex_root = [ ENXIO, ENXIO, ENXIO] ∧
    (autofs_trigger 256 autofs_defaults ex_mounts autofs_init ex_root "home".toList 4
        [ex_swept 0 ex_root "home".toList 4, ex_swept 1 ex_root "home".toList 4,
          ex_swept 2 ex_root "home".toList 4]).map
        (fun r => (r.error, r.calls, r.sc.sc_last_request_id)) = some ( ENXIO, 3, 3) ∧
    ((autofs_trigger_one_submit 256 autofs_defaults ex_mounts
      (ex_swept 0 ex_root "home".toList 4).2.2 ex_root "home".toList 4).1.sc_requests.map
      (fun r => (r.ar_id, r.ar_mount, r.ar_done))) = [(1, 0, false)] := by
  refine ⟨rfl, ?_, ?_, ?_, ?_⟩ <;> decide

/-! ## C9: the reference count -/

/-- What the return of a parked caller does in a state reached by a run. -/
theorem autofs_run_leave (maxlen : Nat) (t : autofs_tunables)
    (mounts : Nat → autofs_mount) (maxthread : Nat) (hmax : maxthread < 2 ^ 32)
    (evs : List autofs_event) (n : Nat) (id : Int)
    (hc : (autofs_run maxlen t mounts maxthread evs).callers.get? n = some id) :
    ∃ pre ar post,
      (autofs_run maxlen t mounts maxthread evs).sc.sc_requests = pre ++ ar :: post ∧
      ar.ar_id = id ∧ (∀ r ∈ pre, r.ar_id ≠ id) ∧ (∀ r ∈ post, r.ar_id ≠ id) ∧
      1 ≤ ar.ar_refcount ∧
      (¬(ar.ar_done = true ∨ t.autofs_interruptible ≠ 0) →
        autofs_run maxlen t mounts maxthread (evs ++ [.leave n]) =
          autofs_run maxlen t mounts maxthread evs) ∧
      ((ar.ar_done = true ∨ t.autofs_interruptible ≠ 0) →
        (autofs_run maxlen t mounts maxthread (evs ++ [.leave n])).callers =
          (autofs_run maxlen t mounts maxthread evs).callers.eraseIdx n ∧
        (ar.ar_refcount = 1 →
          (autofs_run maxlen t mounts maxthread (evs ++ [.leave n])).sc.sc_requests =
            pre ++ post) ∧
        (ar.ar_refcount ≠ 1 →
          (autofs_run maxlen t mounts maxthread (evs ++ [.leave n])).sc.sc_requests =
            pre ++ { ar with ar_refcount := ar.ar_refcount - 1 } :: post)) := by
  have ho := autofs_run_inv_order maxlen t mounts maxthread evs
  have hr := autofs_run_inv_refs maxlen t mounts maxthread hmax evs
  obtain ⟨r, hrm, hrid⟩ := hr.held id (List.get?_mem hc)
  rcases autofs_request_split id (autofs_run maxlen t mounts maxthread evs).sc.sc_requests
    with hn | ⟨pre, ar, post, h1, h2, h3⟩
  · exact absurd hrid (hn r hrm)
  · have hsplit := autofs_sorted_split pre ar post (h1 ▸ ho.sorted)
    have har : ar ∈ (autofs_run maxlen t mounts maxthread evs).sc.sc_requests := by
      rw [h1]; simp
    have hrc := hr.refs ar har
    have hcount : (autofs_run maxlen t mounts maxthread evs).callers.count ar.ar_id ≤
        (autofs_run maxlen t mounts maxthread evs).callers.length := List.count_le_length _ _
    have hthreads := hr.threads
    have hfind := autofs_request_find_found id pre ar post h2 h3
    rw [← h1] at hfind
    have hdec : (ar.ar_refcount + 2 ^ 32 - 1) % 2 ^ 32 = ar.ar_refcount - 1 := by
      have h1 : ar.ar_refcount + 2 ^ 32 - 1 = (ar.ar_refcount - 1) + 2 ^ 32 := by omega
      rw [h1, Nat.add_mod_right]
      exact Nat.mod_eq_of_lt (by omega)
    have hrel := autofs_request_release_found id pre ar post h2 h3
    rw [hdec, ← h1] at hrel
    refine ⟨pre, ar, post, h1, h3, h2, fun r hr => h3 ▸ ne_of_gt (hsplit.2 r hr), hrc.2, ?_, ?_⟩
    · intro hg
      rw [autofs_run_snoc, autofs_step_leave_parked _ _ _ _ _ _ _ _ hc hfind hg]
    · intro hg
      rw [autofs_run_snoc, autofs_step_leave_released _ _ _ _ _ _ _ _ hc hfind hg]
      refine ⟨rfl, ?_, ?_⟩
      · intro h1c
        show autofs_request_release id _ = _
        rw [hrel, if_pos (by omega)]
      · intro h1c
        show autofs_request_release id _ = _
        rw [hrel, if_neg (by omega)]

/-- C9: in every state reached by a run (with fewer than `2 ^ 32` threads),
a linked request has at least one reference and its reference count is the
number of callers that joined it and have not returned; the request a
parked caller holds is linked, and no two linked requests have the same
id.  A caller that returns takes one reference away, and the request is
unlinked exactly when that was the last one; so a request that no parked
caller holds is not in the table. -/
theorem autofs_run_refcount (maxlen : Nat) (t : autofs_tunables)
    (mounts : Nat → autofs_mount) (maxthread : Nat) (hmax : maxthread < 2 ^ 32)
    (evs : List autofs_event) :
    (∀ r ∈ (autofs_run maxlen t mounts maxthread evs).sc.sc_requests,
      1 ≤ r.ar_refcount ∧
      r.ar_refcount = (autofs_run maxlen t mounts maxthread evs).callers.count r.ar_id) ∧
    (∀ id ∈ (autofs_run maxlen t mounts maxthread evs).callers,
      ∃ r ∈ (autofs_run maxlen t mounts maxthread evs).sc.sc_requests, r.ar_id = id) ∧
    ((autofs_run maxlen t mounts maxthread evs).sc.sc_requests.map
      (fun r => r.ar_id)).Nodup ∧
    (∀ n id, (autofs_run maxlen t mounts maxthread evs).callers.get? n = some id →
      ∃ pre ar post,
        (autofs_run maxlen t mounts maxthread evs).sc.sc_requests = pre ++ ar :: post ∧
        ar.ar_id = id ∧ (∀ r ∈ pre, r.ar_id ≠ id) ∧ (∀ r ∈ post, r.ar_id ≠ id) ∧
        ((ar.ar_done = true ∨ t.autofs_interruptible ≠ 0) →
          (autofs_run maxlen t mounts maxthread (evs ++ [.leave n])).callers =
            (autofs_run maxlen t mounts maxthread evs).callers.eraseIdx n ∧
          (ar.ar_refcount = 1 →
            (autofs_run maxlen t mounts maxthread (evs ++ [.leave n])).sc.sc_requests =
              pre ++ post) ∧
          (ar.ar_refcount ≠ 1 →
            (autofs_run maxlen t mounts maxthread (evs ++ [.leave n])).sc.sc_requests =
              pre ++ { ar with ar_refcount := ar.ar_refcount - 1 } :: post))) ∧
    (∀ id, id ∉ (autofs_run maxlen t mounts maxthread evs).callers →
      ∀ r ∈ (autofs_run maxlen t mounts maxthread evs).sc.sc_requests, r.ar_id ≠ id) := by
  have ho := autofs_run_inv_order maxlen t mounts maxthread evs
  have hr := autofs_run_inv_refs maxlen t mounts maxthread hmax evs
  refine ⟨fun r hrm => ⟨(hr.refs r hrm).2, (hr.refs r hrm).1⟩, hr.held,
    ho.sorted.imp (fun h => ne_of_lt h), ?_, ?_⟩
  · intro n id hc
    obtain ⟨pre, ar, post, h1, h2, h3, h4, _, _, h7⟩ :=
      autofs_run_leave maxlen t mounts maxthread hmax evs n id hc
    exact ⟨pre, ar, post, h1, h2, h3, h4, h7⟩
  · intro id hid r hrm hrid
    have h1 := hr.refs r hrm
    rw [hrid, List.count_eq_zero.2 hid] at h1
    omega

/-- C9, witness: two callers look up `home` in the root and one of them
returns; the request is linked with one reference, held by one caller. -/
theorem autofs_run_refcount_witness :
    8 < 2 ^ 32 ∧
    ∀ r ∈ (autofs_run 256 autofs_defaults ex_mounts 8
        [.submit ex_root "home".toList 4, .submit ex_root "home".toList 4,
          .leave 0]).sc.sc_requests,
      1 ≤ r.ar_refcount ∧
      r.ar_refcount = (autofs_run 256 autofs_defaults ex_mounts 8
        [.submit ex_root "home".toList 4, .submit ex_root "home".toList 4,
          .leave 0]).callers.count r.ar_id :=
  ⟨by decide, (autofs_run_refcount 256 autofs_defaults ex_mounts 8 (by decide)
    [.submit ex_root "home".toList 4, .submit ex_root "home".toList 4, .leave 0]).1⟩

/-! ## C10: when a request leaves the table -/

/-- A step other than the return of a caller keeps every linked request
linked. -/
theorem autofs_step_keeps (maxlen : Nat) (t : autofs_tunables)
    (mounts : Nat → autofs_mount) (maxthread : Nat) (s : autofs_state)
    (ev : autofs_event) (hev : ∀ n, ev ≠ .leave n) :
    ∀ r ∈ s.sc.sc_requests,
      ∃ r' ∈ (autofs_step maxlen t mounts maxthread s ev).sc.sc_requests,
        autofs_request_kept r r' := by
  cases ev with
  | submit anp component componentlen =>
      rw [autofs_step_submit]
      by_cases hg : s.callers.length < maxthread
      · simp only [if_pos hg]
        cases hj : autofs_request_join (autofs_path mounts anp)
            (autofs_key anp component componentlen) s.sc.sc_requests with
        | some p =>
            obtain ⟨l', id⟩ := p
            rw [autofs_trigger_one_submit_of_join maxlen t mounts s.sc anp component
              componentlen l' id hj]
            exact autofs_forall2_mem_left _ _ (autofs_request_join_kept _ _ _ _ _ hj)
        | none =>
            rw [autofs_trigger_one_submit_of_none maxlen t mounts s.sc anp component
              componentlen hj]
            intro r hr
            exact ⟨r, List.mem_append_left _ hr, autofs_request_kept_refl r⟩
      · simp only [if_neg hg]
        exact fun r hr => ⟨r, hr, autofs_request_kept_refl r⟩
  | leave n => exact absurd rfl (hev n)
  | fetch pg_id =>
      cases hfe : autofs_request_fetch s.sc.sc_requests with
      | none =>
          rw [autofs_step_fetch_none _ _ _ _ _ _ hfe]
          exact fun r hr => ⟨r, hr, autofs_request_kept_refl r⟩
      | some p =>
          obtain ⟨l', found⟩ := p
          rw [autofs_step_fetch_some _ _ _ _ _ _ _ _ hfe]
          exact autofs_forall2_mem_left _ _
            (autofs_kept_of_settled _ _ (autofs_request_fetch_settled _ _ _ hfe))
  | done add =>
      exact autofs_forall2_mem_left _ _
        (autofs_kept_of_settled _ _ (autofs_ioctl_done_settled s.sc add).1)
  | timeout id =>
      exact autofs_forall2_mem_left _ _
        (autofs_kept_of_settled _ _ (autofs_request_expire_settled id s.sc.sc_requests))
  | unmount amp =>
      exact autofs_forall2_mem_left _ _
        (autofs_kept_of_settled _ _ (autofs_unmount_sweep_settled amp s.sc.sc_requests false))

/-- C10 (as amended): a request leaves the table only when the last caller
joined to it returns, whatever its `ar_done`.  In a run (with fewer than
`2 ^ 32` threads), a step that is not the return of a caller keeps every
linked request linked; the return of a caller keeps every request but its
own, and its own as long as another caller holds it; the return of the
only caller of a request -- on a signal in an interruptible wait, or once
the request is done -- unlinks it, and `autofs_ioctl_done` with its id then
returns `ESRCH`. -/
theorem autofs_run_unlinks_on_last_return (maxlen : Nat) (t : autofs_tunables)
    (mounts : Nat → autofs_mount) (maxthread : Nat) (hmax : maxthread < 2 ^ 32)
    (evs : List autofs_event) :
    (∀ ev, (∀ n, ev ≠ .leave n) →
      ∀ r ∈ (autofs_run maxlen t mounts maxthread evs).sc.sc_requests,
        ∃ r' ∈ (autofs_run maxlen t mounts maxthread (evs ++ [ev])).sc.sc_requests,
          r'.ar_id = r.ar_id) ∧
    (∀ n id, (autofs_run maxlen t mounts maxthread evs).callers.get? n = some id →
      ∀ r ∈ (autofs_run maxlen t mounts maxthread evs).sc.sc_requests,
        r.ar_id ≠ id ∨ 2 ≤ r.ar_refcount →
        ∃ r' ∈ (autofs_run maxlen t mounts maxthread (evs ++ [.leave n])).sc.sc_requests,
          r'.ar_id = r.ar_id) ∧
    (∀ n id, (autofs_run maxlen t mounts maxthread evs).callers.get? n = some id →
      ∀ r ∈ (autofs_run maxlen t mounts maxthread evs).sc.sc_requests,
        r.ar_id = id → r.ar_refcount = 1 →
        (r.ar_done = true ∨ t.autofs_interruptible ≠ 0) →
        (∀ r' ∈ (autofs_run maxlen t mounts maxthread (evs ++ [.leave n])).sc.sc_requests,
          r'.ar_id ≠ id) ∧
        ∀ error wildcards,
          autofs_ioctl_done (autofs_run maxlen t mounts maxthread (evs ++ [.leave n])).sc
              ⟨id, error, wildcards⟩ =
            ((autofs_run maxlen t mounts maxthread (evs ++ [.leave n])).sc, ESRCH)) := by
  refine ⟨?_, ?_, ?_⟩
  · intro ev hev r hr
    rw [autofs_run_snoc]
    obtain ⟨r', hr', hk⟩ := autofs_step_keeps maxlen t mounts maxthread _ ev hev r hr
    exact ⟨r', hr', hk.1⟩
  · intro n id hc r hr hor
    obtain ⟨pre, ar, post, h1, h2, h3, h4, h5, h6, h7⟩ :=
      autofs_run_leave maxlen t mounts maxthread hmax evs n id hc
    by_cases hg : ar.ar_done = true ∨ t.autofs_interruptible ≠ 0
    · obtain ⟨-, hone, hmore⟩ := h7 hg
      rw [h1] at hr
      have hcases : r ∈ pre ∨ r = ar ∨ r ∈ post := by
        rcases List.mem_append.1 hr with hp | hp
        · exact Or.inl hp
        · rcases List.mem_cons.1 hp with hp | hp
          · exact Or.inr (Or.inl hp)
          · exact Or.inr (Or.inr hp)
      by_cases h1c : ar.ar_refcount = 1
      · rw [hone h1c]
        rcases hcases with hp | hp | hp
        · exact ⟨r, List.mem_append_left _ hp, rfl⟩
        · rcases hor with hne | h2le
          · exact absurd (hp ▸ h2) hne
          · rw [hp] at h2le; omega
        · exact ⟨r, List.mem_append_right _ hp, rfl⟩
      · rw [hmore h1c]
        rcases hcases with hp | hp | hp
        · exact ⟨r, List.mem_append_left _ hp, rfl⟩
        · exact ⟨{ ar with ar_refcount := ar.ar_refcount - 1 }, by simp, by rw [hp]⟩
        · exact ⟨r, List.mem_append_right _ (List.mem_cons_of_mem _ hp), rfl⟩
    · rw [h6 hg]
      exact ⟨r, hr, rfl⟩
  · intro n id hc r hr hrid hone hg
    obtain ⟨pre, ar, post, h1, h2, h3, h4, h5, h6, h7⟩ :=
      autofs_run_leave maxlen t mounts maxthread hmax evs n id hc
    have hrar : r = ar := by
      rw [h1] at hr
      rcases List.mem_append.1 hr with hp | hp
      · exact absurd hrid (h3 r hp)
      · rcases List.mem_cons.1 hp with hp | hp
        · exact hp
        · exact absurd hrid (h4 r hp)
    subst hrar
    obtain ⟨-, hrm, -⟩ := h7 hg
    have hnone : ∀ r' ∈ (autofs_run maxlen t mounts maxthread
        (evs ++ [.leave n])).sc.sc_requests, r'.ar_id ≠ id := by
      rw [hrm hone]
      intro r' hr'
      rcases List.mem_append.1 hr' with hp | hp
      · exact h3 r' hp
      · exact h4 r' hp
    refine ⟨hnone, fun error wildcards => ?_⟩
    simp only [autofs_ioctl_done, autofs_request_done_none ⟨id, error, wildcards⟩ _ hnone]

/-- C10, witness: the only caller of request 0 returns; the table is empty
and completing request 0 gives `ESRCH`. -/
theorem autofs_run_unlinks_on_last_return_witness :
    8 < 2 ^ 32 ∧
    (autofs_run 256 autofs_defaults ex_mounts 8
        [.submit ex_root "home".toList 4]).sc.sc_requests.map
        (fun r => (r.ar_id, r.ar_done, r.ar_refcount)) = [(0, false, 1)] ∧
    (autofs_ioctl_done (autofs_run 256 autofs_defaults ex_mounts 8
        ([.submit ex_root "home".toList 4] ++ [.leave 0])).sc ⟨0, 0, false⟩).2 = ESRCH := by
  refine ⟨by decide, by decide, ?_⟩
  rw [((autofs_run_unlinks_on_last_return 256 autofs_defaults ex_mounts 8 (by decide)
    [.submit ex_root "home".toList 4]).2.2 0 0 (by decide)
    (autofs_request_new 256 autofs_defaults ex_mounts autofs_init ex_root
      "/mnt/".toList "home".toList) (by decide) (by decide) (by decide)
    (Or.inr (by decide))).2 0 false]

/-- C10, counterexample to the claim as written: a caller looks up `home`
in the root and is alone on request 0, which is not done; a signal ends
its wait (`rwsleep` returns `EINTR`); `autofs_trigger_one` returns `EINTR`
and leaves the table empty, and `autofs_ioctl_done` for request 0 then
returns `ESRCH`. -/
theorem autofs_trigger_one_signal_unlinks :
    (autofs_trigger_one_submit 256 autofs_defaults ex_mounts autofs_init ex_root
        "home".toList 4).1.sc_requests.map
        (fun r => (r.ar_id, r.ar_done, r.ar_refcount)) = [(0, false, 1)] ∧
    (autofs_trigger_one 256 autofs_defaults ex_mounts autofs_init ex_root "home".toList 4
        [(EINTR, (autofs_trigger_one_submit 256 autofs_defaults ex_mounts autofs_init
          ex_root "home".toList 4).1)]).map
        (fun r => (r.1.sc_requests, r.2.2, (autofs_ioctl_done r.1 ⟨0, 0, false⟩).2)) =
      some ([], EINTR, ESRCH) := by
  refine ⟨by decide, by decide⟩

/-! ## Lemmas on the chain of a node -/


theorem autofs_chain_of_parent (a p : autofs_node) (h : a.an_parent = some p) :
    autofs_chain a = a :: autofs_chain p := by
  obtain ⟨n, i, par, m, c, w, t, r⟩ := a
  simp only at h
  subst h
  rw [autofs_chain]

theorem autofs_chain_of_root (a : autofs_node) (h : a.an_parent = none) :
    autofs_chain a = [a] := by
  obtain ⟨n, i, par, m, c, w, t, r⟩ := a
  simp only at h
  subst h
  rw [autofs_chain]

theorem autofs_chain_ne_nil (a : autofs_node) : autofs_chain a ≠ [] := by
  obtain ⟨n, i, par, m, c, w, t, r⟩ := a
  cases par with
  | none => rw [autofs_chain]; simp
  | some p => rw [autofs_chain]; simp

theorem autofs_path_loop_eq : ∀ (a : autofs_node) (path : List Char),
    autofs_path_loop a path =
      ((autofs_chain a).dropLast.reverse.map (fun x => x.an_name ++ ['/'])).flatten ++ path
  | ⟨n, i, some parent, m, c, w, t, r⟩, path => by
      rw [autofs_path_loop, autofs_path_loop_eq parent, autofs_chain,
        List.dropLast_cons_of_ne_nil (autofs_chain_ne_nil parent)]
      simp
  | ⟨n, i, none, m, c, w, t, r⟩, path => by
      rw [autofs_path_loop, autofs_chain]
      simp

theorem autofs_firstanp_eq : ∀ (p a : autofs_node), a.an_parent = some p →
    ∃ pre x root, autofs_chain a = pre ++ [x, root] ∧ root.an_parent = none ∧
      x.an_parent = some root ∧
      (∀ y ∈ pre, ∃ q g, y.an_parent = some q ∧ q.an_parent = some g) ∧
      autofs_firstanp a p = x
  | ⟨n, i, none, m, c, w, t, r⟩, a, h => by
      refine ⟨[], a, ⟨n, i, none, m, c, w, t, r⟩, ?_, rfl, h, by simp, ?_⟩
      · rw [autofs_chain_of_parent a _ h, autofs_chain]; rfl
      · rw [autofs_firstanp]
  | ⟨n, i, some g, m, c, w, t, r⟩, a, h => by
      obtain ⟨pre, x, root, h1, h2, h3, h4, h5⟩ :=
        autofs_firstanp_eq g ⟨n, i, some g, m, c, w, t, r⟩ rfl
      refine ⟨a :: pre, x, root, ?_, h2, h3, ?_, ?_⟩
      · rw [autofs_chain_of_parent a _ h, h1]; rfl
      · intro y hy
        rcases List.mem_cons.1 hy with rfl | hy
        · exact ⟨_, g, h, rfl⟩
        · exact h4 y hy
      · rw [autofs_firstanp]; exact h5

theorem size_t_of_int_of_nonneg (n : Int) (h0 : 0 ≤ n) (h1 : n < 2 ^ 64) :
    size_t_of_int n = n.toNat := by
  unfold size_t_of_int
  rw [Int.emod_eq_of_lt h0 h1]

/-! ## C13: the key of a request -/

/-- C13: the key computed by `autofs_trigger_one`.  For the root (no parent)
it is the first `componentlen` bytes of `component` (`componentlen` being
a length, not negative).  For any other node it is the name of the node of
the chain from the node up to the root whose parent is the root -- the chain
has exactly one such node, the last but one -- whatever the component. -/
theorem autofs_key_spec (anp : autofs_node) (component : List Char) (componentlen : Int) :
    (anp.an_parent = none → 0 ≤ componentlen → componentlen < 2 ^ 64 →
      autofs_key anp component componentlen = component.take componentlen.toNat) ∧
    (∀ parent, anp.an_parent = some parent →
      ∃ pre x root, autofs_chain anp = pre ++ [x, root] ∧ root.an_parent = none ∧
        x.an_parent = some root ∧
        (∀ y ∈ pre, ∃ q g, y.an_parent = some q ∧ q.an_parent = some g) ∧
        ∀ c cl, autofs_key anp c cl = x.an_name) := by
  refine ⟨?_, ?_⟩
  · intro hroot h0 h1
    unfold autofs_key
    rw [hroot]
    simp only [kstrndup, size_t_of_int_of_nonneg componentlen h0 h1]
  · intro parent hp
    obtain ⟨pre, x, root, h1, h2, h3, h4, h5⟩ := autofs_firstanp_eq parent anp hp
    refine ⟨pre, x, root, h1, h2, h3, h4, ?_⟩
    intro c cl
    unfold autofs_key
    rw [hp]
    simp only [kstrdup, h5]

/-- C13, witness: the key of a lookup of `home/x` with length 4 in the root
is `home`; the key of the directory `ex_long` under the root is its name. -/
theorem autofs_key_spec_witness :
    autofs_key ex_root "home/x".toList 4 = "home".toList ∧
    ∃ pre x root, autofs_chain ex_long = pre ++ [x, root] ∧ root.an_parent = none ∧
      x.an_parent = some root ∧
      (∀ y ∈ pre, ∃ q g, y.an_parent = some q ∧ q.an_parent = some g) ∧
      ∀ c cl, autofs_key ex_long c cl = x.an_name :=
  ⟨(autofs_key_spec ex_root "home/x".toList 4).1 rfl (by decide) (by decide),
    (autofs_key_spec ex_long [] 0).2 ex_root rfl⟩

/-! ## C14: the path of a request -/

/-- C14: `autofs_path` returns the mountpoint, a `/`, and then each name on
the chain from the child of the root down to the node followed by a `/`
(nothing for the root, which gives the mountpoint followed by `/`).  The
result ends in `/`.  The component is not an argument: the request made
for the node stores this path, cut to its buffer, whatever the component. -/
theorem autofs_path_spec (maxlen : Nat) (t : autofs_tunables) (mounts : Nat → autofs_mount)
    (sc : autofs_softc) (anp : autofs_node) (component : List Char) (componentlen : Int) :
    autofs_path mounts anp =
      (mounts anp.an_mount).am_on ++ ['/'] ++
        ((autofs_chain anp).dropLast.reverse.map (fun x => x.an_name ++ ['/'])).flatten ∧
    (anp.an_parent = none → autofs_path mounts anp = (mounts anp.an_mount).am_on ++ ['/']) ∧
    (autofs_path mounts anp).getLast? = some '/' ∧
    (autofs_trigger_one_submit maxlen t mounts { sc with sc_requests := [] } anp component
        componentlen).1.sc_requests.map (fun ar => ar.ar_path) =
      [(autofs_path mounts anp).take (maxlen - 1)] := by
  have hpath : autofs_path mounts anp =
      (mounts anp.an_mount).am_on ++ ['/'] ++
        ((autofs_chain anp).dropLast.reverse.map (fun x => x.an_name ++ ['/'])).flatten := by
    unfold autofs_path
    simp only [kstrdup, autofs_path_loop_eq, List.append_nil, List.append_assoc,
      List.singleton_append]
  refine ⟨hpath, ?_, ?_, ?_⟩
  · intro hroot
    rw [hpath, autofs_chain_of_root anp hroot]
    simp
  · have hlast : ∀ l : List Char, (l ++ ['/']).getLast? = some '/' := by
      intro l; simp
    rw [hpath]
    rcases List.eq_nil_or_concat (autofs_chain anp).dropLast.reverse with h | ⟨l, x, h⟩
    · rw [h]
      simp
    · rw [h]
      have : (mounts anp.an_mount).am_on ++ ['/'] ++
          ((l.concat x).map (fun x => x.an_name ++ ['/'])).flatten =
          ((mounts anp.an_mount).am_on ++ ['/'] ++
            (l.map (fun x => x.an_name ++ ['/'])).flatten ++ x.an_name) ++ ['/'] := by
        simp
      rw [this]
      exact hlast _
  · rw [autofs_trigger_one_submit_of_none maxlen t mounts { sc with sc_requests := [] } anp
      component componentlen rfl]
    simp [autofs_request_new, strlcpy]

/-- C14, witness: the path of the root of the mount on `/mnt` is `/mnt/`. -/
theorem autofs_path_spec_witness : autofs_path ex_mounts ex_root = "/mnt/".toList :=
  (autofs_path_spec 256 autofs_defaults ex_mounts autofs_init ex_root [] 0).2.1 rfl


theorem autofs_node_find_eq_zero (children : List autofs_node) (name : List Char)
    (namelen : Int) (h0 : 0 ≤ namelen) (h1 : namelen < 2 ^ 64) :
    (autofs_node_find children name namelen).1 = 0 ↔
      ∃ c ∈ children, strcmp (name.take namelen.toNat) c.an_name = 0 := by
  unfold autofs_node_find autofs_node_tree_RB_FIND
  rw [if_pos (by omega), kstrndup, size_t_of_int_of_nonneg namelen h0 h1]
  cases hf : children.find? (fun c => strcmp (name.take namelen.toNat) c.an_name = 0) with
  | none =>
      simp only
      rw [List.find?_eq_none] at hf
      constructor
      · intro h; exact absurd h (by decide)
      · rintro ⟨c, hc, hz⟩
        exact absurd (by simpa using hz) (hf c hc)
  | some c =>
      simp only [true_iff]
      exact ⟨c, List.mem_of_find?_eq_some hf, by simpa using List.find?_some hf⟩

/-! ## C15: the cache test -/

/-- C15 (as amended): `autofs_cached`, for a component length that is not
negative.  The result is false when the node is the root, `componentlen` is
not zero, `an_wildcards` is true and no child of the root has the first
`componentlen` bytes of `component` as its name (`strcmp` gives 0 for no
child); in every other case it is `an_cached`.  So for a root with
`an_cached` and `an_wildcards` true and a component length that is not
zero, the result is true exactly when the component names a child; for
the length zero the result is `an_cached`, whatever the children. -/
theorem autofs_cached_spec (anp : autofs_node) (children : List autofs_node)
    (component : List Char) (componentlen : Int) (h0 : 0 ≤ componentlen)
    (h1 : componentlen < 2 ^ 64) :
    (anp.an_parent = none → componentlen ≠ 0 → anp.an_wildcards = true →
      (∀ c ∈ children, strcmp (component.take componentlen.toNat) c.an_name ≠ 0) →
      autofs_cached anp children component componentlen = false) ∧
    (¬(anp.an_parent = none ∧ componentlen ≠ 0 ∧ anp.an_wildcards = true ∧
        ∀ c ∈ children, strcmp (component.take componentlen.toNat) c.an_name ≠ 0) →
      autofs_cached anp children component componentlen = anp.an_cached) ∧
    (anp.an_parent = none → anp.an_cached = true → anp.an_wildcards = true →
      componentlen ≠ 0 →
      (autofs_cached anp children component componentlen = true ↔
        ∃ c ∈ children, strcmp (component.take componentlen.toNat) c.an_name = 0)) ∧
    (componentlen = 0 → autofs_cached anp children component componentlen = anp.an_cached) := by
  have hfind := autofs_node_find_eq_zero children component componentlen h0 h1
  have hnone : anp.an_parent = none ↔ anp.an_parent.isNone = true := by
    cases anp.an_parent <;> simp
  have hA : anp.an_parent = none → componentlen ≠ 0 → anp.an_wildcards = true →
      (∀ c ∈ children, strcmp (component.take componentlen.toNat) c.an_name ≠ 0) →
      autofs_cached anp children component componentlen = false := by
    intro hr hc hw hno
    unfold autofs_cached
    rw [if_pos ⟨hnone.1 hr, hc, hw⟩, if_pos]
    intro hz
    obtain ⟨c, hcm, hcz⟩ := hfind.1 hz
    exact hno c hcm hcz
  have hB : ¬(anp.an_parent = none ∧ componentlen ≠ 0 ∧ anp.an_wildcards = true ∧
        ∀ c ∈ children, strcmp (component.take componentlen.toNat) c.an_name ≠ 0) →
      autofs_cached anp children component componentlen = anp.an_cached := by
    intro hn
    unfold autofs_cached
    by_cases hg : anp.an_parent.isNone = true ∧ componentlen ≠ 0 ∧ anp.an_wildcards = true
    · rw [if_pos hg, if_neg]
      intro hz
      apply hn
      refine ⟨hnone.2 hg.1, hg.2.1, hg.2.2, ?_⟩
      intro c hcm hcz
      exact hz (hfind.2 ⟨c, hcm, hcz⟩)
    · rw [if_neg hg]
  refine ⟨hA, hB, ?_, ?_⟩
  · intro hr hcached hw hc
    constructor
    · intro ht
      by_contra hex
      have hno : ∀ c ∈ children, strcmp (component.take componentlen.toNat) c.an_name ≠ 0 :=
        fun c hcm hcz => hex ⟨c, hcm, hcz⟩
      rw [hA hr hc hw hno] at ht
      exact absurd ht (by decide)
    · rintro ⟨c, hcm, hcz⟩
      rw [hB (fun hn => hn.2.2.2 c hcm hcz), hcached]
  · intro hz
    exact hB (fun hn => hn.2.1 hz)

/-- C15, witness: the root is cached with wildcards and has the child
`ex_long`; a lookup of `other` is not cached, a lookup of the name of the
child is. -/
theorem autofs_cached_spec_witness :
    (0 : Int) ≤ 5 ∧ (5 : Int) < 2 ^ 64 ∧
    autofs_cached ex_root_cached [ex_long] "other".toList 5 = false :=
  ⟨by decide, by decide,
    (autofs_cached_spec ex_root_cached [ex_long] "other".toList 5 (by decide)
      (by decide)).1 rfl (by decide) rfl (by decide)⟩

/-- C15, counterexample to the claim as written: the root is cached with
wildcards and has no child; with the empty component and length 0, as
`autofs_readdir` and `autofs_getattr` pass them, `autofs_cached` returns true
although the component names no child. -/
theorem autofs_cached_empty_component :
    ex_root_cached.an_parent.isNone = true ∧ ex_root_cached.an_cached = true ∧
    ex_root_cached.an_wildcards = true ∧
    autofs_cached ex_root_cached [] [] 0 = true ∧
    ¬ ∃ c ∈ ([] : List autofs_node), strcmp ([] : List Char) c.an_name = 0 := by
  refine ⟨rfl, rfl, rfl, by decide, by simp⟩

/-! ## C16: the thread of the daemon -/

/-- C16: `autofs_ignore_thread` returns true exactly when the device is open
(`sc_dev_opened`) and the process group of the caller is the recorded
`sc_dev_sid`; it leaves the coordinator state as it is. -/
theorem autofs_ignore_thread_iff (sc : autofs_softc) (pg_id : Int) :
    ((autofs_ignore_thread sc pg_id).2 = true ↔
      sc.sc_dev_opened = true ∧ sc.sc_dev_sid = pg_id) ∧
    (autofs_ignore_thread sc pg_id).1 = sc := by
  unfold autofs_ignore_thread
  by_cases ho : sc.sc_dev_opened = false
  · rw [if_pos ho]
    simp [ho]
  · rw [if_neg ho]
    have ho' : sc.sc_dev_opened = true := by simpa using ho
    by_cases hs : sc.sc_dev_sid = pg_id
    · rw [if_pos hs]; simp [ho', hs]
    · rw [if_neg hs]; simp [hs]

/-! ## C17: the vnode operations do not trigger for the daemon -/

/-- C17: `autofs_lookup`, `autofs_readdir` and `autofs_getattr` call
`autofs_trigger_vn`, and so `autofs_trigger`, only if `autofs_ignore_thread`
returns false and `autofs_cached` returns false (for `autofs_lookup` the
name is then neither `.` nor `..`; for `autofs_getattr`
`autofs_mount_on_stat` is then not zero).  When the device is open and the
process group of the caller is `sc_dev_sid`, none of the three makes the
call. -/
theorem autofs_vnops_trigger_guard (t : autofs_tunables) (sc : autofs_softc) (pg_id : Int)
    (anp : autofs_node) (children : List autofs_node) (cache_lookup : Int)
    (isdotdot : Bool) (cn_nameptr : List Char) (cn_namelen : Int) (vdir : Bool)
    (v_mountedhere : Bool) :
    (autofs_lookup_calls sc pg_id anp children cache_lookup isdotdot cn_nameptr
        cn_namelen = true →
      (autofs_ignore_thread sc pg_id).2 = false ∧
      autofs_cached anp children cn_nameptr cn_namelen = false ∧
      isdotdot = false ∧ ¬(cn_namelen = 1 ∧ cn_nameptr.head? = some '.')) ∧
    (autofs_readdir_calls sc pg_id anp children vdir = true →
      (autofs_ignore_thread sc pg_id).2 = false ∧
      autofs_cached anp children [] 0 = false) ∧
    (autofs_getattr_calls t sc pg_id anp children = true →
      (autofs_ignore_thread sc pg_id).2 = false ∧
      autofs_cached anp children [] 0 = false ∧ t.autofs_mount_on_stat ≠ 0) ∧
    (sc.sc_dev_opened = true ∧ sc.sc_dev_sid = pg_id →
      (autofs_lookup_calls sc pg_id anp children cache_lookup isdotdot cn_nameptr
          cn_namelen && autofs_trigger_vn_calls v_mountedhere) = false ∧
      (autofs_readdir_calls sc pg_id anp children vdir &&
          autofs_trigger_vn_calls v_mountedhere) = false ∧
      (autofs_getattr_calls t sc pg_id anp children &&
          autofs_trigger_vn_calls v_mountedhere) = false) := by
  have hl : autofs_lookup_calls sc pg_id anp children cache_lookup isdotdot cn_nameptr
        cn_namelen = true →
      (autofs_ignore_thread sc pg_id).2 = false ∧
      autofs_cached anp children cn_nameptr cn_namelen = false ∧
      isdotdot = false ∧ ¬(cn_namelen = 1 ∧ cn_nameptr.head? = some '.') := by
    unfold autofs_lookup_calls
    intro h
    split at h
    · exact absurd h (by decide)
    · split at h
      · exact absurd h (by decide)
      · split at h
        · exact absurd h (by decide)
        · split at h
          · exact absurd h (by decide)
          · split at h
            · rename_i h1 h2 h3
              exact ⟨h3.2, h3.1, by simpa using h1, h2⟩
            · exact absurd h (by decide)
  have hr : autofs_readdir_calls sc pg_id anp children vdir = true →
      (autofs_ignore_thread sc pg_id).2 = false ∧
      autofs_cached anp children [] 0 = false := by
    unfold autofs_readdir_calls
    intro h
    split at h
    · exact absurd h (by decide)
    · split at h
      · rename_i h3
        exact ⟨h3.2, h3.1⟩
      · exact absurd h (by decide)
  have hg : autofs_getattr_calls t sc pg_id anp children = true →
      (autofs_ignore_thread sc pg_id).2 = false ∧
      autofs_cached anp children [] 0 = false ∧ t.autofs_mount_on_stat ≠ 0 := by
    unfold autofs_getattr_calls
    intro h
    split at h
    · rename_i h3
      exact ⟨h3.2.2, h3.2.1, h3.1⟩
    · exact absurd h (by decide)
  refine ⟨hl, hr, hg, ?_⟩
  intro hd
  have hig : (autofs_ignore_thread sc pg_id).2 = true :=
    (autofs_ignore_thread_iff sc pg_id).1.2 hd
  have hne : ¬ (autofs_ignore_thread sc pg_id).2 = false := by rw [hig]; decide
  refine ⟨?_, ?_, ?_⟩
  · cases h : autofs_lookup_calls sc pg_id anp children cache_lookup isdotdot cn_nameptr
        cn_namelen with
    | false => rfl
    | true => exact absurd (hl h).1 hne
  · cases h : autofs_readdir_calls sc pg_id anp children vdir with
    | false => rfl
    | true => exact absurd (hr h).1 hne
  · cases h : autofs_getattr_calls t sc pg_id anp children with
    | false => rfl
    | true => exact absurd (hg h).1 hne

/-- C17, witness: with the device open for process group 77, a lookup of
`home` in the root that is not cached triggers for a process of group 5 and
does not for a process of group 77. -/
theorem autofs_vnops_trigger_guard_witness :
    autofs_lookup_calls { autofs_init with sc_dev_opened := true, sc_dev_sid := 77 } 5
        ex_root [] (-1) false "home".toList 4 = true ∧
    (autofs_lookup_calls { autofs_init with sc_dev_opened := true, sc_dev_sid := 77 } 77
        ex_root [] (-1) false "home".toList 4 && autofs_trigger_vn_calls false) = false :=
  ⟨by decide,
    ((autofs_vnops_trigger_guard autofs_defaults
      { autofs_init with sc_dev_opened := true, sc_dev_sid := 77 } 77 ex_root [] (-1) false
      "home".toList 4 true false).2.2.2 ⟨rfl, rfl⟩).1⟩

/-! ## C18: the timeout of a request -/

/-- C18: the timeout task of a linked request leaves that request with
`ar_error = ETIMEDOUT`, `ar_wildcards = true`, `ar_done = true` and
`ar_in_progress = false`; every other field of it, its place in the table,
every other request and the rest of the coordinator state stay.  In a state
reached by a run the request is the only one with its id. -/
theorem autofs_request_timeout_task_sets (maxlen : Nat) (t : autofs_tunables)
    (mounts : Nat → autofs_mount) (maxthread : Nat) (evs : List autofs_event)
    (sc : autofs_softc) (pre : List autofs_request) (ar : autofs_request)
    (post : List autofs_request) :
    (sc.sc_requests = pre ++ ar :: post → (∀ r ∈ pre, r.ar_id ≠ ar.ar_id) →
      autofs_request_timeout_task sc ar.ar_id =
        { sc with sc_requests :=
            pre ++ { ar with
                      ar_error := ETIMEDOUT
                      ar_wildcards := true
                      ar_done := true
                      ar_in_progress := false } :: post }) ∧
    ((autofs_run maxlen t mounts maxthread evs).sc.sc_requests = pre ++ ar :: post →
      (∀ r ∈ pre, r.ar_id ≠ ar.ar_id) ∧ (∀ r ∈ post, r.ar_id ≠ ar.ar_id) ∧
      autofs_run maxlen t mounts maxthread (evs ++ [.timeout ar.ar_id]) =
        { autofs_run maxlen t mounts maxthread evs with
            sc := { (autofs_run maxlen t mounts maxthread evs).sc with
              sc_requests :=
                pre ++ { ar with
                          ar_error := ETIMEDOUT
                          ar_wildcards := true
                          ar_done := true
                          ar_in_progress := false } :: post } }) := by
  have hgen : ∀ sc : autofs_softc, sc.sc_requests = pre ++ ar :: post →
      (∀ r ∈ pre, r.ar_id ≠ ar.ar_id) →
      autofs_request_timeout_task sc ar.ar_id =
        { sc with sc_requests :=
            pre ++ { ar with
                      ar_error := ETIMEDOUT
                      ar_wildcards := true
                      ar_done := true
                      ar_in_progress := false } :: post } := by
    intro sc hl hpre
    unfold autofs_request_timeout_task
    rw [hl, autofs_request_expire_found ar.ar_id pre ar post hpre rfl]
  refine ⟨hgen sc, ?_⟩
  intro hl
  have ho := autofs_run_inv_order maxlen t mounts maxthread evs
  have hsplit := autofs_sorted_split pre ar post (hl ▸ ho.sorted)
  have hpre : ∀ r ∈ pre, r.ar_id ≠ ar.ar_id := fun r hr => ne_of_lt (hsplit.1 r hr)
  refine ⟨hpre, fun r hr => ne_of_gt (hsplit.2 r hr), ?_⟩
  rw [autofs_run_snoc]
  show ({ autofs_run maxlen t mounts maxthread evs with
    sc := autofs_request_timeout_task (autofs_run maxlen t mounts maxthread evs).sc
      ar.ar_id } : autofs_state) = _
  rw [hgen _ hl hpre]

/-- C18, witness: the timeout of request 0, alone in the table. -/
theorem autofs_request_timeout_task_sets_witness :
    (autofs_request_timeout_task
        (autofs_trigger_one_submit 256 autofs_defaults ex_mounts autofs_init ex_root
          "home".toList 4).1 0).sc_requests.map
        (fun r => (r.ar_id, r.ar_error, r.ar_wildcards, r.ar_done, r.ar_in_progress,
          r.ar_refcount)) = [(0, 60, true, true, false, 1)] := by
  have h := (autofs_request_timeout_task_sets 256 autofs_defaults ex_mounts 8 []
    (autofs_trigger_one_submit 256 autofs_defaults ex_mounts autofs_init ex_root
      "home".toList 4).1 []
    (autofs_request_new 256 autofs_defaults ex_mounts autofs_init ex_root
      "/mnt/".toList "home".toList) []).1 (by decide) (by simp)
  have hid : (autofs_request_new 256 autofs_defaults ex_mounts autofs_init ex_root
      "/mnt/".toList "home".toList).ar_id = 0 := rfl
  rw [hid] at h
  rw [h]
  decide

/-! ## C19: one pass of the unmount sweep -/

/-- C19: one pass of the sweep of `autofs_unmount` for the mount at `amp`
sets `ar_error = ENXIO`, `ar_done = true` and `ar_in_progress = false` on
every request of that mount and changes nothing else: the requests of
other mounts, the other fields (wildcards and reference count among them),
the number and the order of the requests and the rest of the coordinator
state stay.  The pass ends with `found` true exactly when a request of the
mount was linked. -/
theorem autofs_unmount_pass_sweeps (sc : autofs_softc) (amp : Nat) :
    (autofs_unmount_pass sc amp).1 =
      { sc with sc_requests := sc.sc_requests.map (fun ar =>
          if ar.ar_mount = amp then
            { ar with ar_error := ENXIO, ar_done := true, ar_in_progress := false }
          else ar) } ∧
    ((autofs_unmount_pass sc amp).2 = true ↔ ∃ r ∈ sc.sc_requests, r.ar_mount = amp) ∧
    (autofs_unmount_pass sc amp).1.sc_requests.length = sc.sc_requests.length := by
  have h := autofs_unmount_sweep_eq amp sc.sc_requests false
  have hmap : (sc.sc_requests.map (fun ar => if ar.ar_mount ≠ amp then ar
        else { ar with ar_error := ENXIO, ar_done := true, ar_in_progress := false })) =
      sc.sc_requests.map (fun ar =>
          if ar.ar_mount = amp then
            { ar with ar_error := ENXIO, ar_done := true, ar_in_progress := false }
          else ar) := by
    apply List.map_congr_left
    intro ar _
    by_cases ha : ar.ar_mount = amp
    · simp [ha]
    · simp [ha]
  refine ⟨?_, ?_, ?_⟩
  · unfold autofs_unmount_pass
    rw [h, hmap]
  · unfold autofs_unmount_pass
    rw [h]
    simp
  · unfold autofs_unmount_pass
    rw [h]
    simp

/-! ## C20: the inode numbers of a mount -/

theorem autofs_node_new_seq_inos (amp : Nat) :
    ∀ (calls : List (Option autofs_node × List autofs_node × List Char × Int))
      (mnt : autofs_mount),
      (∀ n ∈ autofs_node_new_seq amp mnt calls, mnt.am_last_ino ≤ n.an_ino) ∧
      ((autofs_node_new_seq amp mnt calls).map (fun n => n.an_ino)).Pairwise
        (fun a b => a < b)
  | [], mnt => by simp [autofs_node_new_seq]
  | (parent, siblings, name, namelen) :: calls, mnt => by
      obtain ⟨h1, h2⟩ := autofs_node_new_seq_inos amp calls
        (autofs_node_new mnt amp parent siblings name namelen).mount
      have hm : (autofs_node_new mnt amp parent siblings name namelen).mount.am_last_ino =
          mnt.am_last_ino + 1 := rfl
      have hi : (autofs_node_new mnt amp parent siblings name namelen).anp.an_ino =
          mnt.am_last_ino := rfl
      rw [hm] at h1
      refine ⟨?_, ?_⟩
      · intro n hn
        rw [autofs_node_new_seq] at hn
        rcases List.mem_cons.1 hn with rfl | hn
        · rw [hi]
        · have := h1 n hn
          omega
      · rw [autofs_node_new_seq, List.map_cons, List.pairwise_cons]
        refine ⟨?_, h2⟩
        intro b hb
        obtain ⟨n, hn, rfl⟩ := List.mem_map.1 hb
        have := h1 n hn
        rw [hi]
        omega

/-- C20: in a mount the root node made by `autofs_mount` has inode 1; every
call of `autofs_node_new` gives the new node the value of the inode counter
and moves the counter up by one; so, over any sequence of calls after the
mount, the inode of each new node is greater than the inodes of all nodes
made before it, and the inodes of the nodes of the mount are pairwise
distinct and at least 1 (inode numbers being natural numbers). -/
theorem autofs_node_new_inos_increase (mnt0 : autofs_mount) (amp : Nat)
    (calls : List (Option autofs_node × List autofs_node × List Char × Int)) :
    (autofs_mount_setup mnt0 amp).anp.an_ino = 1 ∧
    (∀ (mnt : autofs_mount) (parent : Option autofs_node) (siblings : List autofs_node)
        (name : List Char) (namelen : Int),
      (autofs_node_new mnt amp parent siblings name namelen).anp.an_ino = mnt.am_last_ino ∧
      (autofs_node_new mnt amp parent siblings name namelen).mount.am_last_ino =
        mnt.am_last_ino + 1) ∧
    (((autofs_mount_setup mnt0 amp).anp ::
        autofs_node_new_seq amp (autofs_mount_setup mnt0 amp).mount calls).map
      (fun n => n.an_ino)).Pairwise (fun a b => a < b) ∧
    (((autofs_mount_setup mnt0 amp).anp ::
        autofs_node_new_seq amp (autofs_mount_setup mnt0 amp).mount calls).map
      (fun n => n.an_ino)).Nodup ∧
    (∀ n ∈ (autofs_mount_setup mnt0 amp).anp ::
        autofs_node_new_seq amp (autofs_mount_setup mnt0 amp).mount calls, 1 ≤ n.an_ino) := by
  have hroot : (autofs_mount_setup mnt0 amp).anp.an_ino = 1 := rfl
  have hcount : (autofs_mount_setup mnt0 amp).mount.am_last_ino = 2 := rfl
  obtain ⟨h1, h2⟩ := autofs_node_new_seq_inos amp calls (autofs_mount_setup mnt0 amp).mount
  rw [hcount] at h1
  have hpw : (((autofs_mount_setup mnt0 amp).anp ::
        autofs_node_new_seq amp (autofs_mount_setup mnt0 amp).mount calls).map
      (fun n => n.an_ino)).Pairwise (fun a b => a < b) := by
    rw [List.map_cons, List.pairwise_cons]
    refine ⟨?_, h2⟩
    intro b hb
    obtain ⟨n, hn, rfl⟩ := List.mem_map.1 hb
    have := h1 n hn
    rw [hroot]
    omega
  refine ⟨hroot, fun mnt parent siblings name namelen => ⟨rfl, rfl⟩, hpw,
    hpw.imp (fun h => Nat.ne_of_lt h), ?_⟩
  intro n hn
  rcases List.mem_cons.1 hn with rfl | hn
  · rw [hroot]
  · have := h1 n hn
    omega

/-! ## The change of a request in one step -/

theorem autofs_request_moved_refl (ev : autofs_event) (r : autofs_request) :
    autofs_request_moved ev r r := by
  cases ev <;> exact Or.inl rfl

/-- Every request linked after a step comes from one linked before it, or
is the request appended by a submission. -/
theorem autofs_step_moved (maxlen : Nat) (t : autofs_tunables)
    (mounts : Nat → autofs_mount) (maxthread : Nat) (s : autofs_state)
    (ev : autofs_event) :
    ∀ r' ∈ (autofs_step maxlen t mounts maxthread s ev).sc.sc_requests,
      (∃ r ∈ s.sc.sc_requests, autofs_request_moved ev r r') ∨
      (r'.ar_id = s.sc.sc_last_request_id ∧ r'.ar_done = false ∧
        r'.ar_in_progress = false) := by
  have hsame : ∀ r' ∈ s.sc.sc_requests,
      (∃ r ∈ s.sc.sc_requests, autofs_request_moved ev r r') ∨
      (r'.ar_id = s.sc.sc_last_request_id ∧ r'.ar_done = false ∧
        r'.ar_in_progress = false) :=
    fun r' hr' => Or.inl ⟨r', hr', autofs_request_moved_refl ev r'⟩
  have hupd : ∀ (pre : List autofs_request) (a a' : autofs_request)
      (post : List autofs_request), s.sc.sc_requests = pre ++ a :: post →
      autofs_request_moved ev a a' → ∀ r' ∈ pre ++ a' :: post,
      (∃ r ∈ s.sc.sc_requests, autofs_request_moved ev r r') ∨
      (r'.ar_id = s.sc.sc_last_request_id ∧ r'.ar_done = false ∧
        r'.ar_in_progress = false) := by
    intro pre a a' post hl hm r' hr'
    left
    rcases List.mem_append.1 hr' with hp | hp
    · exact ⟨r', by rw [hl]; exact List.mem_append_left _ hp, autofs_request_moved_refl ev r'⟩
    · rcases List.mem_cons.1 hp with rfl | hp
      · exact ⟨a, by rw [hl]; simp, hm⟩
      · exact ⟨r', by rw [hl]; exact List.mem_append_right _ (List.mem_cons_of_mem _ hp),
          autofs_request_moved_refl ev r'⟩
  cases ev with
  | submit anp component componentlen =>
      rw [autofs_step_submit]
      by_cases hg : s.callers.length < maxthread
      · simp only [if_pos hg]
        cases hj : autofs_request_join (autofs_path mounts anp)
            (autofs_key anp component componentlen) s.sc.sc_requests with
        | some p =>
            obtain ⟨l', id⟩ := p
            rw [autofs_trigger_one_submit_of_join maxlen t mounts s.sc anp component
              componentlen l' id hj]
            obtain ⟨pre, ar, post, h1, h2, -⟩ := autofs_request_join_some _ _ _ _ _ hj
            intro r' hr'
            have hr'' : r' ∈ l' := hr'
            rw [h2] at hr''
            exact hupd pre ar _ post h1 (Or.inr ⟨_, rfl⟩) r' hr''
        | none =>
            rw [autofs_trigger_one_submit_of_none maxlen t mounts s.sc anp component
              componentlen hj]
            intro r' hr'
            rcases List.mem_append.1 hr' with hp | hp
            · exact hsame r' hp
            · right
              rw [List.mem_singleton.1 hp]
              exact ⟨rfl, rfl, rfl⟩
      · simp only [if_neg hg]; exact hsame
  | leave n =>
      cases hc : s.callers.get? n with
      | none => rw [autofs_step_leave_none _ _ _ _ _ _ hc]; exact hsame
      | some id =>
          cases hfind : autofs_request_find id s.sc.sc_requests with
          | none => rw [autofs_step_leave_unfound _ _ _ _ _ _ _ hc hfind]; exact hsame
          | some ar =>
              by_cases hg : ar.ar_done = true ∨ t.autofs_interruptible ≠ 0
              · rw [autofs_step_leave_released _ _ _ _ _ _ _ _ hc hfind hg]
                obtain ⟨pre, post, h1, h2, h3⟩ := autofs_request_find_some id _ ar hfind
                intro r' hr'
                have hr'' : r' ∈ autofs_request_release id s.sc.sc_requests := hr'
                rw [h1, autofs_request_release_found id pre ar post h2 h3] at hr''
                by_cases h0 : (ar.ar_refcount + 2 ^ 32 - 1) % 2 ^ 32 = 0
                · rw [if_pos h0] at hr''
                  refine hsame r' ?_
                  rw [h1]
                  rcases List.mem_append.1 hr'' with hp | hp
                  · exact List.mem_append_left _ hp
                  · exact List.mem_append_right _ (List.mem_cons_of_mem _ hp)
                · rw [if_neg h0] at hr''
                  exact hupd pre ar _ post h1 (Or.inr ⟨_, rfl⟩) r' hr''
              · rw [autofs_step_leave_parked _ _ _ _ _ _ _ _ hc hfind hg]; exact hsame
  | fetch pg_id =>
      cases hfe : autofs_request_fetch s.sc.sc_requests with
      | none => rw [autofs_step_fetch_none _ _ _ _ _ _ hfe]; exact hsame
      | some p =>
          obtain ⟨l', found⟩ := p
          rw [autofs_step_fetch_some _ _ _ _ _ _ _ _ hfe]
          obtain ⟨pre, post, h1, h2, -, h4, h5⟩ := autofs_request_fetch_some _ _ _ hfe
          intro r' hr'
          have hr'' : r' ∈ l' := hr'
          rw [h2] at hr''
          exact hupd pre found _ post h1 (Or.inr ⟨h4, h5, rfl⟩) r' hr''
  | done add =>
      show ∀ r' ∈ (autofs_ioctl_done s.sc add).1.sc_requests, _
      unfold autofs_ioctl_done
      cases hd : autofs_request_done add s.sc.sc_requests with
      | none => exact hsame
      | some l' =>
          obtain ⟨pre, ar, post, h1, h2, -, h4⟩ := autofs_request_done_some add _ _ hd
          intro r' hr'
          have hr'' : r' ∈ l' := hr'
          rw [h2] at hr''
          exact hupd pre ar _ post h1 (Or.inr ⟨h4.symm, rfl⟩) r' hr''
  | timeout id =>
      show ∀ r' ∈ autofs_request_expire id s.sc.sc_requests, _
      rcases autofs_request_split id s.sc.sc_requests with hn | ⟨pre, ar, post, h1, h2, h3⟩
      · rw [autofs_request_expire_none id _ hn]; exact hsame
      · intro r' hr'
        rw [h1, autofs_request_expire_found id pre ar post h2 h3] at hr'
        exact hupd pre ar _ post h1 (Or.inr ⟨h3.symm, rfl⟩) r' hr'
  | unmount amp =>
      show ∀ r' ∈ (autofs_unmount_sweep amp s.sc.sc_requests false).1, _
      rw [autofs_unmount_sweep_eq]
      intro r' hr'
      obtain ⟨r, hr, hrr⟩ := List.mem_map.1 hr'
      left
      refine ⟨r, hr, ?_⟩
      by_cases ha : r.ar_mount ≠ amp
      · rw [if_pos ha] at hrr
        exact Or.inl hrr.symm
      · rw [if_neg ha] at hrr
        exact Or.inr ⟨(by simpa using ha : r.ar_mount = amp).symm, hrr.symm⟩

theorem autofs_step_last_id (maxlen : Nat) (t : autofs_tunables)
    (mounts : Nat → autofs_mount) (maxthread : Nat) (s : autofs_state)
    (ev : autofs_event) :
    s.sc.sc_last_request_id ≤
      (autofs_step maxlen t mounts maxthread s ev).sc.sc_last_request_id := by
  cases ev with
  | submit anp component componentlen =>
      rw [autofs_step_submit]
      by_cases hg : s.callers.length < maxthread
      · simp only [if_pos hg]
        cases hj : autofs_request_join (autofs_path mounts anp)
            (autofs_key anp component componentlen) s.sc.sc_requests with
        | some p =>
            obtain ⟨l', id⟩ := p
            rw [autofs_trigger_one_submit_of_join maxlen t mounts s.sc anp component
              componentlen l' id hj]
        | none =>
            rw [autofs_trigger_one_submit_of_none maxlen t mounts s.sc anp component
              componentlen hj]
            show s.sc.sc_last_request_id ≤ s.sc.sc_last_request_id + 1
            omega
      · simp only [if_neg hg]; exact le_refl _
  | leave n =>
      cases hc : s.callers.get? n with
      | none => rw [autofs_step_leave_none _ _ _ _ _ _ hc]
      | some id =>
          cases hfind : autofs_request_find id s.sc.sc_requests with
          | none => rw [autofs_step_leave_unfound _ _ _ _ _ _ _ hc hfind]
          | some ar =>
              by_cases hg : ar.ar_done = true ∨ t.autofs_interruptible ≠ 0
              · rw [autofs_step_leave_released _ _ _ _ _ _ _ _ hc hfind hg]
              · rw [autofs_step_leave_parked _ _ _ _ _ _ _ _ hc hfind hg]
  | fetch pg_id =>
      cases hfe : autofs_request_fetch s.sc.sc_requests with
      | none => rw [autofs_step_fetch_none _ _ _ _ _ _ hfe]
      | some p =>
          obtain ⟨l', found⟩ := p
          rw [autofs_step_fetch_some _ _ _ _ _ _ _ _ hfe]
  | done add => exact le_of_eq (autofs_ioctl_done_settled s.sc add).2.symm
  | timeout id => exact le_refl _
  | unmount amp => exact le_refl _

/-- In a run, a request linked after a step that has the id of a request
linked before the step comes from that request. -/
theorem autofs_run_step_same_id (maxlen : Nat) (t : autofs_tunables)
    (mounts : Nat → autofs_mount) (maxthread : Nat) (evs : List autofs_event)
    (ev : autofs_event) (r r' : autofs_request)
    (hr : r ∈ (autofs_run maxlen t mounts maxthread evs).sc.sc_requests)
    (hr' : r' ∈ (autofs_run maxlen t mounts maxthread (evs ++ [ev])).sc.sc_requests)
    (hid : r'.ar_id = r.ar_id) : autofs_request_moved ev r r' := by
  have ho := autofs_run_inv_order maxlen t mounts maxthread evs
  rw [autofs_run_snoc] at hr'
  rcases autofs_step_moved maxlen t mounts maxthread _ ev r' hr' with ⟨r0, hr0, hm⟩ | hnew
  · have hid0 : r0.ar_id = r'.ar_id := by
      cases ev <;> rcases hm with h | h
      all_goals first
        | (rw [h])
        | (obtain ⟨n, h⟩ := h; rw [h])
        | (rw [h.2.2])
    have hnodup : ((autofs_run maxlen t mounts maxthread evs).sc.sc_requests.map
        (fun r => r.ar_id)).Nodup := ho.sorted.imp (fun h => ne_of_lt h)
    have : r0 = r := List.inj_on_of_nodup_map hnodup hr0 hr (hid0.trans hid)
    rw [← this]
    exact hm
  · have := ho.below r hr
    have := hnew.1
    omega

/-! ## C11: what the callers of one request read -/

theorem autofs_request_moved_id (ev : autofs_event) (r r' : autofs_request)
    (h : autofs_request_moved ev r r') : r'.ar_id = r.ar_id := by
  cases ev <;> rcases h with h | h
  all_goals first
    | (rw [h])
    | (obtain ⟨n, h⟩ := h; rw [h])
    | (rw [h.2.2])

theorem autofs_request_moved_spared (ev : autofs_event) (r r0 r' : autofs_request)
    (hs : autofs_event_spares r ev) (hid : r0.ar_id = r.ar_id)
    (hmount : r0.ar_mount = r.ar_mount) (h : autofs_request_moved ev r0 r') :
    r'.ar_error = r0.ar_error ∧ r'.ar_wildcards = r0.ar_wildcards ∧
    r'.ar_done = r0.ar_done ∧ r'.ar_mount = r0.ar_mount := by
  cases ev with
  | submit anp component componentlen =>
      rcases h with h | ⟨n, h⟩ <;> rw [h] <;> exact ⟨rfl, rfl, rfl, rfl⟩
  | leave n =>
      rcases h with h | ⟨n, h⟩ <;> rw [h] <;> exact ⟨rfl, rfl, rfl, rfl⟩
  | fetch pg_id =>
      rcases h with h | ⟨_, _, h⟩ <;> rw [h] <;> exact ⟨rfl, rfl, rfl, rfl⟩
  | done add =>
      rcases h with h | ⟨h1, _⟩
      · rw [h]; exact ⟨rfl, rfl, rfl, rfl⟩
      · exact absurd (h1.trans hid) hs
  | timeout id =>
      rcases h with h | ⟨h1, _⟩
      · rw [h]; exact ⟨rfl, rfl, rfl, rfl⟩
      · exact absurd (h1.trans hid) hs
  | unmount amp =>
      rcases h with h | ⟨h1, _⟩
      · rw [h]; exact ⟨rfl, rfl, rfl, rfl⟩
      · exact absurd (h1.trans hmount) hs

/-- Over steps none of which completes the request `r`, the id counter does
not go down and a linked request with the id of `r` has the result, the
done flag and the mount of `r`. -/
theorem autofs_run_spared (maxlen : Nat) (t : autofs_tunables)
    (mounts : Nat → autofs_mount) (maxthread : Nat) (evs : List autofs_event)
    (r : autofs_request)
    (hr : r ∈ (autofs_run maxlen t mounts maxthread evs).sc.sc_requests) :
    ∀ mid : List autofs_event, (∀ ev ∈ mid, autofs_event_spares r ev) →
      (autofs_run maxlen t mounts maxthread evs).sc.sc_last_request_id ≤
        (autofs_run maxlen t mounts maxthread (evs ++ mid)).sc.sc_last_request_id ∧
      ∀ r' ∈ (autofs_run maxlen t mounts maxthread (evs ++ mid)).sc.sc_requests,
        r'.ar_id = r.ar_id →
        r'.ar_error = r.ar_error ∧ r'.ar_wildcards = r.ar_wildcards ∧
        r'.ar_done = r.ar_done ∧ r'.ar_mount = r.ar_mount := by
  intro mid
  induction mid using List.reverseRecOn with
  | nil =>
      intro _
      rw [List.append_nil]
      refine ⟨le_refl _, ?_⟩
      intro r' hr' hid
      have ho := autofs_run_inv_order maxlen t mounts maxthread evs
      have hnodup : ((autofs_run maxlen t mounts maxthread evs).sc.sc_requests.map
          (fun r => r.ar_id)).Nodup := ho.sorted.imp (fun h => ne_of_lt h)
      have : r' = r := List.inj_on_of_nodup_map hnodup hr' hr hid
      rw [this]
      exact ⟨rfl, rfl, rfl, rfl⟩
  | append_singleton mid ev ih =>
      intro hmid
      have hmid' : ∀ e ∈ mid, autofs_event_spares r e :=
        fun e he => hmid e (List.mem_append_left _ he)
      have hev : autofs_event_spares r ev := hmid ev (by simp)
      obtain ⟨ih1, ih2⟩ := ih hmid'
      rw [← List.append_assoc, autofs_run_snoc]
      have hstep := autofs_step_last_id maxlen t mounts maxthread
        (autofs_run maxlen t mounts maxthread (evs ++ mid)) ev
      refine ⟨le_trans ih1 hstep, ?_⟩
      intro r' hr' hid
      rcases autofs_step_moved maxlen t mounts maxthread _ ev r' hr' with
        ⟨r0, hr0, hm⟩ | hnew
      · have hid0 : r0.ar_id = r.ar_id :=
          (autofs_request_moved_id ev r0 r' hm).symm.trans hid
        obtain ⟨h1, h2, h3, h4⟩ := ih2 r0 hr0 hid0
        obtain ⟨k1, k2, k3, k4⟩ := autofs_request_moved_spared ev r r0 r' hev hid0 h4 hm
        exact ⟨k1.trans h1, k2.trans h2, k3.trans h3, k4.trans h4⟩
      · have ho := autofs_run_inv_order maxlen t mounts maxthread evs
        have := ho.below r hr
        have := hnew.1
        omega

theorem autofs_trigger_one_snapshot_of_mem (sc : autofs_softc) (r : autofs_request)
    (hr : r ∈ sc.sc_requests) :
    ∃ r' ∈ sc.sc_requests, r'.ar_id = r.ar_id ∧
      autofs_trigger_one_snapshot sc r.ar_id = some (r'.ar_error, r'.ar_wildcards) := by
  unfold autofs_trigger_one_snapshot autofs_request_find
  cases hf : sc.sc_requests.find? (fun ar => ar.ar_id = r.ar_id) with
  | none =>
      have := List.find?_eq_none.1 hf r hr
      simp at this
  | some r' =>
      have h1 := List.mem_of_find?_eq_some hf
      have h2 := List.find?_some hf
      exact ⟨r', h1, by simpa using h2, rfl⟩

/-- C11, counterexample: two callers hold request 0 and the daemon completes
it with error 0 and no wildcards.  The first caller returns: it reads
`(0, false)` and returns 0.  Then the timeout task of the request runs,
while the second caller still holds it: the request, linked and done all
along, now has `(ETIMEDOUT, true)`, which the second caller reads and
returns. -/
theorem autofs_run_done_result_overwritten :
    (autofs_run 256 autofs_defaults ex_mounts 8 ex_two_callers).callers = [0, 0] ∧
    (autofs_run 256 autofs_defaults ex_mounts 8 ex_two_callers).sc.sc_requests.map
      (fun r => (r.ar_id, r.ar_done, r.ar_error, r.ar_wildcards, r.ar_refcount)) =
      [(0, true, 0, false, 2)] ∧
    autofs_trigger_one_snapshot
      (autofs_run 256 autofs_defaults ex_mounts 8 ex_two_callers).sc 0 = some (0, false) ∧
    (autofs_trigger_one_finish autofs_defaults
      (autofs_run 256 autofs_defaults ex_mounts 8 ex_two_callers).sc ex_root 0 0).map
      (fun p => p.2.2) = some 0 ∧
    (autofs_run 256 autofs_defaults ex_mounts 8
      (ex_two_callers ++ [.leave 0, .timeout 0])).callers = [0] ∧
    (autofs_run 256 autofs_defaults ex_mounts 8
      (ex_two_callers ++ [.leave 0, .timeout 0])).sc.sc_requests.map
      (fun r => (r.ar_id, r.ar_done, r.ar_error, r.ar_wildcards, r.ar_refcount)) =
      [(0, true, ETIMEDOUT, true, 1)] ∧
    autofs_trigger_one_snapshot
      (autofs_run 256 autofs_defaults ex_mounts 8
        (ex_two_callers ++ [.leave 0, .timeout 0])).sc 0 = some (ETIMEDOUT, true) ∧
    (autofs_trigger_one_finish autofs_defaults
      (autofs_run 256 autofs_defaults ex_mounts 8
        (ex_two_callers ++ [.leave 0, .timeout 0])).sc ex_root 0 0).map
      (fun p => p.2.2) = some ETIMEDOUT := by
  refine ⟨?_, ?_, ?_, ?_, ?_, ?_, ?_, ?_⟩ <;> decide

/-- C11, amended: in every run, let `r` be the linked request with id `id`,
and let the run go on with steps none of which completes `r` (no
`autofs_ioctl_done` with its id, not its timeout task, no pass of the
unmount sweep of its mount).  If a request with that id is still linked
afterwards, it is done exactly if `r` was, it has the error and the
wildcards of `r`, and a caller holding it reads the same
`(request_error, wildcards)` as a caller that read them before those
steps. -/
theorem autofs_run_result_kept (maxlen : Nat) (t : autofs_tunables)
    (mounts : Nat → autofs_mount) (maxthread : Nat) (evs mid : List autofs_event)
    (id : Int) (r : autofs_request)
    (hr : autofs_request_find id
      (autofs_run maxlen t mounts maxthread evs).sc.sc_requests = some r)
    (hmid : ∀ ev ∈ mid, autofs_event_spares r ev)
    (hlinked : ∃ r' ∈ (autofs_run maxlen t mounts maxthread (evs ++ mid)).sc.sc_requests,
      r'.ar_id = id) :
    (∀ r' ∈ (autofs_run maxlen t mounts maxthread (evs ++ mid)).sc.sc_requests,
      r'.ar_id = id →
      r'.ar_done = r.ar_done ∧ r'.ar_error = r.ar_error ∧
      r'.ar_wildcards = r.ar_wildcards) ∧
    autofs_trigger_one_snapshot
      (autofs_run maxlen t mounts maxthread (evs ++ mid)).sc id =
      some (r.ar_error, r.ar_wildcards) ∧
    autofs_trigger_one_snapshot (autofs_run maxlen t mounts maxthread evs).sc id =
      some (r.ar_error, r.ar_wildcards) := by
  have hmem : r ∈ (autofs_run maxlen t mounts maxthread evs).sc.sc_requests :=
    List.mem_of_find?_eq_some hr
  have hrid : r.ar_id = id := by
    have := List.find?_some hr
    simpa using this
  have hsp := (autofs_run_spared maxlen t mounts maxthread evs r hmem mid hmid).2
  refine ⟨?_, ?_, ?_⟩
  · intro r' hr' hid
    obtain ⟨h1, h2, h3, _⟩ := hsp r' hr' (hid.trans hrid.symm)
    exact ⟨h3, h1, h2⟩
  · obtain ⟨r', hr', hid⟩ := hlinked
    obtain ⟨r2, hr2, hid2, hsnap⟩ := autofs_trigger_one_snapshot_of_mem _ r' hr'
    obtain ⟨h1, h2, _, _⟩ := hsp r2 hr2 ((hid2.trans hid).trans hrid.symm)
    rw [← hid, hsnap, h1, h2]
  · unfold autofs_trigger_one_snapshot
    rw [hr]

/-- C11, witness: after the completion of the request of two callers, one
caller returns and the daemon fetches; the other caller still reads
`(0, false)`. -/
theorem autofs_run_result_kept_witness :
    autofs_trigger_one_snapshot
      (autofs_run 256 autofs_defaults ex_mounts 8
        (ex_two_callers ++ [.leave 0, .fetch 7])).sc 0 = some (0, false) :=
  (autofs_run_result_kept 256 autofs_defaults ex_mounts 8 ex_two_callers
    [.leave 0, .fetch 7] 0
    { autofs_request_new 256 autofs_defaults ex_mounts autofs_init ex_root
        "/mnt/".toList "home".toList with ar_done := true, ar_refcount := 2 }
    (by decide)
    (by
      intro ev hev
      simp only [List.mem_cons, List.mem_singleton, List.not_mem_nil, or_false] at hev
      rcases hev with h | h <;> rw [h] <;> trivial)
    ⟨{ autofs_request_new 256 autofs_defaults ex_mounts autofs_init ex_root
        "/mnt/".toList "home".toList with ar_done := true, ar_refcount := 1 },
      by decide, rfl⟩).2.1

/-! ## C12: in progress or done, not both -/

/-- C12: in every state of a run no linked request is in progress and done
at once.  A step that sets `ar_in_progress` on a linked request is a fetch
and finds the request not done, and leaves it so; a step that sets
`ar_done` is `autofs_ioctl_done` with the id of the request, its timeout
task or a pass of the unmount sweep of its mount, and leaves the request
not in progress; a request that a step links is neither in progress nor
done. -/
theorem autofs_run_in_progress_not_done (maxlen : Nat) (t : autofs_tunables)
    (mounts : Nat → autofs_mount) (maxthread : Nat) (evs : List autofs_event) :
    (∀ r ∈ (autofs_run maxlen t mounts maxthread evs).sc.sc_requests,
      ¬(r.ar_in_progress = true ∧ r.ar_done = true)) ∧
    (∀ (ev : autofs_event) (r r' : autofs_request),
      r ∈ (autofs_run maxlen t mounts maxthread evs).sc.sc_requests →
      r' ∈ (autofs_run maxlen t mounts maxthread (evs ++ [ev])).sc.sc_requests →
      r'.ar_id = r.ar_id →
      (r.ar_in_progress = false → r'.ar_in_progress = true →
        r.ar_done = false ∧ r'.ar_done = false ∧ ∃ pg_id, ev = .fetch pg_id) ∧
      (r.ar_done = false → r'.ar_done = true →
        r'.ar_in_progress = false ∧
        ((∃ add, ev = .done add ∧ add.add_id = r.ar_id) ∨ ev = .timeout r.ar_id ∨
          ev = .unmount r.ar_mount))) ∧
    (∀ (ev : autofs_event) (r' : autofs_request),
      r' ∈ (autofs_run maxlen t mounts maxthread (evs ++ [ev])).sc.sc_requests →
      (∀ r ∈ (autofs_run maxlen t mounts maxthread evs).sc.sc_requests,
        r.ar_id ≠ r'.ar_id) →
      r'.ar_in_progress = false ∧ r'.ar_done = false) := by
  refine ⟨?_, ?_, ?_⟩
  · induction evs using List.reverseRecOn with
    | nil =>
        intro r hr
        exact absurd hr (List.not_mem_nil r)
    | append_singleton evs ev ih =>
        intro r' hr'
        rw [autofs_run_snoc] at hr'
        rcases autofs_step_moved maxlen t mounts maxthread _ ev r' hr' with
          ⟨r0, hr0, hm⟩ | ⟨_, h2, h3⟩
        · have h0 := ih r0 hr0
          cases ev with
          | submit anp component componentlen =>
              rcases hm with h | ⟨n, h⟩ <;> rw [h] <;> exact h0
          | leave n =>
              rcases hm with h | ⟨n, h⟩ <;> rw [h] <;> exact h0
          | fetch pg_id =>
              rcases hm with h | ⟨h1, _, h⟩
              · rw [h]; exact h0
              · rw [h]
                intro hc
                rw [h1] at hc
                exact Bool.false_ne_true hc.2
          | done add =>
              rcases hm with h | ⟨_, h⟩
              · rw [h]; exact h0
              · rw [h]; intro hc; exact Bool.false_ne_true hc.1
          | timeout id =>
              rcases hm with h | ⟨_, h⟩
              · rw [h]; exact h0
              · rw [h]; intro hc; exact Bool.false_ne_true hc.1
          | unmount amp =>
              rcases hm with h | ⟨_, h⟩
              · rw [h]; exact h0
              · rw [h]; intro hc; exact Bool.false_ne_true hc.1
        · intro hc
          rw [h3] at hc
          exact Bool.false_ne_true hc.1
  · intro ev r r' hr hr' hid
    have hm := autofs_run_step_same_id maxlen t mounts maxthread evs ev r r' hr hr' hid
    cases ev with
    | submit anp component componentlen =>
        rcases hm with h | ⟨n, h⟩ <;> rw [h] <;> constructor <;> intro h1 h2 <;>
          rw [h1] at h2 <;> exact absurd h2 Bool.false_ne_true
    | leave n =>
        rcases hm with h | ⟨n, h⟩ <;> rw [h] <;> constructor <;> intro h1 h2 <;>
          rw [h1] at h2 <;> exact absurd h2 Bool.false_ne_true
    | fetch pg_id =>
        rcases hm with h | ⟨h1, _, h⟩
        · rw [h]; constructor <;> intro h1 h2 <;>
            rw [h1] at h2 <;> exact absurd h2 Bool.false_ne_true
        · rw [h]
          refine ⟨fun _ _ => ⟨h1, h1, pg_id, rfl⟩, ?_⟩
          intro k1 k2
          exact absurd (k1.symm.trans k2) Bool.false_ne_true
    | done add =>
        rcases hm with h | ⟨h1, h⟩
        · rw [h]; constructor <;> intro h1 h2 <;>
            rw [h1] at h2 <;> exact absurd h2 Bool.false_ne_true
        · rw [h]
          refine ⟨fun _ k2 => absurd k2 Bool.false_ne_true, ?_⟩
          intro _ _
          exact ⟨rfl, Or.inl ⟨add, rfl, h1⟩⟩
    | timeout id =>
        rcases hm with h | ⟨h1, h⟩
        · rw [h]; constructor <;> intro h1 h2 <;>
            rw [h1] at h2 <;> exact absurd h2 Bool.false_ne_true
        · rw [h]
          refine ⟨fun _ k2 => absurd k2 Bool.false_ne_true, ?_⟩
          intro _ _
          exact ⟨rfl, Or.inr (Or.inl (by rw [h1]))⟩
    | unmount amp =>
        rcases hm with h | ⟨h1, h⟩
        · rw [h]; constructor <;> intro h1 h2 <;>
            rw [h1] at h2 <;> exact absurd h2 Bool.false_ne_true
        · rw [h]
          refine ⟨fun _ k2 => absurd k2 Bool.false_ne_true, ?_⟩
          intro _ _
          exact ⟨rfl, Or.inr (Or.inr (by rw [h1]))⟩
  · intro ev r' hr' hnew
    rw [autofs_run_snoc] at hr'
    rcases autofs_step_moved maxlen t mounts maxthread _ ev r' hr' with
      ⟨r0, hr0, hm⟩ | ⟨_, h2, h3⟩
    · exact absurd (autofs_request_moved_id ev r0 r' hm).symm (hnew r0 hr0)
    · exact ⟨h3, h2⟩

/-! ## C21: a new node is found -/

theorem strcmp_self : ∀ s : List Char, strcmp s s = 0
  | [] => rfl
  | a :: s => by
      rw [strcmp, if_pos rfl]
      exact strcmp_self s

theorem strcmp_eq_zero_iff : ∀ a b : List Char, autofs_cstring a → autofs_cstring b →
    (strcmp a b = 0 ↔ a = b)
  | [], [], _, _ => by simp [strcmp]
  | [], b :: s, _, hb => by
      have := hb b (List.mem_cons_self _ _)
      simp only [strcmp, reduceCtorEq, iff_false]
      omega
  | a :: s, [], ha, _ => by
      have := ha a (List.mem_cons_self _ _)
      simp only [strcmp, reduceCtorEq, iff_false]
      omega
  | a :: s1, b :: s2, ha, hb => by
      rw [strcmp]
      by_cases hab : a = b
      · rw [if_pos hab, strcmp_eq_zero_iff s1 s2
          (fun c hc => ha c (List.mem_cons_of_mem _ hc))
          (fun c hc => hb c (List.mem_cons_of_mem _ hc))]
        simp [hab]
      · rw [if_neg hab]
        have hne : a.toNat ≠ b.toNat := fun h => hab
          ((Char.ofNat_toNat a).symm.trans ((congrArg Char.ofNat h).trans (Char.ofNat_toNat b)))
        constructor
        · intro h; omega
        · intro h
          exact absurd (List.cons.inj h).1 hab

/-- The place of a node put into a tree that has no node of its name. -/
theorem autofs_node_tree_RB_INSERT_new (elm : autofs_node) :
    ∀ children : List autofs_node,
      (∀ c ∈ children, strcmp elm.an_name c.an_name ≠ 0) →
      ∃ pre post, children = pre ++ post ∧
        autofs_node_tree_RB_INSERT elm children = pre ++ elm :: post
  | [], _ => ⟨[], [], rfl, rfl⟩
  | c :: rest, h => by
      have hc : strcmp elm.an_name c.an_name ≠ 0 := h c (List.mem_cons_self _ _)
      by_cases hlt : autofs_node_cmp elm c < 0
      · exact ⟨[], c :: rest, rfl, by rw [autofs_node_tree_RB_INSERT, if_pos hlt]; rfl⟩
      · have hgt : autofs_node_cmp elm c > 0 := by
          unfold autofs_node_cmp at hlt ⊢
          omega
        obtain ⟨pre, post, h1, h2⟩ := autofs_node_tree_RB_INSERT_new elm rest
          (fun d hd => h d (List.mem_cons_of_mem _ hd))
        refine ⟨c :: pre, post, by rw [h1]; rfl, ?_⟩
        rw [autofs_node_tree_RB_INSERT, if_neg hlt, if_pos hgt, h2]
        rfl

/-- The name that `autofs_node_find` looks up, for a length in the range of
`int` and a name that fits the memory: the name `autofs_node_new` gives. -/
theorem autofs_node_find_name (name : List Char) (namelen : Int)
    (hint : -(2 : Int) ^ 31 ≤ namelen) (hname : name.length < 2 ^ 63) :
    (if namelen ≥ 0 then kstrndup name (size_t_of_int namelen) else kstrdup name) =
      kstrndup name (size_t_of_int namelen) := by
  by_cases h : namelen ≥ 0
  · rw [if_pos h]
  · rw [if_neg h]
    unfold kstrdup kstrndup size_t_of_int
    rw [List.take_of_length_le]
    have h2 : (2 : Int) ^ 64 - 2 ^ 31 ≤ namelen % 2 ^ 64 := by
      have := Int.emod_emod_of_dvd namelen (dvd_refl ((2 : Int) ^ 64))
      omega
    omega

/-- C21: let the children of `parent`, of different names, have no node of
the name looked up for `(name, namelen)`: `autofs_node_find` returns
`ENOENT`.  Then `autofs_node_new` puts its new node among them, at one
place, the others staying as they are and in their order; a lookup of
`(name, namelen)` now returns 0 and the new node; a lookup of a name that
`strcmp` tells from that of the new node (for strings without the byte 0:
of any other name) returns what it returned before; the new node is not
cached, has no wildcards, no retries, no children and the parent `parent`;
the names of the children are still different from one another.
`namelen` is in the range of `int` and the name fits the memory. -/
theorem autofs_node_new_find (mnt : autofs_mount) (amp : Nat) (parent : autofs_node)
    (siblings : List autofs_node) (name : List Char) (namelen : Int)
    (hint : -(2 : Int) ^ 31 ≤ namelen) (hname : name.length < 2 ^ 63)
    (huniq : (siblings.map (fun c => c.an_name)).Pairwise (fun a b => a ≠ b))
    (hfind : (autofs_node_find siblings name namelen).1 = ENOENT) :
    autofs_node_find (autofs_node_new mnt amp (some parent) siblings name namelen).siblings
        name namelen =
      (0, some (autofs_node_new mnt amp (some parent) siblings name namelen).anp) ∧
    (∀ (name' : List Char) (namelen' : Int),
      strcmp (if namelen' ≥ 0 then kstrndup name' (size_t_of_int namelen')
          else kstrdup name')
        (autofs_node_new mnt amp (some parent) siblings name namelen).anp.an_name ≠ 0 →
      autofs_node_find
          (autofs_node_new mnt amp (some parent) siblings name namelen).siblings
          name' namelen' =
        autofs_node_find siblings name' namelen') ∧
    (∀ (name' : List Char) (namelen' : Int),
      autofs_cstring name' → autofs_cstring name →
      (if namelen' ≥ 0 then kstrndup name' (size_t_of_int namelen') else kstrdup name') ≠
        (if namelen ≥ 0 then kstrndup name (size_t_of_int namelen) else kstrdup name) →
      autofs_node_find
          (autofs_node_new mnt amp (some parent) siblings name namelen).siblings
          name' namelen' =
        autofs_node_find siblings name' namelen') ∧
    (autofs_node_new mnt amp (some parent) siblings name namelen).anp.an_cached = false ∧
    (autofs_node_new mnt amp (some parent) siblings name namelen).anp.an_wildcards = false ∧
    (autofs_node_new mnt amp (some parent) siblings name namelen).anp.an_retries = 0 ∧
    (autofs_node_new mnt amp (some parent) siblings name namelen).an_children = [] ∧
    (autofs_node_new mnt amp (some parent) siblings name namelen).anp.an_parent =
      some parent ∧
    ((autofs_node_new mnt amp (some parent) siblings name namelen).siblings.map
      (fun c => c.an_name)).Pairwise (fun a b => a ≠ b) ∧
    (∃ pre post, siblings = pre ++ post ∧
      (autofs_node_new mnt amp (some parent) siblings name namelen).siblings =
        pre ++ (autofs_node_new mnt amp (some parent) siblings name namelen).anp :: post) := by
  have hkey := autofs_node_find_name name namelen hint hname
  -- no child has the name looked up
  have hnone : ∀ c ∈ siblings,
      strcmp (kstrndup name (size_t_of_int namelen)) c.an_name ≠ 0 := by
    intro c hc hz
    unfold autofs_node_find autofs_node_tree_RB_FIND at hfind
    rw [hkey] at hfind
    cases hf : siblings.find?
        (fun c => strcmp (kstrndup name (size_t_of_int namelen)) c.an_name = 0) with
    | none =>
        have := List.find?_eq_none.1 hf c hc
        simp at this
        exact this hz
    | some d =>
        rw [hf] at hfind
        simp [ENOENT] at hfind
  obtain ⟨pre, post, h1, h2⟩ := autofs_node_tree_RB_INSERT_new
    (autofs_node_new mnt amp (some parent) siblings name namelen).anp siblings hnone
  have hsib : (autofs_node_new mnt amp (some parent) siblings name namelen).siblings =
      pre ++ (autofs_node_new mnt amp (some parent) siblings name namelen).anp :: post := h2
  have hother : ∀ (name' : List Char) (namelen' : Int),
      strcmp (if namelen' ≥ 0 then kstrndup name' (size_t_of_int namelen')
          else kstrdup name')
        (autofs_node_new mnt amp (some parent) siblings name namelen).anp.an_name ≠ 0 →
      autofs_node_find
          (autofs_node_new mnt amp (some parent) siblings name namelen).siblings
          name' namelen' =
        autofs_node_find siblings name' namelen' := by
    intro name' namelen' hne
    unfold autofs_node_find autofs_node_tree_RB_FIND
    rw [hsib, h1, List.find?_append, List.find?_append, List.find?_cons_of_neg _ (by simpa using hne)]
  refine ⟨?_, hother, ?_, rfl, rfl, rfl, rfl, rfl, ?_, pre, post, h1, hsib⟩
  · unfold autofs_node_find autofs_node_tree_RB_FIND
    rw [hsib, hkey, List.find?_append]
    have hpre : pre.find?
        (fun c => strcmp (kstrndup name (size_t_of_int namelen)) c.an_name = 0) = none := by
      rw [List.find?_eq_none]
      intro c hc
      have := hnone c (by rw [h1]; exact List.mem_append_left _ hc)
      simpa using this
    rw [hpre, List.find?_cons_of_pos _ (by
      show decide (strcmp (kstrndup name (size_t_of_int namelen))
        (kstrndup name (size_t_of_int namelen)) = 0) = true
      rw [strcmp_self]; rfl)]
    rfl
  · intro name' namelen' hc' hc hne
    apply hother
    rw [hkey] at hne
    have hcut : autofs_cstring (kstrndup name (size_t_of_int namelen)) :=
      fun c h => hc c (List.mem_of_mem_take h)
    have hcut' : autofs_cstring (if namelen' ≥ 0 then kstrndup name' (size_t_of_int namelen')
        else kstrdup name') := by
      by_cases hn : namelen' ≥ 0
      · rw [if_pos hn]; exact fun c h => hc' c (List.mem_of_mem_take h)
      · rw [if_neg hn]; exact hc'
    intro hz
    exact hne ((strcmp_eq_zero_iff _ _ hcut' hcut).1 hz)
  · rw [hsib]
    have hperm : List.Perm
        ((pre ++ (autofs_node_new mnt amp (some parent) siblings name namelen).anp
          :: post).map (fun c => c.an_name))
        (((autofs_node_new mnt amp (some parent) siblings name namelen).anp
          :: (pre ++ post)).map (fun c => c.an_name)) :=
      List.Perm.map _ List.perm_middle
    rw [List.Perm.pairwise_iff (fun h => Ne.symm h) hperm, List.map_cons, List.pairwise_cons,
      ← h1]
    refine ⟨?_, huniq⟩
    intro b hb
    obtain ⟨c, hc, rfl⟩ := List.mem_map.1 hb
    intro heq
    apply hnone c hc
    have : (autofs_node_new mnt amp (some parent) siblings name namelen).anp.an_name =
      kstrndup name (size_t_of_int namelen) := rfl
    rw [← this, heq]
    exact strcmp_self _

/-- C21, witness: the root has the child `ex_long`; a node `home` is made
under the root and is found. -/
theorem autofs_node_new_find_witness :
    autofs_node_find
        (autofs_node_new (ex_mounts 0) 0 (some ex_root) [ex_long] "home".toList 4).siblings
        "home".toList 4 =
      (0, some (autofs_node_new (ex_mounts 0) 0 (some ex_root) [ex_long]
        "home".toList 4).anp) :=
  (autofs_node_new_find (ex_mounts 0) 0 ex_root [ex_long] "home".toList 4
    (by decide) (by decide) (by simp) (by decide)).1

/-! ## C22: one daemon at a time -/

/-- C22: `autofsopen` returns `EBUSY` exactly when the device is open
already, and then leaves the coordinator state as it is; otherwise it
returns 0 and sets `sc_dev_opened`, and nothing else: the request table,
the recorded process group and the id counter stay.  `autofsclose` returns
0 and clears `sc_dev_opened`, and nothing else; an `autofsopen` after it
returns 0 and leaves the device open. -/
theorem autofsopen_exclusive (sc : autofs_softc) (pg_id pg_id' : Int) :
    ((autofsopen sc pg_id).2 = EBUSY ↔ sc.sc_dev_opened = true) ∧
    (sc.sc_dev_opened = true → (autofsopen sc pg_id).1 = sc) ∧
    (sc.sc_dev_opened = false →
      (autofsopen sc pg_id).2 = 0 ∧
      (autofsopen sc pg_id).1 = { sc with sc_dev_opened := true }) ∧
    (autofsopen sc pg_id).1.sc_requests = sc.sc_requests ∧
    (autofsclose sc pg_id).2 = 0 ∧
    (autofsclose sc pg_id).1 = { sc with sc_dev_opened := false } ∧
    (autofsopen (autofsclose sc pg_id).1 pg_id').2 = 0 ∧
    (autofsopen (autofsclose sc pg_id).1 pg_id').1 = { sc with sc_dev_opened := true } := by
  unfold autofsopen autofsclose
  cases h : sc.sc_dev_opened <;> simp [EBUSY]

/-! ## C24: the wait that is not interruptible -/

/-- C25, counterexample to the claim as written: a process of process group
7 opens the device in the state left by `autofs_init`.  `autofsopen`
returns 0 and the recorded process group is still 0, so
`autofs_ignore_thread` is false for that process; it is true only after
the process has fetched a request.  In every state `autofsopen` leaves
`sc_dev_sid` as it was. -/
theorem autofsopen_keeps_dev_sid :
    (autofsopen autofs_init 7).2 = 0 ∧
    (autofsopen autofs_init 7).1.sc_dev_opened = true ∧
    (autofsopen autofs_init 7).1.sc_dev_sid = 0 ∧
    (autofs_ignore_thread (autofsopen autofs_init 7).1 7).2 = false ∧
    (autofs_ignore_thread
      (autofs_step 256 autofs_defaults ex_mounts 8
        (autofs_step 256 autofs_defaults ex_mounts 8
          ⟨(autofsopen autofs_init 7).1, [], []⟩ (.submit ex_root "home".toList 4))
        (.fetch 7)).sc 7).2 = true ∧
    (∀ (sc : autofs_softc) (pg_id : Int),
      (autofsopen sc pg_id).1.sc_dev_sid = sc.sc_dev_sid) := by
  refine ⟨by decide, by decide, by decide, by decide, by decide, ?_⟩
  intro sc pg_id
  unfold autofsopen
  cases h : sc.sc_dev_opened <;> simp

theorem autofs_ioctl_request_zero (maxlen : Nat) (pg_id : Int)
    (adr : autofs_daemon_request) :
    ∀ (sleeps : List (Int × autofs_softc)) (sc sc' : autofs_softc)
      (adr' : autofs_daemon_request),
      autofs_ioctl_request maxlen pg_id adr sleeps sc = some (sc', adr', 0) →
      sc'.sc_dev_sid = pg_id
  | [], sc, sc', adr', h => by
      unfold autofs_ioctl_request at h
      cases hf : autofs_request_fetch sc.sc_requests with
      | none => rw [hf] at h; simp at h
      | some p =>
          rw [hf] at h
          simp only [Option.some.injEq, Prod.mk.injEq] at h
          rw [← h.1]
  | (e, sc1) :: sleeps, sc, sc', adr', h => by
      unfold autofs_ioctl_request at h
      cases hf : autofs_request_fetch sc.sc_requests with
      | none =>
          rw [hf] at h
          simp only at h
          by_cases he : e ≠ 0
          · rw [if_pos he] at h
            simp only [Option.some.injEq, Prod.mk.injEq] at h
            exact absurd h.2.2 he
          · rw [if_neg he] at h
            exact autofs_ioctl_request_zero maxlen pg_id adr sleeps sc1 sc' adr' h
      | some p =>
          rw [hf] at h
          simp only [Option.some.injEq, Prod.mk.injEq] at h
          rw [← h.1]

/-- C25 (as amended): `autofsopen` leaves `sc_dev_sid` as it was, and leaves
the device open; so right after it `autofs_ignore_thread` is true for the
process that called it exactly when its process group is the one recorded
before.  The process group is recorded by `autofs_ioctl_request`: a call
that finds a request to hand out returns 0 and sets `sc_dev_sid` to the
process group of the caller, and after every call that returns 0
`sc_dev_sid` is that process group, so that `autofs_ignore_thread` is true
for the caller while the device is open. -/
theorem autofs_dev_sid_recorded_at_fetch (maxlen : Nat) (sc : autofs_softc) (pg_id : Int)
    (adr : autofs_daemon_request) (sleeps : List (Int × autofs_softc)) :
    (autofsopen sc pg_id).1.sc_dev_sid = sc.sc_dev_sid ∧
    (autofsopen sc pg_id).1.sc_dev_opened = true ∧
    ((autofs_ignore_thread (autofsopen sc pg_id).1 pg_id).2 = true ↔
      sc.sc_dev_sid = pg_id) ∧
    (∀ (requests : List autofs_request) (ar : autofs_request),
      autofs_request_fetch sc.sc_requests = some (requests, ar) →
      autofs_ioctl_request maxlen pg_id adr sleeps sc =
        some ({ sc with sc_requests := requests, sc_dev_sid := pg_id },
          autofs_daemon_request_copy maxlen ar, 0)) ∧
    (∀ (sc' : autofs_softc) (adr' : autofs_daemon_request),
      autofs_ioctl_request maxlen pg_id adr sleeps sc = some (sc', adr', 0) →
      sc'.sc_dev_sid = pg_id ∧
      (sc'.sc_dev_opened = true → (autofs_ignore_thread sc' pg_id).2 = true)) := by
  have hsid : (autofsopen sc pg_id).1.sc_dev_sid = sc.sc_dev_sid := by
    unfold autofsopen
    cases h : sc.sc_dev_opened <;> simp
  have hopen : (autofsopen sc pg_id).1.sc_dev_opened = true := by
    unfold autofsopen
    cases h : sc.sc_dev_opened <;> simp [h]
  refine ⟨hsid, hopen, ?_, ?_, ?_⟩
  · unfold autofs_ignore_thread
    rw [hopen, hsid]
    by_cases hs : sc.sc_dev_sid = pg_id <;> simp [hs]
  · intro requests ar h
    exact autofs_ioctl_request_of_fetch maxlen pg_id adr sleeps sc requests ar h
  · intro sc' adr' h
    have h1 := autofs_ioctl_request_zero maxlen pg_id adr sleeps sc sc' adr' h
    refine ⟨h1, fun ho => ?_⟩
    unfold autofs_ignore_thread
    simp [ho, h1]

/-! ## C23: the nodes of a mount are deleted -/

/-- One descent deletes a node that has no children and leaves the other
nodes of the tree. -/
theorem autofs_unmount_descend_spec :
    ∀ (children : autofs_node_tree) (anp : autofs_node) (next : autofs_node_tree),
      (autofs_unmount_descend anp children next).1.2 = .nil ∧
      List.Perm
        ((autofs_unmount_descend anp children next).1.1 ::
          autofs_node_tree_nodes (autofs_unmount_descend anp children next).2)
        (autofs_node_tree_nodes (.node anp children next))
  | .nil, anp, next => ⟨rfl, List.Perm.refl _⟩
  | .node child grandchildren others, anp, next => by
      obtain ⟨h1, h2⟩ := autofs_unmount_descend_spec grandchildren child others
      refine ⟨h1, ?_⟩
      show List.Perm
        ((autofs_unmount_descend child grandchildren others).1.1 ::
          (anp :: (autofs_node_tree_nodes (autofs_unmount_descend child grandchildren others).2
            ++ autofs_node_tree_nodes next)))
        (anp :: (autofs_node_tree_nodes (.node child grandchildren others)
            ++ autofs_node_tree_nodes next))
      refine (List.Perm.swap _ _ _).trans (List.Perm.cons _ ?_)
      rw [← List.cons_append]
      exact List.Perm.append_right _ h2

/-- With a turn for every node below the root the loop ends, having deleted
each of them once, none with children. -/
theorem autofs_unmount_loop_spec :
    ∀ (fuel : Nat) (children : autofs_node_tree),
      (autofs_node_tree_nodes children).length ≤ fuel →
      ∃ deleted, autofs_unmount_loop fuel children = some (deleted, .nil) ∧
        (∀ d ∈ deleted, d.2 = .nil) ∧
        List.Perm (deleted.map Prod.fst) (autofs_node_tree_nodes children)
  | fuel, .nil, _ => ⟨[], by cases fuel <;> rfl, by simp, by simp [autofs_node_tree_nodes]⟩
  | 0, .node anp children next, h => by
      simp [autofs_node_tree_nodes] at h
  | fuel + 1, .node anp children next, h => by
      obtain ⟨h1, h2⟩ := autofs_unmount_descend_spec children anp next
      have hlen := h2.length_eq
      rw [List.length_cons] at hlen
      obtain ⟨deleted, k1, k2, k3⟩ := autofs_unmount_loop_spec fuel
        (autofs_unmount_descend anp children next).2 (by omega)
      refine ⟨(autofs_unmount_descend anp children next).1 :: deleted, ?_, ?_, ?_⟩
      · rw [autofs_unmount_loop, k1]
      · intro d hd
        rcases List.mem_cons.1 hd with rfl | hd
        · exact h1
        · exact k2 d hd
      · rw [List.map_cons]
        exact (List.Perm.cons _ k3).trans h2

/-- C23: for a root node with any tree of nodes below it, the end of
`autofs_unmount` with a turn of its loop for every node below the root
returns: it calls `autofs_node_delete` once for each node of the tree, the
root included, so as many times as the tree has nodes; every call is made
on a node that has no children at that time; the root is deleted last. -/
theorem autofs_unmount_nodes_spec (fuel : Nat) (am_root : autofs_node)
    (children : autofs_node_tree)
    (hfuel : (autofs_node_tree_nodes children).length ≤ fuel) :
    ∃ deleted, autofs_unmount_nodes fuel am_root children = some deleted ∧
      deleted.length = (autofs_node_tree_nodes children).length + 1 ∧
      (∀ d ∈ deleted, d.2 = .nil) ∧
      List.Perm (deleted.map Prod.fst) (am_root :: autofs_node_tree_nodes children) ∧
      deleted.getLast? = some (am_root, .nil) := by
  obtain ⟨deleted, k1, k2, k3⟩ := autofs_unmount_loop_spec fuel children hfuel
  refine ⟨deleted ++ [(am_root, .nil)], ?_, ?_, ?_, ?_, ?_⟩
  · rw [autofs_unmount_nodes, k1]
  · rw [List.length_append, ← k3.length_eq, List.length_map]
    rfl
  · intro d hd
    rcases List.mem_append.1 hd with hd | hd
    · exact k2 d hd
    · rw [List.mem_singleton.1 hd]
  · rw [List.map_append]
    exact (List.perm_append_comm).trans (List.Perm.cons _ k3)
  · simp

/-- C23, witness: the tree `ex_tree` below the root: `b`, `a`, `c` and the
root are deleted, in this order. -/
theorem autofs_unmount_nodes_spec_witness :
    (autofs_node_tree_nodes ex_tree).length ≤ 3 ∧
    ((autofs_unmount_nodes 3 ex_root ex_tree).map
      (fun deleted => deleted.map (fun d => d.1.an_name))) =
      some ["b".toList, "a".toList, "c".toList, ['.']] ∧
    ∃ deleted, autofs_unmount_nodes 3 ex_root ex_tree = some deleted ∧
      deleted.length = (autofs_node_tree_nodes ex_tree).length + 1 ∧
      (∀ d ∈ deleted, d.2 = .nil) ∧
      List.Perm (deleted.map Prod.fst) (ex_root :: autofs_node_tree_nodes ex_tree) ∧
      deleted.getLast? = some (ex_root, .nil) :=
  ⟨by decide, by decide, autofs_unmount_nodes_spec 3 ex_root ex_tree (by decide)⟩

end Autofs
